import Mathlib

/-! libxchg: codec and SPSC ring channel.

A shallow embedding of `src/src/xchg.c` (with the declarations of
`src/include/xchg.h`).

Conventions of the embedding

* `size_t` and `uint64_t` are 64-bit machine words: natural numbers with every
  C arithmetic result reduced by `wrap` (`% 2^64`).
* Memory is a flat byte-addressed store `Mem`; a pointer is an address (a
  natural number), and the null pointer is address `0`.
* Multi-byte objects are laid out in host byte order, which is little-endian
  (the tag layout `type:4, lsz:2, list:1, null:1` of the test vectors is the
  little-endian bit-field layout).
* An out-parameter `T *out` is modelled by `Option T` storage that is passed in
  and handed back: `none` is a null pointer, `some old` is storage currently
  holding `old`.
* A `char *` source region handed to the write kernel is modelled by value, as
  the list of bytes found behind the pointer.
* The `message`, `channel` and `value` structures are passed and returned by
  value; a function that stores through such a pointer returns the updated
  structure. Their pointers are taken to be non-null (the `== NULL` guards on
  them return `false` without touching anything), except where a parameter is
  an `Option`.
* `memcpy` and pointer arithmetic are not bounds-checked by the model, no more
  than by C: a store through an out-of-range address lands in `Mem`.
-/

namespace Xchg

/-! ## Machine words, bytes, memory -/

/-- One byte of memory. -/
abbrev Byte := Fin 256

/-- Flat byte-addressed memory. -/
abbrev Mem := Nat → Byte

/-- The null pointer: address `0`. -/
def NULL : Nat := 0

/-- Number of values of a 64-bit machine word (`size_t`, `uint64_t`). -/
def WORD : Nat := 2 ^ 64

/-- Reduction of an arithmetic result to a 64-bit machine word. -/
def wrap (x : Nat) : Nat := x % 2 ^ 64

/-- The low byte of a number. -/
def byte (x : Nat) : Byte := ⟨x % 256, Nat.mod_lt x (by decide)⟩

/-- The first `n` bytes of the little-endian object representation of `v`. -/
def to_le : Nat → Nat → List Byte
  | 0, _ => []
  | n + 1, v => byte v :: to_le n (v / 256)

/-- The unsigned integer held little-endian in the `n` bytes at address `a`
(`memcpy` of `n` bytes into a zero-initialised word). -/
def load_le (mem : Mem) (a : Nat) : Nat → Nat
  | 0 => 0
  | n + 1 => (mem a).val + 256 * load_le mem (a + 1) n

/-- The `n` bytes found at address `a`. -/
def load_bytes (mem : Mem) (a : Nat) (n : Nat) : List Byte :=
  (List.range n).map (fun i => mem (a + i))

/-- C `memcpy(dst, src, n)` with the source region given by value. -/
def memcpy (mem : Mem) (dst : Nat) (src : List Byte) (n : Nat) : Mem :=
  fun a => if dst ≤ a ∧ a < dst + n then src.getD (a - dst) 0 else mem a

/-! ## `enum xchg_type` (xchg.h) -/

def xchg_type_invalid : Nat := 0
def xchg_type_bool : Nat := 1
def xchg_type_int8 : Nat := 2
def xchg_type_uint8 : Nat := 3
def xchg_type_int16 : Nat := 4
def xchg_type_uint16 : Nat := 5
def xchg_type_int32 : Nat := 6
def xchg_type_uint32 : Nat := 7
def xchg_type_int64 : Nat := 8
def xchg_type_uint64 : Nat := 9
def xchg_type_float32 : Nat := 10
def xchg_type_float64 : Nat := 11

/-- The eleven instantiations `(xchg_type, c_type)` of the helper macros
`XCHG_MESSAGE_READ_HELPERS` and `XCHG_MESSAGE_WRITE_HELPERS`. -/
inductive scalar
  | bool | int8 | uint8 | int16 | uint16 | int32 | uint32 | int64 | uint64
  | float32 | float64
  deriving DecidableEq, Repr

/-- The enumerator `xchg_type_##xchg_type` of an instantiation. -/
def scalar.type : scalar → Nat
  | .bool => xchg_type_bool
  | .int8 => xchg_type_int8
  | .uint8 => xchg_type_uint8
  | .int16 => xchg_type_int16
  | .uint16 => xchg_type_uint16
  | .int32 => xchg_type_int32
  | .uint32 => xchg_type_uint32
  | .int64 => xchg_type_int64
  | .uint64 => xchg_type_uint64
  | .float32 => xchg_type_float32
  | .float64 => xchg_type_float64

/-- The size `sizeof(c_type)` of an instantiation. -/
def scalar.sizeof : scalar → Nat
  | .bool => 1
  | .int8 => 1
  | .uint8 => 1
  | .int16 => 2
  | .uint16 => 2
  | .int32 => 4
  | .uint32 => 4
  | .int64 => 8
  | .uint64 => 8
  | .float32 => 4
  | .float64 => 8

/-! ## Tag, value descriptor, message cursor -/

def lsz_from_sz_list (sz_list : Nat) : Nat :=
  if sz_list = 0 then 0 else if sz_list ≤ 0xFF then 1 else if sz_list ≤ 0xFFFF then 2 else 3

def lsz_to_nr_bytes (lsz : Nat) : Nat :=
  if lsz = 0 then 0 else if lsz = 1 then 1 else if lsz = 2 then 2 else 8

/-- The packed one-byte `struct xchg_tag`. -/
structure xchg_tag where
  type : Nat
  lsz : Nat
  list : Bool
  null : Bool
  deriving DecidableEq, Repr

/-- Reading a tag out of its byte (`memcpy(&tag, ..., sizeof(struct xchg_tag))`):
bits 0..3 `type`, bits 4..5 `lsz`, bit 6 `list`, bit 7 `null`. -/
def tag_of_byte (b : Byte) : xchg_tag :=
  { type := b.val % 16
    lsz := b.val / 16 % 4
    list := b.val / 64 % 2 == 1
    null := b.val / 128 % 2 == 1 }

/-- The byte of a tag; storing into a bit-field keeps the low bits of the
value stored. -/
def tag_to_byte (t : xchg_tag) : Byte :=
  byte (t.type % 16 + 16 * (t.lsz % 4) + 64 * (if t.list then 1 else 0)
    + 128 * (if t.null then 1 else 0))

/-- The internal descriptor `struct xchg_value`. `P` is what the `data`
pointer is modelled by: an address for a value that was read, the bytes
behind the pointer for a value to be written. -/
structure xchg_value (P : Type) where
  type : Nat
  null : Bool
  list : Bool
  sz_list : Nat
  data : Option P
  sz_data : Nat

/-- The cursor `struct xchg_message`. -/
structure xchg_message where
  data : Nat
  length : Nat
  position : Nat
  error : Option String
  deriving DecidableEq, Repr

/-- The `switch` over the type code shared by peek, read and write: the payload
size of a non-null value (`sz_list * sizeof(T)` for a list, `sizeof(T)`
otherwise), or `none` in the `default:` case. -/
def switch_sz_data (type : Nat) (list : Bool) (sz_list : Nat) : Option Nat :=
  match type with
  | 1 => some (if list then wrap (sz_list * 1) else 1)
  | 2 => some (if list then wrap (sz_list * 1) else 1)
  | 3 => some (if list then wrap (sz_list * 1) else 1)
  | 4 => some (if list then wrap (sz_list * 2) else 2)
  | 5 => some (if list then wrap (sz_list * 2) else 2)
  | 6 => some (if list then wrap (sz_list * 4) else 4)
  | 7 => some (if list then wrap (sz_list * 4) else 4)
  | 8 => some (if list then wrap (sz_list * 8) else 8)
  | 9 => some (if list then wrap (sz_list * 8) else 8)
  | 10 => some (if list then wrap (sz_list * 4) else 4)
  | 11 => some (if list then wrap (sz_list * 8) else 8)
  | _ => none

/-! ## Cursor operations -/

def ERR_SEEK : String := "attempt to seek outside message bounds"
def ERR_EOF : String := "the message has no more data left to read"
def ERR_TRUNC : String :=
  "the message is not large enough to read the expected amount of data"
def ERR_TYPE : String := "value type should be one of xchg_type_t"
def ERR_NULL_SET : String := "value is null, so data/sz_data/sz_list should be unset"
def ERR_DATA_UNSET : String :=
  "value is not null and not an empty list, so data/sz_data should be set"
def ERR_EMPTY_SET : String := "value is an empty list, so sz_data should be unset"
def ERR_SIZED_UNSET : String := "value is a sized list, so data/sz_data should be set"
def ERR_SZ_DATA : String := "sz_data is not large enough to contain the specified value"
def ERR_NO_SPACE : String := "the message is not large enough to write the specified value"

def xchg_message_reset (message : xchg_message) : Bool × xchg_message :=
  (true, { message with position := 0, error := none })

def xchg_message_seek (message : xchg_message) (position : Nat) : Bool × xchg_message :=
  if message.length ≤ position then
    (false, { message with error := some ERR_SEEK })
  else
    (true, { message with position := position, error := none })

/-- The four optional outputs of `xchg_message_peek`. -/
structure peek_out where
  type : Option Nat
  null : Option Bool
  list : Option Bool
  sz_list : Option Nat
  deriving DecidableEq, Repr

def xchg_message_peek (mem : Mem) (message : xchg_message) (out : peek_out) :
    Bool × xchg_message × peek_out :=
  let position := message.position
  if wrap (position + 1) > message.length then
    (false, { message with error := some ERR_EOF }, out)
  else
    let tag := tag_of_byte (mem (message.data + position))
    let position := wrap (position + 1)
    let with_length := !tag.null && tag.list && decide (tag.lsz > 0)
    let nr_bytes := lsz_to_nr_bytes tag.lsz
    if with_length && decide (wrap (position + nr_bytes) > message.length) then
      (false, { message with error := some ERR_TRUNC }, out)
    else
      let _sz_list := if with_length then load_le mem (message.data + position) nr_bytes else 0
      let position := if with_length then wrap (position + nr_bytes) else position
      match switch_sz_data tag.type tag.list _sz_list with
      | none => (false, { message with error := some ERR_TYPE }, out)
      | some sz =>
        let sz_data := if tag.null then 0 else sz
        if !tag.null && decide (wrap (position + sz_data) > message.length) then
          (false, { message with error := some ERR_TRUNC }, out)
        else
          (true, { message with error := none },
            { sz_list := out.sz_list.map (fun _ => _sz_list)
              type := out.type.map (fun _ => tag.type)
              null := out.null.map (fun _ => tag.null)
              list := out.list.map (fun _ => tag.list) })

def xchg_message_read (mem : Mem) (message : xchg_message) :
    Bool × xchg_message × Option (xchg_value Nat) :=
  let position := message.position
  if wrap (position + 1) > message.length then
    (false, { message with error := some ERR_EOF }, none)
  else
    let tag := tag_of_byte (mem (message.data + position))
    let position := wrap (position + 1)
    let with_length := !tag.null && tag.list && decide (tag.lsz > 0)
    let nr_bytes := lsz_to_nr_bytes tag.lsz
    if with_length && decide (wrap (position + nr_bytes) > message.length) then
      (false, { message with error := some ERR_TRUNC }, none)
    else
      let sz_list := if with_length then load_le mem (message.data + position) nr_bytes else 0
      let position := if with_length then wrap (position + nr_bytes) else position
      match switch_sz_data tag.type tag.list sz_list with
      | none => (false, { message with error := some ERR_TYPE }, none)
      | some sz =>
        let sz_data := if tag.null then 0 else sz
        if decide (sz_data > 0) && decide (wrap (position + sz_data) > message.length) then
          (false, { message with error := some ERR_TRUNC }, none)
        else
          let data := if sz_data > 0 then some (message.data + position) else none
          let position := if sz_data > 0 then wrap (position + sz_data) else position
          (true, { message with position := position, error := none },
            some { type := tag.type, null := tag.null, list := tag.list, sz_list := sz_list
                   data := data, sz_data := sz_data })

/-! ## Typed readers (`XCHG_MESSAGE_READ_HELPERS`, `read_null`, `read_null_list`) -/

/-- Macro-generated `xchg_message_read_<T>`: `value` is the out-parameter. -/
def xchg_message_read_scalar (T : scalar) (mem : Mem) (message : xchg_message)
    (value : Option Nat) : Bool × xchg_message × Option Nat :=
  match value with
  | none => (false, message, value)
  | some _ =>
    if wrap (message.position + 1) > message.length then
      (false, { message with error := some ERR_EOF }, value)
    else
      let tag := tag_of_byte (mem (message.data + message.position))
      if tag.list || tag.null || tag.type != T.type then
        (false, message, value)
      else
        match xchg_message_read mem message with
        | (true, message1, some v) =>
          (true, message1, some (load_le mem (v.data.getD NULL) T.sizeof))
        | (_, message1, _) => (false, message1, value)

/-- Macro-generated `xchg_message_read_<T>_list`: `list` and `sz_list` are the
out-parameters. -/
def xchg_message_read_list (T : scalar) (mem : Mem) (message : xchg_message)
    (list : Option (Option Nat)) (sz_list : Option Nat) :
    Bool × xchg_message × Option (Option Nat) × Option Nat :=
  match list, sz_list with
  | some _, some _ =>
    if wrap (message.position + 1) > message.length then
      (false, { message with error := some ERR_EOF }, list, sz_list)
    else
      let tag := tag_of_byte (mem (message.data + message.position))
      if !tag.list || tag.null || tag.type != T.type then
        (false, message, list, sz_list)
      else
        match xchg_message_read mem message with
        | (true, message1, some v) => (true, message1, some v.data, some v.sz_list)
        | (_, message1, _) => (false, message1, list, sz_list)
  | _, _ => (false, message, list, sz_list)

def xchg_message_read_null (mem : Mem) (message : xchg_message) (type : Option Nat) :
    Bool × xchg_message × Option Nat :=
  match type with
  | none => (false, message, type)
  | some _ =>
    if wrap (message.position + 1) > message.length then
      (false, { message with error := some ERR_EOF }, type)
    else
      let tag := tag_of_byte (mem (message.data + message.position))
      if tag.list || !tag.null then
        (false, message, type)
      else
        match xchg_message_read mem message with
        | (true, message1, some value) => (true, message1, some value.type)
        | (_, message1, _) => (false, message1, type)

def xchg_message_read_null_list (mem : Mem) (message : xchg_message) (type : Option Nat) :
    Bool × xchg_message × Option Nat :=
  match type with
  | none => (false, message, type)
  | some _ =>
    if wrap (message.position + 1) > message.length then
      (false, { message with error := some ERR_EOF }, type)
    else
      let tag := tag_of_byte (mem (message.data + message.position))
      if !tag.list || !tag.null then
        (false, message, type)
      else
        match xchg_message_read mem message with
        | (true, message1, some v) => (true, message1, some v.type)
        | (_, message1, _) => (false, message1, type)

/-! ## The write kernel and the typed writers -/

def xchg_message_write (mem : Mem) (message : xchg_message) (value : xchg_value (List Byte)) :
    Bool × Mem × xchg_message :=
  if value.null && (value.data.isSome || decide (value.sz_data > 0)
      || decide (value.sz_list > 0)) then
    (false, mem, { message with error := some ERR_NULL_SET })
  else if !value.null && (value.data.isNone || decide (value.sz_data = 0))
      && !(value.list && decide (value.sz_list = 0)) then
    (false, mem, { message with error := some ERR_DATA_UNSET })
  else if value.list && decide (value.sz_list = 0) && decide (value.sz_data > 0) then
    (false, mem, { message with error := some ERR_EMPTY_SET })
  else if value.list && decide (value.sz_list > 0)
      && (value.data.isNone || decide (value.sz_data = 0)) then
    (false, mem, { message with error := some ERR_SIZED_UNSET })
  else
    match (if value.null then some 0 else switch_sz_data value.type value.list value.sz_list) with
    | none => (false, mem, { message with error := some ERR_TYPE })
    | some sz_data =>
      if value.sz_data < sz_data then
        (false, mem, { message with error := some ERR_SZ_DATA })
      else
        let tag : xchg_tag :=
          { type := value.type
            lsz := if value.list then lsz_from_sz_list sz_data else 0
            null := value.null
            list := value.list }
        let nr_bytes := if value.list then lsz_to_nr_bytes (tag.lsz % 4) else 0
        if wrap (message.position + 1 + nr_bytes + sz_data) > message.length then
          (false, mem, { message with error := some ERR_NO_SPACE })
        else
          let mem1 := memcpy mem (message.data + message.position) [tag_to_byte tag] 1
          let position1 := wrap (message.position + 1)
          let mem2 :=
            if nr_bytes > 0 then memcpy mem1 (message.data + position1) (to_le 8 value.sz_list) nr_bytes
            else mem1
          let position2 := if nr_bytes > 0 then wrap (position1 + nr_bytes) else position1
          let mem3 := memcpy mem2 (message.data + position2) (value.data.getD []) sz_data
          let position3 := wrap (position2 + sz_data)
          (true, mem3, { message with position := position3, error := none })

/-- The object representation `(char *)list` of an array of `c_type`. -/
def array_bytes (T : scalar) : List Nat → List Byte
  | [] => []
  | x :: xs => to_le T.sizeof x ++ array_bytes T xs

/-- Macro-generated `xchg_message_write_<T>`. -/
def xchg_message_write_scalar (T : scalar) (mem : Mem) (message : xchg_message) (value : Nat) :
    Bool × Mem × xchg_message :=
  xchg_message_write mem message
    { type := T.type, null := false, list := false, sz_list := 0
      data := some (to_le T.sizeof value), sz_data := T.sizeof }

/-- Macro-generated `xchg_message_write_<T>_list`; `list = none` is a null
array pointer. -/
def xchg_message_write_list (T : scalar) (mem : Mem) (message : xchg_message)
    (list : Option (List Nat)) (sz_list : Nat) : Bool × Mem × xchg_message :=
  xchg_message_write mem message
    { type := T.type, null := false, list := true, sz_list := sz_list
      data := if sz_list > 0 then list.map (array_bytes T) else none
      sz_data := wrap (sz_list * T.sizeof) }

def xchg_message_write_null (mem : Mem) (message : xchg_message) (type : Nat) :
    Bool × Mem × xchg_message :=
  xchg_message_write mem message
    { type := type, null := true, list := false, sz_list := 0, data := none, sz_data := 0 }

def xchg_message_write_null_list (mem : Mem) (message : xchg_message) (type : Nat) :
    Bool × Mem × xchg_message :=
  xchg_message_write mem message
    { type := type, null := true, list := true, sz_list := 0, data := none, sz_data := 0 }

/-! ## Ring and channel -/

/-- Subtraction of machine words (`a - b` on `size_t`). -/
def wsub (a b : Nat) : Nat := (a % 2 ^ 64 + 2 ^ 64 - b % 2 ^ 64) % 2 ^ 64

/-- A 64-bit word read from memory (`*ring->r`, `*ring->w`). -/
def load64 (mem : Mem) (a : Nat) : Nat := load_le mem a 8

/-- A 64-bit word stored to memory. -/
def store64 (mem : Mem) (a : Nat) (v : Nat) : Mem := memcpy mem a (to_le 8 v) 8

/-- The loop of `flp2`: `while(y > x && y > 2) y = y >> 1`. Starting from
`2^63` the loop body runs at most 62 times, so the 64 units of fuel given by
`flp2` are never exhausted. -/
def flp2_loop (x : Nat) : Nat → Nat → Nat
  | 0, y => y
  | fuel + 1, y => if y > x ∧ y > 2 then flp2_loop x fuel (y / 2) else y

def flp2 (x : Nat) : Nat := flp2_loop x 64 (2 ^ 63)

/-- The endpoint-local `struct xchg_ring`: `r`, `w` and `data` are pointers
into the caller's buffer, `cr` and `cw` the shadows of the two indices. -/
structure xchg_ring where
  r : Nat
  cr : Nat
  w : Nat
  cw : Nat
  data : Nat
  sz_data : Nat
  sz_message : Nat
  mask : Nat
  deriving DecidableEq, Repr

structure xchg_channel where
  ingress : xchg_ring
  egress : xchg_ring
  error : Option String
  deriving DecidableEq, Repr

def ERR_MSG_SIZE : String := "message size is invalid"
def ERR_INGRESS_SIZE : String := "ingress size is invalid"
def ERR_EGRESS_SIZE : String := "egress size is invalid"
def ERR_NO_EGRESS : String := "channel has no egress"
def ERR_NO_INGRESS : String := "channel has no ingress"
def ERR_FULL : String := "channel is full"
def ERR_EMPTY : String := "channel is empty"
def ERR_INVALID_MSG : String := "message is invalid"

/-- The function `xchg_message_init`; `message = none` is a null pointer. -/
def xchg_message_init (message : Option xchg_message) (data : Nat) (sz_data : Nat) :
    Bool × Option xchg_message :=
  match message with
  | none => (false, none)
  | some _ =>
    if data = NULL ∨ sz_data = 0 then (false, message)
    else (true, some { data := data, length := sz_data, position := 0, error := none })

/-- The function `nr_used`: the used bytes and the ring with its `cw` shadow
possibly refreshed. -/
def nr_used (mem : Mem) (ring : xchg_ring) (wanted : Nat) : Nat × xchg_ring :=
  let used := wsub ring.cw ring.cr
  if used < wanted then
    let ring1 := { ring with cw := load64 mem ring.w }
    (wsub ring1.cw ring1.cr, ring1)
  else (used, ring)

/-- The function `nr_free`: the free bytes and the ring with its `cr` shadow
possibly refreshed. -/
def nr_free (mem : Mem) (ring : xchg_ring) (wanted : Nat) : Nat × xchg_ring :=
  let free := wsub ring.cr ring.cw
  if free < wanted then
    let ring1 := { ring with cr := wrap (load64 mem ring.r + ring.sz_data) }
    (wsub ring1.cr ring1.cw, ring1)
  else (free, ring)

/-- The ring fields set by `xchg_channel_init` for a buffer at address `buf`
whose data area has `sz_buf_data` bytes. -/
def ring_attach (mem : Mem) (buf : Nat) (sz_buf_data sz_message : Nat) : xchg_ring :=
  { r := buf + 8 * 0
    cr := load64 mem (buf + 8 * 0)
    w := buf + 8 * 1
    cw := load64 mem (buf + 8 * 1)
    data := buf + 8 * 2
    sz_data := sz_buf_data
    sz_message := sz_message
    mask := wsub sz_buf_data 1 }

def xchg_channel_init (mem : Mem) (channel : xchg_channel) (sz_message : Nat)
    (ingress : Nat) (sz_ingress : Nat) (egress : Nat) (sz_egress : Nat) :
    Bool × xchg_channel :=
  if ingress = NULL ∧ egress = NULL then (false, channel)
  else if flp2 sz_message ≠ sz_message then
    (false, { channel with error := some ERR_MSG_SIZE })
  else
    let sz_ingress_data := wsub (wsub sz_ingress 8) 8
    if ingress ≠ NULL ∧ (flp2 sz_ingress_data ≠ sz_ingress_data
        ∨ sz_ingress_data % sz_message ≠ 0) then
      (false, { channel with error := some ERR_INGRESS_SIZE })
    else
      let sz_egress_data := wsub (wsub sz_egress 8) 8
      if egress ≠ NULL ∧ (flp2 sz_egress_data ≠ sz_egress_data
          ∨ sz_egress_data % sz_message ≠ 0) then
        (false, { channel with error := some ERR_EGRESS_SIZE })
      else
        let channel1 :=
          if ingress ≠ NULL then
            { channel with ingress := ring_attach mem ingress sz_ingress_data sz_message }
          else channel
        let channel2 :=
          if egress ≠ NULL then
            { channel1 with egress := ring_attach mem egress sz_egress_data sz_message }
          else channel1
        (true, { channel2 with error := none })

def xchg_channel_prepare (mem : Mem) (channel : xchg_channel) (message : xchg_message) :
    Bool × xchg_channel × xchg_message :=
  if channel.egress.data = NULL then
    (false, { channel with error := some ERR_NO_EGRESS }, message)
  else
    let (free, ring) := nr_free mem channel.egress channel.egress.sz_message
    if free < ring.sz_message then
      (false, { channel with egress := ring, error := some ERR_FULL }, message)
    else
      let data_offset := ring.cw &&& ring.mask
      let data := ring.data + data_offset
      let message1 := (xchg_message_init (some message) data ring.sz_message).2.getD message
      (true, { channel with egress := ring, error := none }, message1)

def xchg_channel_send (mem : Mem) (channel : xchg_channel) (message : xchg_message) :
    Bool × Mem × xchg_channel :=
  let ring := channel.egress
  if ring.data = NULL then
    (false, mem, { channel with error := some ERR_NO_EGRESS })
  else
    let data_offset := ring.cw &&& ring.mask
    let data := ring.data + data_offset
    if message.length ≠ ring.sz_message ∨ data ≠ message.data then
      (false, mem, { channel with error := some ERR_INVALID_MSG })
    else
      let ring1 := { ring with cw := wrap (ring.cw + ring.sz_message) }
      let mem1 := store64 mem ring.w (wrap (load64 mem ring.w + ring.sz_message))
      (true, mem1, { channel with egress := ring1, error := none })

def xchg_channel_receive (mem : Mem) (channel : xchg_channel) (message : xchg_message) :
    Bool × xchg_channel × xchg_message :=
  if channel.ingress.data = NULL then
    (false, { channel with error := some ERR_NO_INGRESS }, message)
  else
    let (used, ring) := nr_used mem channel.ingress channel.ingress.sz_message
    if used < ring.sz_message then
      (false, { channel with ingress := ring, error := some ERR_EMPTY }, message)
    else
      let data_offset := ring.cr &&& ring.mask
      let data := ring.data + data_offset
      let message1 := (xchg_message_init (some message) data ring.sz_message).2.getD message
      (true, { channel with ingress := ring, error := none }, message1)

def xchg_channel_return (mem : Mem) (channel : xchg_channel) (message : xchg_message) :
    Bool × Mem × xchg_channel :=
  let ring := channel.ingress
  if ring.data = NULL then
    (false, mem, { channel with error := some ERR_NO_INGRESS })
  else
    let data_offset := ring.cr &&& ring.mask
    let data := ring.data + data_offset
    if message.length ≠ ring.sz_message ∨ data ≠ message.data then
      (false, mem, { channel with error := some ERR_INVALID_MSG })
    else
      let ring1 := { ring with cr := wrap (ring.cr + ring.sz_message) }
      let mem1 := store64 mem ring.r (wrap (load64 mem ring.r + ring.sz_message))
      (true, mem1, { channel with ingress := ring1, error := none })

/-! ## Scenario drivers (the call sequences of `tests/channel.cpp`) -/

/-- A cursor that has not been bound yet (`struct xchg_message message = {}`). -/
def unbound : xchg_message := { data := NULL, length := 0, position := 0, error := none }

/-- One `prepare` immediately followed by `send` of the cursor it bound. -/
def prepare_send (mem : Mem) (channel : xchg_channel) : Bool × Mem × xchg_channel :=
  match xchg_channel_prepare mem channel unbound with
  | (true, channel1, message) => xchg_channel_send mem channel1 message
  | (false, channel1, _) => (false, mem, channel1)

/-- One `receive` immediately followed by `return` of the cursor it bound. -/
def receive_return (mem : Mem) (channel : xchg_channel) : Bool × Mem × xchg_channel :=
  match xchg_channel_receive mem channel unbound with
  | (true, channel1, message) => xchg_channel_return mem channel1 message
  | (false, channel1, _) => (false, mem, channel1)

/-- `k` consecutive `prepare`+`send` pairs; the flag tells whether all of them
succeeded. -/
def prepare_send_n : Nat → Mem → xchg_channel → Bool × Mem × xchg_channel
  | 0, mem, channel => (true, mem, channel)
  | k + 1, mem, channel =>
    match prepare_send_n k mem channel with
    | (true, mem1, channel1) => prepare_send mem1 channel1
    | (false, mem1, channel1) => (false, mem1, channel1)

/-! ## Two endpoints over one ring

A producer endpoint (its egress ring) and a consumer endpoint (its ingress
ring) attached to the same buffer, with the memory they share as explicit
state. The three lists are a history kept for stating properties; the code
never reads them. -/

/-- One call made by the producer or by the consumer. -/
inductive Action
  | prepare
  | write (value : xchg_value (List Byte))
  | send
  | receive
  | read
  | give_back

/-- The shared memory, both endpoints, the cursor each side currently holds, and
the history of successful `prepare`, `send` and `receive` calls. -/
structure Endpoints where
  mem : Mem
  producer : xchg_channel
  consumer : xchg_channel
  pcur : Option xchg_message
  ccur : Option xchg_message
  prepared : List Nat
  sent : List (List Byte)
  received : List (Nat × List Byte)

/-- One step of the protocol `Idle → (prepare|receive) → Bound → (send|return) →
Idle`. The result is `none` when the call is not allowed by the protocol in the
current state: `prepare` (`receive`) while the producer (consumer) still holds a
cursor, `write`/`send` (`read`/`return`) without one, and a `write` whose
space check would wrap around a machine word (such a write stores outside the
slot). A successful `prepare` records the offset of the slot it bound, a
successful `send` the bytes of the slot it published, a successful `receive`
the offset of the slot it bound and the bytes found there. -/
def step (S : Endpoints) : Action → Option Endpoints
  | .prepare =>
    match S.pcur with
    | some _ => none
    | none =>
      match xchg_channel_prepare S.mem S.producer unbound with
      | (true, channel, message) =>
        some { S with
          producer := channel
          pcur := some message
          prepared := S.prepared ++ [message.data - channel.egress.data] }
      | (false, channel, _) => some { S with producer := channel }
  | .write value =>
    match S.pcur with
    | none => none
    | some message =>
      if message.position + 9 + value.sz_data < 2 ^ 64 then
        match xchg_message_write S.mem message value with
        | (_, mem, message1) => some { S with mem := mem, pcur := some message1 }
      else none
  | .send =>
    match S.pcur with
    | none => none
    | some message =>
      match xchg_channel_send S.mem S.producer message with
      | (true, mem, channel) =>
        some { S with
          mem := mem
          producer := channel
          pcur := none
          sent := S.sent ++ [load_bytes S.mem message.data message.length] }
      | (false, mem, channel) => some { S with mem := mem, producer := channel }
  | .receive =>
    match S.ccur with
    | some _ => none
    | none =>
      match xchg_channel_receive S.mem S.consumer unbound with
      | (true, channel, message) =>
        some { S with
          consumer := channel
          ccur := some message
          received := S.received ++
            [(message.data - channel.ingress.data,
              load_bytes S.mem message.data message.length)] }
      | (false, channel, _) => some { S with consumer := channel }
  | .read =>
    match S.ccur with
    | none => none
    | some message =>
      match xchg_message_read S.mem message with
      | (_, message1, _) => some { S with ccur := some message1 }
  | .give_back =>
    match S.ccur with
    | none => none
    | some message =>
      match xchg_channel_return S.mem S.consumer message with
      | (true, mem, channel) =>
        some { S with mem := mem, consumer := channel, ccur := none }
      | (false, mem, channel) => some { S with mem := mem, consumer := channel }

/-- An interleaving of producer and consumer calls, run from state `S`. -/
def run (S : Endpoints) : List Action → Option Endpoints
  | [] => some S
  | a :: as =>
    match step S a with
    | none => none
    | some S1 => run S1 as

/-- Two freshly initialised endpoints and an empty history. -/
def fresh (mem : Mem) (producer consumer : xchg_channel) : Endpoints :=
  { mem := mem, producer := producer, consumer := consumer, pcur := none, ccur := none
    prepared := [], sent := [], received := [] }

/-! ## The error accessors and the loop of the fuzz harness -/

/-- The function `xchg_channel_strerror` on a non-null channel. -/
def xchg_channel_strerror (channel : xchg_channel) : Option String := channel.error

/-- The function `xchg_message_strerror` on a non-null cursor. -/
def xchg_message_strerror (message : xchg_message) : Option String := message.error

/-- The `switch(type)` of `fuzz_message`: the instantiation of `consume_message`
chosen for a type code, `none` in the `default:` case. -/
def scalar_of_type (type : Nat) : Option scalar :=
  match type with
  | 1 => some .bool
  | 2 => some .int8
  | 3 => some .uint8
  | 4 => some .int16
  | 5 => some .uint16
  | 6 => some .int32
  | 7 => some .uint32
  | 8 => some .int64
  | 9 => some .uint64
  | 10 => some .float32
  | 11 => some .float64
  | _ => none

/-- One iteration of the loop of `fuzz_message` (tests/fuzz/fuzz.cpp):
`xchg_message_peek`, then the typed reader that `consume_message` selects from
the peeked type, null flag and list flag. The result is `none` when the loop
ends (peek failed, or the `default:` case), otherwise the cursor for the next
iteration. -/
def fuzz_step (mem : Mem) (message : xchg_message) : Option xchg_message :=
  match xchg_message_peek mem message ⟨some 0, some false, some false, some 0⟩ with
  | (true, message1, ⟨some type, some null, some list, some _⟩) =>
    match scalar_of_type type with
    | none => none
    | some T =>
      if list then
        if null then some (xchg_message_read_null_list mem message1 (some 0)).2.1
        else some (xchg_message_read_list T mem message1 (some none) (some 0)).2.1
      else
        if null then some (xchg_message_read_null mem message1 (some 0)).2.1
        else some (xchg_message_read_scalar T mem message1 (some 0)).2.1
  | _ => none

/-- The loop of `fuzz_message` run for at most `fuel` iterations: the cursor at
which the loop ended, or `none` when it is still running after `fuel`
iterations. -/
def fuzz_loop : Nat → Mem → xchg_message → Option xchg_message
  | 0, _, _ => none
  | fuel + 1, mem, message =>
    match fuzz_step mem message with
    | none => some message
    | some message1 => fuzz_loop fuel mem message1

/-! ## Invariants and test data used in the proofs -/

/-- Facts about a slot size `s` and a data area `M` that `xchg_channel_init`
accepts. -/
structure Geometry (s M : Nat) : Prop where
  hs : 2 ≤ s
  hM : M ≤ 2 ^ 63
  hsM : s ≤ M
  hdiv : M % s = 0
  hpow : ∃ b, M = 2 ^ b

/-- The published indices of the ring at `B`: `ns` slots sent and `nr` slots
returned since both indices were `x`. -/
def SharedInv (B s M x ns nr : Nat) (mem : Mem) : Prop :=
  load64 mem B = wrap (x + nr * s) ∧ load64 mem (B + 8) = wrap (x + ns * s) ∧
  nr * s ≤ ns * s ∧ ns * s ≤ nr * s + M

/-- The producer's egress ring over the buffer at `B`. -/
def ProdInv (B s M x ns nr : Nat) (ch : xchg_channel) : Prop :=
  ch.egress.r = B ∧ ch.egress.w = B + 8 ∧ ch.egress.data = B + 16 ∧
  ch.egress.sz_data = M ∧ ch.egress.sz_message = s ∧ ch.egress.mask = M - 1 ∧
  ch.egress.cw = wrap (x + ns * s) ∧
  wsub ch.egress.cr ch.egress.cw + ns * s ≤ nr * s + M

/-- The consumer's ingress ring over the buffer at `B`. -/
def ConsInv (B s M x ns nr : Nat) (ch : xchg_channel) : Prop :=
  ch.ingress.r = B ∧ ch.ingress.w = B + 8 ∧ ch.ingress.data = B + 16 ∧
  ch.ingress.sz_data = M ∧ ch.ingress.sz_message = s ∧ ch.ingress.mask = M - 1 ∧
  ch.ingress.cr = wrap (x + nr * s) ∧
  wsub ch.ingress.cw ch.ingress.cr + nr * s ≤ ns * s

/-- Offset, in the data area, of the slot with running number `k`. -/
def slot_off (s M x k : Nat) : Nat := wrap (x + k * s) &&& (M - 1)

/-- The state of two endpoints after `ns` sends and `nr` returns on a ring whose
indices started at `x`; `log k` is the content of slot number `k` when it was
sent. -/
structure SysInv (B s M x ns nr : Nat) (log : Nat → List Byte) (S : Endpoints) : Prop where
  shared : SharedInv B s M x ns nr S.mem
  prod : ProdInv B s M x ns nr S.producer
  cons : ConsInv B s M x ns nr S.consumer
  pcur : ∀ msg, S.pcur = some msg → msg.data = B + 16 + slot_off s M x ns ∧ msg.length = s ∧
    s ≤ wsub S.producer.egress.cr S.producer.egress.cw
  ccur : ∀ msg, S.ccur = some msg → msg.data = B + 16 + slot_off s M x nr ∧ msg.length = s ∧
    s ≤ wsub S.consumer.ingress.cw S.consumer.ingress.cr
  prepared : S.prepared =
    (List.range (ns + (if S.pcur.isSome then 1 else 0))).map (slot_off s M x)
  sent : S.sent = (List.range ns).map log
  received : S.received =
    (List.range (nr + (if S.ccur.isSome then 1 else 0))).map (fun k => (slot_off s M x k, log k))
  slots : ∀ k, nr ≤ k → k < ns → load_bytes S.mem (B + 16 + slot_off s M x k) s = log k

def zero_mem : Mem := fun _ => 0

def zero_channel : xchg_channel :=
  { ingress := ⟨0, 0, 0, 0, 0, 0, 0, 0⟩, egress := ⟨0, 0, 0, 0, 0, 0, 0, 0⟩, error := none }

/-- The 3-byte test buffer `82 84 86` (nulls of `int8`, `int16`, `int32`) placed at
address `a`. -/
def nulls_buffer (a : Nat) : Mem := fun x =>
  if x = a then 0x82 else if x = a + 1 then 0x84 else if x = a + 2 then 0x86 else 0

/-- The 9-byte buffer `73 F7 FF FF FF FF FF FF FF` placed at address `a`: the tag
of a non-null `uint8` list with an 8-byte length prefix, then the count
`2^64 - 9`. -/
def oversized_uint8_list (a : Nat) : Mem := fun x =>
  if x = a then 0x73 else if x = a + 1 then 0xF7 else if x ≤ a + 8 then 0xFF else 0

/-- The 9-byte buffer `78 00 00 00 00 00 00 00 20` placed at address `a`: the tag
of a non-null `int64` list with an 8-byte length prefix, then the count
`2^61`. -/
def oversized_int64_list (a : Nat) : Mem := fun x =>
  if x = a then 0x78 else if x = a + 8 then 0x20 else 0

/-- The payload of `tests/channel.cpp`: the 12 bytes of "alex forster" as a
`uint8` list. -/
def alex_forster : xchg_value (List Byte) :=
  { type := xchg_type_uint8, null := false, list := true, sz_list := 12
    data := some [0x61, 0x6c, 0x65, 0x78, 0x20, 0x66, 0x6f, 0x72, 0x73, 0x74, 0x65, 0x72]
    sz_data := 12 }

/-- One round of the wraparound test: prepare, write, send, receive, read,
return. -/
def demo_trace : List Action :=
  [.prepare, .write alex_forster, .send, .receive, .read, .give_back]

/-- The state after `demo_trace` on a zeroed 144-byte buffer at address 4096 with
slot size 64. -/
def demo_state : Endpoints :=
  (run (fresh zero_mem (xchg_channel_init zero_mem zero_channel 64 NULL 0 4096 144).2
      (xchg_channel_init zero_mem zero_channel 64 4096 144 NULL 0).2) demo_trace).getD
    (fresh zero_mem zero_channel zero_channel)

/-- The producer endpoint over a zeroed 80-byte buffer at address 4096 with slot
size 64: the data area is a single slot (`M = s = 64`). -/
def single_slot_producer : xchg_channel :=
  (xchg_channel_init zero_mem zero_channel 64 NULL 0 4096 80).2

/-- The consumer endpoint over the same 80-byte buffer. -/
def single_slot_consumer : xchg_channel :=
  (xchg_channel_init zero_mem zero_channel 64 4096 80 NULL 0).2

/-- The cursor bound to the slot at offset 0 of the buffer at address 4096. -/
def slot0 : xchg_message := { data := 4112, length := 64, position := 0, error := none }

/-- The 12 characters of "alex forster", the payload of the wraparound test. -/
def alex_forster_chars : List Nat :=
  [0x61, 0x6c, 0x65, 0x78, 0x20, 0x66, 0x6f, 0x72, 0x73, 0x74, 0x65, 0x72]

/-- One iteration of the loop of the test "channel send/receive wraparound":
`prepare`, `write_uint8_list("alex forster", 12)`, `send` on endpoint `a`, then
`receive`, `read_uint8_list`, `return` on endpoint `b`. The result is `none` as
soon as one of the six calls fails or the list read back is not the 12 bytes
written with count 12. -/
def wraparound_round (mem : Mem) (a b : xchg_channel) : Option (Mem × xchg_channel × xchg_channel) :=
  match xchg_channel_prepare mem a unbound with
  | (false, _, _) => none
  | (true, a1, message) =>
    match xchg_message_write_list .uint8 mem message (some alex_forster_chars) 12 with
    | (false, _, _) => none
    | (true, mem1, message1) =>
      match xchg_channel_send mem1 a1 message1 with
      | (false, _, _) => none
      | (true, mem2, a2) =>
        match xchg_channel_receive mem2 b message1 with
        | (false, _, _) => none
        | (true, b1, message2) =>
          match xchg_message_read_list .uint8 mem2 message2 (some none) (some 0) with
          | (true, message3, some (some payload), some 12) =>
            if load_bytes mem2 payload 12 = array_bytes .uint8 alex_forster_chars then
              match xchg_channel_return mem2 b1 message3 with
              | (false, _, _) => none
              | (true, mem3, b2) => some (mem3, a2, b2)
            else none
          | _ => none

/-- The loop of the wraparound test run `n` times. -/
def wraparound_rounds : Nat → Mem → xchg_channel → xchg_channel →
    Option (Mem × xchg_channel × xchg_channel)
  | 0, mem, a, b => some (mem, a, b)
  | n + 1, mem, a, b =>
    match wraparound_rounds n mem a b with
    | none => none
    | some (mem1, a1, b1) => wraparound_round mem1 a1 b1

/-- The function `xchg_message_position`; `position = none` is a null
out-pointer. -/
def xchg_message_position (message : xchg_message) (position : Option Nat) :
    Bool × xchg_message × Option Nat :=
  match position with
  | none => (false, message, none)
  | some _ => (true, { message with error := none }, some message.position)

/-- One call of the codec on a cursor: the read kernel, peek, a typed reader, the
write kernel (every typed writer is a call of it), or a seek. -/
inductive CursorOp
  | read
  | peek
  | read_scalar (T : scalar)
  | read_list (T : scalar)
  | read_null
  | read_null_list
  | write (value : xchg_value (List Byte))
  | seek (position : Nat)

/-- The memory and the cursor after one codec call; outputs are discarded. -/
def cursor_apply (mem : Mem) (message : xchg_message) : CursorOp → Mem × xchg_message
  | .read => (mem, (xchg_message_read mem message).2.1)
  | .peek => (mem, (xchg_message_peek mem message ⟨some 0, some false, some false, some 0⟩).2.1)
  | .read_scalar T => (mem, (xchg_message_read_scalar T mem message (some 0)).2.1)
  | .read_list T => (mem, (xchg_message_read_list T mem message (some none) (some 0)).2.1)
  | .read_null => (mem, (xchg_message_read_null mem message (some 0)).2.1)
  | .read_null_list => (mem, (xchg_message_read_null_list mem message (some 0)).2.1)
  | .write value => (xchg_message_write mem message value).2
  | .seek position => (mem, (xchg_message_seek message position).2)

/-- A sequence of codec calls on one cursor. -/
def cursor_run : List CursorOp → Mem → xchg_message → Mem × xchg_message
  | [], mem, message => (mem, message)
  | op :: ops, mem, message =>
    cursor_run ops (cursor_apply mem message op).1 (cursor_apply mem message op).2

/-- The 9-byte buffer `75 00 00 00 00 00 00 00 80` placed at address `a`: the tag
of a non-null `uint16` list with an 8-byte length prefix, then the count
`2^63`. -/
def wrapping_uint16_list (a : Nat) : Mem := fun x =>
  if x = a then 0x75 else if x = a + 8 then 0x80 else 0

/-- The 13-byte buffer `54 03 00 00 00 00 00 00 44 54 01 00 00` of the peek test,
placed at address `a`. -/
def peek_test_buffer (a : Nat) : Mem := fun x =>
  if x = a then 0x54 else if x = a + 1 then 0x03 else if x = a + 8 then 0x44
  else if x = a + 9 then 0x54 else if x = a + 10 then 0x01 else 0

/-- What a cursor operation may do to the cursor `m` it is given: the result
`m1` has its position within the length, and the same length and data. -/
def cursor_kept (m m1 : xchg_message) : Prop :=
  m1.position ≤ m1.length ∧ m1.length = m.length ∧ m1.data = m.data

/-- A buffer at address `a` whose published write index is 128 and whose
published read index is 0: with a data area of 128 bytes the ring is full. -/
def full_ring (a : Nat) : Mem := fun x => if x = a + 8 then 0x80 else 0

/-! ## Theorems -/

theorem wrap_of_lt {x : Nat} (h : x < 2 ^ 64) : wrap x = x := Nat.mod_eq_of_lt h

theorem wrap_lt (x : Nat) : wrap x < 2 ^ 64 := Nat.mod_lt _ (by norm_num)

theorem memcpy_in (mem : Mem) (dst : Nat) (src : List Byte) (n a : Nat)
    (h1 : dst ≤ a) (h2 : a < dst + n) : memcpy mem dst src n a = src.getD (a - dst) 0 := by
  simp [memcpy, h1, h2]

theorem memcpy_out (mem : Mem) (dst : Nat) (src : List Byte) (n a : Nat)
    (h : a < dst ∨ dst + n ≤ a) : memcpy mem dst src n a = mem a := by
  have : ¬ (dst ≤ a ∧ a < dst + n) := by omega
  simp [memcpy, this]

theorem tag_roundtrip (t : xchg_tag) (ht : t.type < 16) (hl : t.lsz < 4) :
    tag_of_byte (tag_to_byte t) = t := by
  rcases t with ⟨ty, lsz, list, null⟩
  simp only at ht hl
  cases list <;> cases null <;> simp [tag_of_byte, tag_to_byte, byte] <;> omega

theorem load_le_congr (mem mem2 : Mem) (n : Nat) : ∀ (a : Nat),
    (∀ i, i < n → mem2 (a + i) = mem (a + i)) → load_le mem2 a n = load_le mem a n := by
  induction n with
  | zero => intro a _; rfl
  | succ k ih =>
    intro a h
    have h0 := h 0 (by omega)
    simp only [Nat.add_zero] at h0
    have hk := ih (a + 1) (fun i hi => by
      have := h (i + 1) (by omega)
      simpa [Nat.add_assoc, Nat.add_comm 1 i] using this)
    simp [load_le, h0, hk]

theorem to_le_length (n : Nat) : ∀ v, (to_le n v).length = n := by
  induction n with
  | zero => intro v; rfl
  | succ k ih => intro v; simp [to_le, ih]

theorem load_le_to_le (mem : Mem) (n : Nat) : ∀ (a : Nat) (v : Nat),
    (∀ i, i < n → mem (a + i) = (to_le n v).getD i 0) → load_le mem a n = v % 256 ^ n := by
  induction n with
  | zero => intro a v _; simp [load_le, Nat.mod_one]
  | succ k ih =>
    intro a v h
    have h0 := h 0 (by omega)
    simp only [Nat.add_zero, to_le, List.getD_cons_zero] at h0
    have hk := ih (a + 1) (v / 256) (fun i hi => by
      have := h (i + 1) (by omega)
      simpa [to_le, Nat.add_assoc, Nat.add_comm 1 i] using this)
    simp only [load_le, h0, hk, byte]
    rw [pow_succ', Nat.mod_mul]

theorem load_le_of_bytes (mem : Mem) (n : Nat) : ∀ (a : Nat) (v : Nat),
    (∀ i, i < n → mem (a + i) = byte (v / 256 ^ i)) → load_le mem a n = v % 256 ^ n := by
  induction n with
  | zero => intro a v _; simp [load_le, Nat.mod_one]
  | succ k ih =>
    intro a v h
    have h0 := h 0 (by omega)
    simp only [Nat.add_zero, pow_zero, Nat.div_one] at h0
    have hk := ih (a + 1) (v / 256) (fun i hi => by
      have := h (i + 1) (by omega)
      rw [Nat.div_div_eq_div_mul, ← pow_succ']
      simpa [Nat.add_assoc, Nat.add_comm 1 i] using this)
    simp only [load_le, h0, hk, byte]
    rw [pow_succ', Nat.mod_mul]

theorem switch_scalar (T : scalar) (n : Nat) : switch_sz_data T.type false n = some T.sizeof := by
  cases T <;> rfl

theorem switch_list (T : scalar) (n : Nat) :
    switch_sz_data T.type true n = some (wrap (n * T.sizeof)) := by
  cases T <;> rfl

theorem sizeof_pos (T : scalar) : 0 < T.sizeof := by cases T <;> decide

theorem sizeof_le (T : scalar) : T.sizeof ≤ 8 := by cases T <;> decide

theorem type_pos (T : scalar) : 0 < T.type := by cases T <;> decide

theorem type_lt (T : scalar) : T.type < 12 := by cases T <;> decide

theorem write_scalar_ok (T : scalar) (mem : Mem) (m : xchg_message) (v : Nat)
    (hfit : m.position + 1 + T.sizeof ≤ m.length) (hlen : m.length < 2 ^ 64) :
    xchg_message_write_scalar T mem m v =
      (true,
        memcpy (memcpy mem (m.data + m.position) [tag_to_byte ⟨T.type, 0, false, false⟩] 1)
          (m.data + (m.position + 1)) (to_le T.sizeof v) T.sizeof,
        { m with position := m.position + 1 + T.sizeof, error := none }) := by
  have hs := sizeof_pos T
  have w1 : wrap (m.position + 1) = m.position + 1 := wrap_of_lt (by omega)
  have w2 : wrap (m.position + 1 + T.sizeof) = m.position + 1 + T.sizeof := wrap_of_lt (by omega)
  have h3 : ¬ (T.sizeof = 0) := by omega
  have h4 : ¬ (m.length < m.position + 1 + T.sizeof) := by omega
  simp [xchg_message_write_scalar, xchg_message_write, switch_scalar, w1, w2, h3, h4]

theorem read_scalar_ok (T : scalar) (mem : Mem) (m : xchg_message) (old lsz : Nat)
    (htag : tag_of_byte (mem (m.data + m.position)) = ⟨T.type, lsz, false, false⟩)
    (hfit : m.position + 1 + T.sizeof ≤ m.length) (hlen : m.length < 2 ^ 64) :
    xchg_message_read_scalar T mem m (some old) =
      (true, { m with position := m.position + 1 + T.sizeof, error := none },
        some (load_le mem (m.data + (m.position + 1)) T.sizeof)) := by
  have hs := sizeof_pos T
  have w1 : wrap (m.position + 1) = m.position + 1 := wrap_of_lt (by omega)
  have w2 : wrap (m.position + 1 + T.sizeof) = m.position + 1 + T.sizeof := wrap_of_lt (by omega)
  have h3 : ¬ (T.sizeof = 0) := by omega
  have h4 : ¬ (m.length < m.position + 1 + T.sizeof) := by omega
  have h5 : ¬ (m.length < m.position + 1) := by omega
  simp [xchg_message_read_scalar, xchg_message_read, htag, switch_scalar, w1, w2, h3, h4, h5, hs,
    NULL]

theorem scalar_round_trip_aux (T : scalar) (mem : Mem) (m : xchg_message) (v old : Nat)
    (hv : v < 256 ^ T.sizeof)
    (hfit : m.position + 1 + T.sizeof ≤ m.length) (hlen : m.length < 2 ^ 64) :
    xchg_message_seek (xchg_message_write_scalar T mem m v).2.2 m.position =
      (true, { m with error := none }) ∧
    (m.position = 0 → xchg_message_reset (xchg_message_write_scalar T mem m v).2.2 =
      (true, { m with error := none })) ∧
    xchg_message_read_scalar T (xchg_message_write_scalar T mem m v).2.1
        { m with error := none } (some old) =
      (true, { m with position := m.position + 1 + T.sizeof, error := none }, some v) := by
  have hs := sizeof_pos T
  rw [write_scalar_ok T mem m v hfit hlen]
  refine ⟨?_, ?_, ?_⟩
  · have : ¬ (m.length ≤ m.position) := by omega
    simp [xchg_message_seek, this]
  · intro h0
    simp [xchg_message_reset, h0]
  · have htag : tag_of_byte ((memcpy (memcpy mem (m.data + m.position)
          [tag_to_byte ⟨T.type, 0, false, false⟩] 1)
          (m.data + (m.position + 1)) (to_le T.sizeof v) T.sizeof) (m.data + m.position))
          = ⟨T.type, 0, false, false⟩ := by
      rw [memcpy_out _ _ _ _ _ (by omega), memcpy_in _ _ _ _ _ (by omega) (by omega)]
      simp only [Nat.sub_self, List.getD_cons_zero]
      exact tag_roundtrip _ (by have := type_lt T; simp only; omega) (by simp)
    have hr := read_scalar_ok T _ { m with error := none } old 0 htag hfit hlen
    rw [hr]
    have hl : load_le (memcpy (memcpy mem (m.data + m.position)
          [tag_to_byte ⟨T.type, 0, false, false⟩] 1)
          (m.data + (m.position + 1)) (to_le T.sizeof v) T.sizeof)
          (m.data + (m.position + 1)) T.sizeof = v % 256 ^ T.sizeof := by
      apply load_le_to_le
      intro i hi
      rw [memcpy_in _ _ _ _ _ (by omega) (by omega)]
      congr 1
      omega
    simp only [hl, Nat.mod_eq_of_lt hv]

/-- Claim C1 (scalar round trip). For each of the eleven scalar types `T`, each
value `v` of `T` (a bit pattern of `sizeof T` bytes) and each cursor at
position `p` with `p + 1 + sizeof T ≤ length`: `write_T(v)` succeeds and
moves the position to `p + 1 + sizeof T`; seeking back to `p` succeeds (and
when `p = 0` a reset gives the same cursor); `read_T` then succeeds, stores
exactly `v` in its output and leaves the position at `p + 1 + sizeof T`. -/
theorem C1_scalar_round_trip (T : scalar) (mem : Mem) (m : xchg_message) (v old : Nat)
    (hv : v < 256 ^ T.sizeof)
    (hfit : m.position + 1 + T.sizeof ≤ m.length) (hlen : m.length < 2 ^ 64) :
    let w := xchg_message_write_scalar T mem m v
    let s := xchg_message_seek w.2.2 m.position
    let r := xchg_message_read_scalar T w.2.1 s.2 (some old)
    w.1 = true ∧ w.2.2.position = m.position + 1 + T.sizeof ∧
    s.1 = true ∧ s.2.position = m.position ∧
    (m.position = 0 → xchg_message_reset w.2.2 = (true, s.2)) ∧
    r.1 = true ∧ r.2.2 = some v ∧ r.2.1.position = m.position + 1 + T.sizeof := by
  intro w s r
  obtain ⟨h1, h2, h3⟩ := scalar_round_trip_aux T mem m v old hv hfit hlen
  have hw : w = _ := write_scalar_ok T mem m v hfit hlen
  have hs : s = (true, { m with error := none }) := h1
  have hr : r = (true, { m with position := m.position + 1 + T.sizeof, error := none },
      some v) := by
    show xchg_message_read_scalar T w.2.1 s.2 (some old) = _
    rw [hs]
    exact h3
  refine ⟨by rw [hw], by rw [hw], by rw [hs], by rw [hs], ?_, by rw [hr], by rw [hr], by rw [hr]⟩
  intro h0
  rw [hs]
  exact h2 h0

/-- Claim C1, instantiated: the `int16` value `0x1234` written at position 0 of
a 9-byte cursor over zeroed memory. -/
theorem C1_scalar_round_trip_witness :
    let w := xchg_message_write_scalar .int16 zero_mem ⟨4096, 9, 0, none⟩ 0x1234
    let s := xchg_message_seek w.2.2 0
    let r := xchg_message_read_scalar .int16 w.2.1 s.2 (some 0)
    w.1 = true ∧ w.2.2.position = 0 + 1 + scalar.int16.sizeof ∧
    s.1 = true ∧ s.2.position = 0 ∧
    ((0 : Nat) = 0 → xchg_message_reset w.2.2 = (true, s.2)) ∧
    r.1 = true ∧ r.2.2 = some 0x1234 ∧ r.2.1.position = 0 + 1 + scalar.int16.sizeof :=
  C1_scalar_round_trip .int16 zero_mem ⟨4096, 9, 0, none⟩ 0x1234 0 (by decide) (by decide)
    (by decide)

theorem to_le_getD (k : Nat) : ∀ (i v : Nat), i < k → (to_le k v).getD i 0 = byte (v / 256 ^ i) := by
  induction k with
  | zero => intro i v h; omega
  | succ n ih =>
    intro i v h
    cases i with
    | zero => simp [to_le]
    | succ j =>
      have := ih j (v / 256) (by omega)
      simp only [to_le, List.getD_cons_succ, this]
      rw [Nat.div_div_eq_div_mul, pow_succ']

theorem array_bytes_length (T : scalar) (l : List Nat) :
    (array_bytes T l).length = l.length * T.sizeof := by
  induction l with
  | nil => simp [array_bytes]
  | cons x xs ih => simp [array_bytes, to_le_length, ih]; ring

theorem load_bytes_memcpy (mem : Mem) (dst : Nat) (src : List Byte) :
    load_bytes (memcpy mem dst src src.length) dst src.length = src := by
  apply List.ext_getElem
  · simp [load_bytes]
  · intro i h1 h2
    simp only [load_bytes, List.getElem_map, List.getElem_range]
    rw [memcpy_in _ _ _ _ _ (by omega) (by omega)]
    simp [List.getD_eq_getElem?_getD, h2]

theorem lsz_from_sz_list_lt (n : Nat) : lsz_from_sz_list n < 4 := by
  unfold lsz_from_sz_list; split_ifs <;> omega

theorem write_list_ok (T : scalar) (mem : Mem) (m : xchg_message) (l : List Nat) (n : Nat)
    (hn : l.length = n)
    (hfit : m.position + 1 + lsz_to_nr_bytes (lsz_from_sz_list (n * T.sizeof)) + n * T.sizeof
      ≤ m.length) (hlen : m.length < 2 ^ 64) :
    xchg_message_write_list T mem m (some l) n =
      (true,
        memcpy
          (if lsz_to_nr_bytes (lsz_from_sz_list (n * T.sizeof)) > 0 then
            memcpy (memcpy mem (m.data + m.position)
              [tag_to_byte ⟨T.type, lsz_from_sz_list (n * T.sizeof), true, false⟩] 1)
              (m.data + (m.position + 1)) (to_le 8 n)
              (lsz_to_nr_bytes (lsz_from_sz_list (n * T.sizeof)))
           else memcpy mem (m.data + m.position)
              [tag_to_byte ⟨T.type, lsz_from_sz_list (n * T.sizeof), true, false⟩] 1)
          (m.data + (m.position + 1 + lsz_to_nr_bytes (lsz_from_sz_list (n * T.sizeof))))
          (if n > 0 then array_bytes T l else []) (n * T.sizeof),
        { m with
          position := m.position + 1 + lsz_to_nr_bytes (lsz_from_sz_list (n * T.sizeof))
            + n * T.sizeof
          error := none }) := by
  have hs := sizeof_pos T
  have hl4 := lsz_from_sz_list_lt (n * T.sizeof)
  have hmod : lsz_from_sz_list (n * T.sizeof) % 4 = lsz_from_sz_list (n * T.sizeof) :=
    Nat.mod_eq_of_lt hl4
  generalize hnr : lsz_to_nr_bytes (lsz_from_sz_list (n * T.sizeof)) = nr at hfit ⊢
  have w0 : wrap (n * T.sizeof) = n * T.sizeof := wrap_of_lt (by omega)
  have w1 : wrap (m.position + 1) = m.position + 1 := wrap_of_lt (by omega)
  have w2 : wrap (m.position + 1 + nr) = m.position + 1 + nr := wrap_of_lt (by omega)
  have w3 : wrap (m.position + 1 + nr + n * T.sizeof) = m.position + 1 + nr + n * T.sizeof :=
    wrap_of_lt (by omega)
  have w4 : wrap (m.position + 1 + n * T.sizeof) = m.position + 1 + n * T.sizeof :=
    wrap_of_lt (by omega)
  have h4 : ¬ (m.length < m.position + 1 + nr + n * T.sizeof) := by omega
  rcases Nat.eq_zero_or_pos n with h0 | hpos
  · subst h0
    have hnr0 : nr = 0 := by rw [← hnr]; simp [lsz_from_sz_list, lsz_to_nr_bytes]
    subst hnr0
    simp only [Nat.zero_mul, Nat.add_zero] at hfit h4 ⊢
    have h5 : ¬ (m.length < m.position + 1) := by omega
    have wz : wrap 0 = 0 := rfl
    simp [xchg_message_write_list, xchg_message_write, switch_list, w1, wz, h5,
      lsz_from_sz_list, lsz_to_nr_bytes]
  · have hne : n ≠ 0 := by omega
    have hprod : 0 < n * T.sizeof := Nat.mul_pos hpos hs
    have hprod0 : ¬ (n * T.sizeof = 0) := by omega
    simp [xchg_message_write_list, xchg_message_write, switch_list, w0, w1, w2, w3, w4, h4, hne,
      hpos, hprod, hprod0, hmod, hnr]
    by_cases hz : nr = 0
    · subst hz; simp [w4]
    · have hz2 : 0 < nr := by omega
      simp [hz, hz2, w2, w3]

theorem read_list_ok (T : scalar) (mem : Mem) (m : xchg_message) (oldl : Option Nat)
    (oldn lsz n : Nat)
    (htag : tag_of_byte (mem (m.data + m.position)) = ⟨T.type, lsz, true, false⟩)
    (hn : load_le mem (m.data + (m.position + 1)) (lsz_to_nr_bytes lsz) = n)
    (hfit : m.position + 1 + lsz_to_nr_bytes lsz + n * T.sizeof ≤ m.length)
    (hlen : m.length < 2 ^ 64) :
    xchg_message_read_list T mem m (some oldl) (some oldn) =
      (true,
        { m with position := m.position + 1 + lsz_to_nr_bytes lsz + n * T.sizeof, error := none },
        some (if n * T.sizeof > 0 then some (m.data + (m.position + 1 + lsz_to_nr_bytes lsz))
          else none),
        some n) := by
  have hs := sizeof_pos T
  have w0 : wrap (n * T.sizeof) = n * T.sizeof := wrap_of_lt (by omega)
  have w1 : wrap (m.position + 1) = m.position + 1 := wrap_of_lt (by omega)
  have h5 : ¬ (m.length < m.position + 1) := by omega
  by_cases hz : lsz = 0
  · subst hz
    have hn0 : n = 0 := by rw [← hn]; simp [lsz_to_nr_bytes, load_le]
    subst hn0
    have wz : wrap 0 = 0 := rfl
    simp [xchg_message_read_list, xchg_message_read, htag, switch_list, w1, wz, h5,
      lsz_to_nr_bytes]
  · have hz2 : 0 < lsz := by omega
    generalize hnr : lsz_to_nr_bytes lsz = nr at hfit hn ⊢
    have w2 : wrap (m.position + 1 + nr) = m.position + 1 + nr := wrap_of_lt (by omega)
    have w3 : wrap (m.position + 1 + nr + n * T.sizeof) = m.position + 1 + nr + n * T.sizeof :=
      wrap_of_lt (by omega)
    have h6 : ¬ (m.length < m.position + 1 + nr) := by omega
    have h7 : ¬ (m.length < m.position + 1 + nr + n * T.sizeof) := by omega
    simp [xchg_message_read_list, xchg_message_read, htag, switch_list, w0, w1, w2, w3, h5, h6,
      h7, hz2, hnr, hn]
    by_cases hp : n * T.sizeof = 0
    · have : n = 0 := by
        rcases Nat.mul_eq_zero.mp hp with h | h
        · exact h
        · omega
      simp [hp, this]
    · have hp2 : 0 < n * T.sizeof := by omega
      have hn2 : 0 < n := Nat.pos_of_mul_pos_right hp2
      simp [hp2, hn2, h7, w3]; omega

theorem lsz_to_nr_bytes_le (lsz : Nat) : lsz_to_nr_bytes lsz ≤ 8 := by
  unfold lsz_to_nr_bytes; split_ifs <;> omega

theorem count_fits_length_field (n sz : Nat) (h1 : n ≤ sz) (h2 : sz < 2 ^ 64) :
    n % 256 ^ lsz_to_nr_bytes (lsz_from_sz_list sz) = n := by
  apply Nat.mod_eq_of_lt
  by_cases h0 : sz = 0
  · simp [lsz_from_sz_list, lsz_to_nr_bytes, h0]; omega
  · by_cases h3 : sz ≤ 255
    · simp [lsz_from_sz_list, lsz_to_nr_bytes, h0, h3]; omega
    · by_cases h4 : sz ≤ 65535
      · simp [lsz_from_sz_list, lsz_to_nr_bytes, h0, h3, h4]; omega
      · simp [lsz_from_sz_list, lsz_to_nr_bytes, h0, h3, h4]; omega

theorem list_round_trip_aux (T : scalar) (mem : Mem) (m : xchg_message) (l : List Nat)
    (oldl : Option Nat) (oldn n : Nat) (hn : l.length = n)
    (hfit : m.position + 1 + lsz_to_nr_bytes (lsz_from_sz_list (n * T.sizeof))
      + n * T.sizeof ≤ m.length)
    (hlen : m.length < 2 ^ 64) :
    let w := xchg_message_write_list T mem m (some l) n
    let s := xchg_message_seek w.2.2 m.position
    let r := xchg_message_read_list T w.2.1 s.2 (some oldl) (some oldn)
    w.1 = true ∧ s.1 = true ∧ s.2.position = m.position ∧
    (m.position = 0 → xchg_message_reset w.2.2 = (true, s.2)) ∧
    r.1 = true ∧ r.2.2.2 = some n ∧
    r.2.1.position = m.position + 1 + lsz_to_nr_bytes (lsz_from_sz_list (n * T.sizeof))
      + n * T.sizeof ∧
    (n = 0 → r.2.2.1 = some none) ∧
    (0 < n → ∃ a, r.2.2.1 = some (some a) ∧ m.data ≤ a ∧
      a + n * T.sizeof ≤ m.data + m.length ∧
      load_bytes w.2.1 a (n * T.sizeof) = array_bytes T l) := by
  intro w s r
  have hs := sizeof_pos T
  have hw := write_list_ok T mem m l n hn hfit hlen
  have hnle : n ≤ n * T.sizeof := Nat.le_mul_of_pos_right n hs
  have hl4 := lsz_from_sz_list_lt (n * T.sizeof)
  generalize hlsz : lsz_from_sz_list (n * T.sizeof) = lsz at hw hl4
  have hnr8 := lsz_to_nr_bytes_le lsz
  have hcount : n % 256 ^ lsz_to_nr_bytes lsz = n := by
    rw [← hlsz]; exact count_fits_length_field n _ hnle (by omega)
  have hfit2 : m.position + 1 + lsz_to_nr_bytes lsz + n * T.sizeof ≤ m.length := by
    rw [← hlsz]; exact hfit
  generalize hnr : lsz_to_nr_bytes lsz = nr at hw hnr8 hcount hfit2
  have hseek : s = (true, { m with error := none }) := by
    have : ¬ (m.length ≤ m.position) := by omega
    simp [s, w, hw, xchg_message_seek, this]
  have hmem : w.2.1 = memcpy
      (if nr > 0 then
        memcpy (memcpy mem (m.data + m.position) [tag_to_byte ⟨T.type, lsz, true, false⟩] 1)
          (m.data + (m.position + 1)) (to_le 8 n) nr
       else memcpy mem (m.data + m.position) [tag_to_byte ⟨T.type, lsz, true, false⟩] 1)
      (m.data + (m.position + 1 + nr)) (if n > 0 then array_bytes T l else []) (n * T.sizeof) := by
    simp [w, hw]
  have htag : tag_of_byte (w.2.1 (m.data + m.position)) = ⟨T.type, lsz, true, false⟩ := by
    rw [hmem, memcpy_out _ _ _ _ _ (by omega)]
    split_ifs
    · rw [memcpy_out _ _ _ _ _ (by omega), memcpy_in _ _ _ _ _ (by omega) (by omega)]
      simp only [Nat.sub_self, List.getD_cons_zero]
      exact tag_roundtrip _ (by have := type_lt T; simp only; omega) hl4
    · rw [memcpy_in _ _ _ _ _ (by omega) (by omega)]
      simp only [Nat.sub_self, List.getD_cons_zero]
      exact tag_roundtrip _ (by have := type_lt T; simp only; omega) hl4
  have hload : load_le w.2.1 (m.data + (m.position + 1)) nr = n := by
    refine Eq.trans (load_le_of_bytes _ _ _ n ?_) hcount
    intro i hi
    have hpos : 0 < nr := by omega
    rw [hmem, memcpy_out _ _ _ _ _ (by omega), if_pos hpos,
      memcpy_in _ _ _ _ _ (by omega) (by omega)]
    have : m.data + (m.position + 1) + i - (m.data + (m.position + 1)) = i := by omega
    rw [this, to_le_getD 8 i n (by omega)]
  have hr := read_list_ok T w.2.1 { m with error := none } oldl oldn lsz n htag
    (by rw [hnr]; exact hload) (by rw [hnr]; exact hfit2) hlen
  have hr2 : r = (true,
        { m with position := m.position + 1 + nr + n * T.sizeof, error := none },
        some (if n * T.sizeof > 0 then some (m.data + (m.position + 1 + nr)) else none),
        some n) := by
    simp only [r, hseek]
    rw [hr, hnr]
  refine ⟨by simp [w, hw], by simp [hseek], by simp [hseek], ?_, by simp [hr2], by simp [hr2],
    by simp [hr2, hnr], ?_, ?_⟩
  · intro h0
    simp [hseek, w, hw, xchg_message_reset, h0]
  · intro h0
    simp [hr2, h0]
  · intro hpos
    have hprod : 0 < n * T.sizeof := Nat.mul_pos hpos hs
    refine ⟨m.data + (m.position + 1 + nr), by simp [hr2, hprod, hnr], by omega, by omega, ?_⟩
    rw [hmem, if_pos hpos]
    have hlen2 : (array_bytes T l).length = n * T.sizeof := by rw [array_bytes_length, hn]
    rw [← hlen2]
    exact load_bytes_memcpy _ _ _

/-- Claim C2 (list round trip). For each scalar type `T` and each list `l` of
`n ≥ 0` elements whose encoding fits the remaining capacity
(`p + 1 + prefix + n * sizeof T ≤ length`, where `prefix` is the number of
length-prefix bytes the writer emits: 0, 1, 2 or 8): `write_T_list(l, n)` at
position `p`, a seek back to `p` (a reset when `p = 0`) and `read_T_list`
all succeed; the reader returns the count `n`; for `n = 0` it returns a null
pointer, and for `n > 0` a pointer into the cursor's buffer behind which the
`n * sizeof T` bytes are the bytes of `l`. -/
theorem C2_list_round_trip (T : scalar) (mem : Mem) (m : xchg_message) (l : List Nat)
    (oldl : Option Nat) (oldn : Nat)
    (hfit : m.position + 1 + lsz_to_nr_bytes (lsz_from_sz_list (l.length * T.sizeof))
      + l.length * T.sizeof ≤ m.length)
    (hlen : m.length < 2 ^ 64) :
    let w := xchg_message_write_list T mem m (some l) l.length
    let s := xchg_message_seek w.2.2 m.position
    let r := xchg_message_read_list T w.2.1 s.2 (some oldl) (some oldn)
    w.1 = true ∧ s.1 = true ∧ s.2.position = m.position ∧
    (m.position = 0 → xchg_message_reset w.2.2 = (true, s.2)) ∧
    r.1 = true ∧ r.2.2.2 = some l.length ∧
    r.2.1.position = m.position + 1 + lsz_to_nr_bytes (lsz_from_sz_list (l.length * T.sizeof))
      + l.length * T.sizeof ∧
    (l.length = 0 → r.2.2.1 = some none) ∧
    (0 < l.length → ∃ a, r.2.2.1 = some (some a) ∧ m.data ≤ a ∧
      a + l.length * T.sizeof ≤ m.data + m.length ∧
      load_bytes w.2.1 a (l.length * T.sizeof) = array_bytes T l) :=
  list_round_trip_aux T mem m l oldl oldn l.length rfl hfit hlen

/-- Claim C2, instantiated: a list of 32 `int64` values (256 payload bytes, for
which the writer picks the 2-byte length prefix) in a 1024-byte cursor. -/
theorem C2_list_round_trip_witness :
    let l := List.replicate 32 0x0102030405060708
    let m : xchg_message := ⟨4096, 1024, 0, none⟩
    let w := xchg_message_write_list .int64 zero_mem m (some l) l.length
    let s := xchg_message_seek w.2.2 m.position
    let r := xchg_message_read_list .int64 w.2.1 s.2 (some none) (some 0)
    w.1 = true ∧ s.1 = true ∧ s.2.position = m.position ∧
    (m.position = 0 → xchg_message_reset w.2.2 = (true, s.2)) ∧
    r.1 = true ∧ r.2.2.2 = some l.length ∧
    r.2.1.position = m.position + 1
      + lsz_to_nr_bytes (lsz_from_sz_list (l.length * scalar.int64.sizeof))
      + l.length * scalar.int64.sizeof ∧
    (l.length = 0 → r.2.2.1 = some none) ∧
    (0 < l.length → ∃ a, r.2.2.1 = some (some a) ∧ m.data ≤ a ∧
      a + l.length * scalar.int64.sizeof ≤ m.data + m.length ∧
      load_bytes w.2.1 a (l.length * scalar.int64.sizeof) = array_bytes .int64 l) :=
  C2_list_round_trip .int64 zero_mem ⟨4096, 1024, 0, none⟩
    (List.replicate 32 0x0102030405060708) none 0 (by decide) (by decide)

/-- Claim C6 (type-mismatch safety). On a cursor whose next tag byte is in
bounds, a typed reader whose tag check fails -- `read_T` on a list, a null or
another type code; `read_T_list` on a non-list, a null or another type code;
`read_null` on a list or a non-null; `read_null_list` on a non-list or a
non-null -- returns failure, hands back the cursor unchanged in every field
(`data`, `length`, `position`, `error`) and leaves its output arguments as
they were. (Readers never store to memory.) -/
theorem C6_type_mismatch_safety (T : scalar) (mem : Mem) (m : xchg_message)
    (hb : m.position + 1 ≤ m.length) (hlen : m.length < 2 ^ 64) :
    (∀ value : Option Nat,
      ((tag_of_byte (mem (m.data + m.position))).list = true ∨
        (tag_of_byte (mem (m.data + m.position))).null = true ∨
        (tag_of_byte (mem (m.data + m.position))).type ≠ T.type) →
      xchg_message_read_scalar T mem m value = (false, m, value)) ∧
    (∀ (list : Option (Option Nat)) (sz_list : Option Nat),
      ((tag_of_byte (mem (m.data + m.position))).list = false ∨
        (tag_of_byte (mem (m.data + m.position))).null = true ∨
        (tag_of_byte (mem (m.data + m.position))).type ≠ T.type) →
      xchg_message_read_list T mem m list sz_list = (false, m, list, sz_list)) ∧
    (∀ type : Option Nat,
      ((tag_of_byte (mem (m.data + m.position))).list = true ∨
        (tag_of_byte (mem (m.data + m.position))).null = false) →
      xchg_message_read_null mem m type = (false, m, type)) ∧
    (∀ type : Option Nat,
      ((tag_of_byte (mem (m.data + m.position))).list = false ∨
        (tag_of_byte (mem (m.data + m.position))).null = false) →
      xchg_message_read_null_list mem m type = (false, m, type)) := by
  have w1 : wrap (m.position + 1) = m.position + 1 := wrap_of_lt (by omega)
  have h5 : ¬ (m.length < m.position + 1) := by omega
  refine ⟨?_, ?_, ?_, ?_⟩
  · intro value h
    cases value with
    | none => rfl
    | some old =>
      rcases h with h | h | h <;> simp [xchg_message_read_scalar, w1, h5, h]
  · intro list sz_list h
    cases list with
    | none => rfl
    | some oldl =>
      cases sz_list with
      | none => rfl
      | some oldn =>
        rcases h with h | h | h <;> simp [xchg_message_read_list, w1, h5, h]
  · intro type h
    cases type with
    | none => rfl
    | some old =>
      rcases h with h | h <;> simp [xchg_message_read_null, w1, h5, h]
  · intro type h
    cases type with
    | none => rfl
    | some old =>
      rcases h with h | h <;> simp [xchg_message_read_null_list, w1, h5, h]

/-- Claim C6, instantiated on the test buffer `82 84 86` (three nulls), read with
the `int16` readers. -/
theorem C6_type_mismatch_safety_witness :
    (∀ value : Option Nat,
      ((tag_of_byte (nulls_buffer 4096 (4096 + 0))).list = true ∨
        (tag_of_byte (nulls_buffer 4096 (4096 + 0))).null = true ∨
        (tag_of_byte (nulls_buffer 4096 (4096 + 0))).type ≠ scalar.int16.type) →
      xchg_message_read_scalar .int16 (nulls_buffer 4096) ⟨4096, 3, 0, none⟩ value =
        (false, ⟨4096, 3, 0, none⟩, value)) ∧
    (∀ (list : Option (Option Nat)) (sz_list : Option Nat),
      ((tag_of_byte (nulls_buffer 4096 (4096 + 0))).list = false ∨
        (tag_of_byte (nulls_buffer 4096 (4096 + 0))).null = true ∨
        (tag_of_byte (nulls_buffer 4096 (4096 + 0))).type ≠ scalar.int16.type) →
      xchg_message_read_list .int16 (nulls_buffer 4096) ⟨4096, 3, 0, none⟩ list sz_list =
        (false, ⟨4096, 3, 0, none⟩, list, sz_list)) ∧
    (∀ type : Option Nat,
      ((tag_of_byte (nulls_buffer 4096 (4096 + 0))).list = true ∨
        (tag_of_byte (nulls_buffer 4096 (4096 + 0))).null = false) →
      xchg_message_read_null (nulls_buffer 4096) ⟨4096, 3, 0, none⟩ type =
        (false, ⟨4096, 3, 0, none⟩, type)) ∧
    (∀ type : Option Nat,
      ((tag_of_byte (nulls_buffer 4096 (4096 + 0))).list = false ∨
        (tag_of_byte (nulls_buffer 4096 (4096 + 0))).null = false) →
      xchg_message_read_null_list (nulls_buffer 4096) ⟨4096, 3, 0, none⟩ type =
        (false, ⟨4096, 3, 0, none⟩, type)) :=
  C6_type_mismatch_safety .int16 (nulls_buffer 4096) ⟨4096, 3, 0, none⟩ (by decide) (by decide)

theorem write_scalar_full (T : scalar) (mem : Mem) (m : xchg_message) (v : Nat)
    (hw : m.position + 1 + T.sizeof < 2 ^ 64)
    (hfull : ¬ (m.position + 1 + T.sizeof ≤ m.length)) :
    xchg_message_write_scalar T mem m v = (false, mem, { m with error := some ERR_NO_SPACE }) := by
  have hs := sizeof_pos T
  have w2 : wrap (m.position + 1 + T.sizeof) = m.position + 1 + T.sizeof := wrap_of_lt hw
  have h3 : ¬ (T.sizeof = 0) := by omega
  have h4 : m.length < m.position + 1 + T.sizeof := by omega
  simp [xchg_message_write_scalar, xchg_message_write, switch_scalar, w2, h3, h4]

theorem write_null_eq (mem : Mem) (m : xchg_message) (type : Nat) (list : Bool) :
    xchg_message_write mem m
        { type := type, null := true, list := list, sz_list := 0, data := none, sz_data := 0 } =
      if wrap (m.position + 1) > m.length then
        (false, mem, { m with error := some ERR_NO_SPACE })
      else
        (true,
          memcpy (memcpy mem (m.data + m.position) [tag_to_byte ⟨type, 0, list, true⟩] 1)
            (m.data + wrap (m.position + 1)) [] 0,
          { m with position := wrap (wrap (m.position + 1) + 0), error := none }) := by
  cases list <;> simp [xchg_message_write, lsz_from_sz_list, lsz_to_nr_bytes]

theorem write_list_full (T : scalar) (mem : Mem) (m : xchg_message) (list : Option (List Nat))
    (n : Nat) (hp : 0 < n → list.isSome = true)
    (hw : m.position + 1 + lsz_to_nr_bytes (lsz_from_sz_list (n * T.sizeof)) + n * T.sizeof
      < 2 ^ 64)
    (hfull : ¬ (m.position + 1 + lsz_to_nr_bytes (lsz_from_sz_list (n * T.sizeof))
      + n * T.sizeof ≤ m.length)) :
    xchg_message_write_list T mem m list n = (false, mem, { m with error := some ERR_NO_SPACE }) := by
  have hs := sizeof_pos T
  have hl4 := lsz_from_sz_list_lt (n * T.sizeof)
  have hmod : lsz_from_sz_list (n * T.sizeof) % 4 = lsz_from_sz_list (n * T.sizeof) :=
    Nat.mod_eq_of_lt hl4
  have w0 : wrap (n * T.sizeof) = n * T.sizeof := wrap_of_lt (by omega)
  have w3 := wrap_of_lt hw
  have h4 : m.length < m.position + 1 + lsz_to_nr_bytes (lsz_from_sz_list (n * T.sizeof))
      + n * T.sizeof := by omega
  rcases Nat.eq_zero_or_pos n with h0 | hpos
  · subst h0
    have wz : wrap 0 = 0 := rfl
    simp only [Nat.zero_mul, Nat.add_zero] at *
    simp [xchg_message_write_list, xchg_message_write, switch_list, wz, w3, h4, hmod]
  · have hne : n ≠ 0 := by omega
    have hprod : 0 < n * T.sizeof := Nat.mul_pos hpos hs
    have hprod0 : ¬ (n * T.sizeof = 0) := by omega
    have hsome := hp hpos
    obtain ⟨l, rfl⟩ := Option.isSome_iff_exists.mp hsome
    simp [xchg_message_write_list, xchg_message_write, switch_list, w0, w3, h4, hne,
      hpos, hprod, hprod0, hmod]

theorem write_list_fits (T : scalar) (mem : Mem) (m : xchg_message) (list : Option (List Nat))
    (n : Nat) (hp : 0 < n → list.isSome = true) (hlen : m.length < 2 ^ 64)
    (hfit : m.position + 1 + lsz_to_nr_bytes (lsz_from_sz_list (n * T.sizeof))
      + n * T.sizeof ≤ m.length) :
    (xchg_message_write_list T mem m list n).1 = true := by
  have hs := sizeof_pos T
  have hl4 := lsz_from_sz_list_lt (n * T.sizeof)
  have hmod : lsz_from_sz_list (n * T.sizeof) % 4 = lsz_from_sz_list (n * T.sizeof) :=
    Nat.mod_eq_of_lt hl4
  have w0 : wrap (n * T.sizeof) = n * T.sizeof := wrap_of_lt (by omega)
  have w3 : wrap (m.position + 1 + lsz_to_nr_bytes (lsz_from_sz_list (n * T.sizeof))
      + n * T.sizeof) = _ := wrap_of_lt (by omega)
  have h4 : ¬ (m.length < m.position + 1 + lsz_to_nr_bytes (lsz_from_sz_list (n * T.sizeof))
      + n * T.sizeof) := by omega
  rcases Nat.eq_zero_or_pos n with h0 | hpos
  · subst h0
    have wz : wrap 0 = 0 := rfl
    simp only [Nat.zero_mul, Nat.add_zero] at *
    simp [xchg_message_write_list, xchg_message_write, switch_list, wz, w3, h4, hmod]
  · have hne : n ≠ 0 := by omega
    have hprod : 0 < n * T.sizeof := Nat.mul_pos hpos hs
    have hprod0 : ¬ (n * T.sizeof = 0) := by omega
    have hsome := hp hpos
    obtain ⟨l, rfl⟩ := Option.isSome_iff_exists.mp hsome
    simp [xchg_message_write_list, xchg_message_write, switch_list, w0, w3, h4, hne,
      hpos, hprod, hprod0, hmod]

theorem ERR_NO_SPACE_ne : ERR_NO_SPACE ≠ "" := by decide

/-- Claim C9 (insufficient space is atomic). For a typed write whose size
computation does not wrap around a machine word -- a scalar, a null, a null
list, or a list of `n` elements with a source pointer present when `n > 0` --
the write succeeds if and only if `position + 1 + prefix + payload ≤ length`
(`prefix` being the length-prefix bytes the writer emits); when it does not
fit the write returns failure, sets `error` to the non-empty message
`ERR_NO_SPACE`, and leaves the position, the rest of the cursor and every byte
of memory unchanged. -/
theorem C9_insufficient_space_atomic (T : scalar) (mem : Mem) (m : xchg_message)
    (hlen : m.length < 2 ^ 64) :
    (∀ v : Nat, m.position + 1 + T.sizeof < 2 ^ 64 →
      ((xchg_message_write_scalar T mem m v).1 = true ↔ m.position + 1 + T.sizeof ≤ m.length) ∧
      (¬ (m.position + 1 + T.sizeof ≤ m.length) →
        xchg_message_write_scalar T mem m v =
          (false, mem, { m with error := some ERR_NO_SPACE }))) ∧
    (∀ type : Nat, m.position + 1 < 2 ^ 64 →
      ((xchg_message_write_null mem m type).1 = true ↔ m.position + 1 ≤ m.length) ∧
      (¬ (m.position + 1 ≤ m.length) →
        xchg_message_write_null mem m type =
          (false, mem, { m with error := some ERR_NO_SPACE }))) ∧
    (∀ type : Nat, m.position + 1 < 2 ^ 64 →
      ((xchg_message_write_null_list mem m type).1 = true ↔ m.position + 1 ≤ m.length) ∧
      (¬ (m.position + 1 ≤ m.length) →
        xchg_message_write_null_list mem m type =
          (false, mem, { m with error := some ERR_NO_SPACE }))) ∧
    (∀ (list : Option (List Nat)) (n : Nat), (0 < n → list.isSome = true) →
      m.position + 1 + lsz_to_nr_bytes (lsz_from_sz_list (n * T.sizeof)) + n * T.sizeof
        < 2 ^ 64 →
      ((xchg_message_write_list T mem m list n).1 = true ↔
        m.position + 1 + lsz_to_nr_bytes (lsz_from_sz_list (n * T.sizeof)) + n * T.sizeof
          ≤ m.length) ∧
      (¬ (m.position + 1 + lsz_to_nr_bytes (lsz_from_sz_list (n * T.sizeof)) + n * T.sizeof
          ≤ m.length) →
        xchg_message_write_list T mem m list n =
          (false, mem, { m with error := some ERR_NO_SPACE }))) ∧
    ERR_NO_SPACE ≠ "" := by
  refine ⟨?_, ?_, ?_, ?_, ERR_NO_SPACE_ne⟩
  · intro v hw
    refine ⟨⟨?_, ?_⟩, write_scalar_full T mem m v hw⟩
    · intro h
      by_contra hc
      rw [write_scalar_full T mem m v hw hc] at h
      simp at h
    · intro h
      rw [write_scalar_ok T mem m v h hlen]
  · intro type hw
    have w1 := wrap_of_lt hw
    have key := write_null_eq mem m type false
    by_cases h : m.position + 1 ≤ m.length
    · have h' : ¬ (m.length < m.position + 1) := by omega
      simp [xchg_message_write_null, key, w1, h, h']
    · have h' : m.length < m.position + 1 := by omega
      simp [xchg_message_write_null, key, w1, h, h']
  · intro type hw
    have w1 := wrap_of_lt hw
    have key := write_null_eq mem m type true
    by_cases h : m.position + 1 ≤ m.length
    · have h' : ¬ (m.length < m.position + 1) := by omega
      simp [xchg_message_write_null_list, key, w1, h, h']
    · have h' : m.length < m.position + 1 := by omega
      simp [xchg_message_write_null_list, key, w1, h, h']
  · intro list n hp hw
    refine ⟨⟨?_, ?_⟩, write_list_full T mem m list n hp hw⟩
    · intro h
      by_contra hc
      rw [write_list_full T mem m list n hp hw hc] at h
      simp at h
    · intro h
      exact write_list_fits T mem m list n hp hlen h

/-- Claim C9, instantiated: `int32` writes on a 4-byte cursor at position 0. -/
theorem C9_insufficient_space_atomic_witness :
    xchg_message_write_scalar .int32 zero_mem ⟨4096, 4, 0, none⟩ 7 =
      (false, zero_mem, ⟨4096, 4, 0, some ERR_NO_SPACE⟩) ∧
    (xchg_message_write_null zero_mem ⟨4096, 4, 0, none⟩ xchg_type_int32).1 = true :=
  ⟨((C9_insufficient_space_atomic .int32 zero_mem ⟨4096, 4, 0, none⟩ (by decide)).1 7
      (by decide)).2 (by decide),
    ((C9_insufficient_space_atomic .int32 zero_mem ⟨4096, 4, 0, none⟩ (by decide)).2.1
      xchg_type_int32 (by decide)).1.2 (by decide)⟩

theorem load64_store64_same (mem : Mem) (a v : Nat) : load64 (store64 mem a v) a = wrap v := by
  unfold load64 store64 wrap
  have h := load_le_of_bytes (memcpy mem a (to_le 8 v) 8) 8 a v (fun i hi => by
    rw [memcpy_in _ _ _ _ _ (by omega) (by omega)]
    have : a + i - a = i := by omega
    rw [this, to_le_getD 8 i v hi])
  rw [h]
  norm_num

theorem store64_out (mem : Mem) (a v x : Nat) (h : x < a ∨ a + 8 ≤ x) :
    store64 mem a v x = mem x := memcpy_out _ _ _ _ _ h

theorem load64_congr (mem mem2 : Mem) (a : Nat) (h : ∀ i, i < 8 → mem2 (a + i) = mem (a + i)) :
    load64 mem2 a = load64 mem a := load_le_congr mem mem2 8 a h

theorem load64_store64_other (mem : Mem) (a v b : Nat) (h : b + 8 ≤ a ∨ a + 8 ≤ b) :
    load64 (store64 mem a v) b = load64 mem b :=
  load64_congr _ _ _ (fun i hi => store64_out _ _ _ _ (by omega))

theorem flp2_loop_pow (x : Nat) : ∀ (fuel k : Nat), 1 ≤ k → k ≤ 63 →
    ∃ j, 1 ≤ j ∧ j ≤ 63 ∧ flp2_loop x fuel (2 ^ k) = 2 ^ j := by
  intro fuel
  induction fuel with
  | zero => intro k h1 h2; exact ⟨k, h1, h2, rfl⟩
  | succ n ih =>
    intro k h1 h2
    unfold flp2_loop
    split_ifs with hc
    · have hk : 2 ≤ k := by
        by_contra hlt
        have : k = 1 := by omega
        subst this
        omega
      have hdiv : 2 ^ k / 2 = 2 ^ (k - 1) := by
        obtain ⟨t, rfl⟩ : ∃ t, k = t + 1 := ⟨k - 1, by omega⟩
        rw [pow_succ]; simp
      rw [hdiv]
      exact ih (k - 1) (by omega) (by omega)
    · exact ⟨k, h1, h2, rfl⟩

theorem flp2_pow (x : Nat) : ∃ j, 1 ≤ j ∧ j ≤ 63 ∧ flp2 x = 2 ^ j :=
  flp2_loop_pow x 64 63 (by norm_num) (by norm_num)

theorem flp2_fixed {x : Nat} (h : flp2 x = x) : ∃ j, 1 ≤ j ∧ j ≤ 63 ∧ x = 2 ^ j := by
  obtain ⟨j, h1, h2, h3⟩ := flp2_pow x
  exact ⟨j, h1, h2, by rw [← h, h3]⟩

theorem pow_bounds {j : Nat} (h1 : 1 ≤ j) (h2 : j ≤ 63) : 2 ≤ 2 ^ j ∧ 2 ^ j ≤ 2 ^ 63 := by
  constructor
  · calc 2 = 2 ^ 1 := by norm_num
      _ ≤ 2 ^ j := Nat.pow_le_pow_right (by norm_num) h1
  · exact Nat.pow_le_pow_right (by norm_num) h2

theorem prepare_spec {B s M x ns nr : Nat} {mem : Mem} {ch : xchg_channel}
    (G : Geometry s M) (hp : ProdInv B s M x ns nr ch) (hsh : SharedInv B s M x ns nr mem)
    (msg : xchg_message) :
    ∃ ch', ProdInv B s M x ns nr ch' ∧ ch'.ingress = ch.ingress ∧
      ((ns * s + s ≤ nr * s + M ∧
          xchg_channel_prepare mem ch msg =
            (true, ch', ⟨B + 16 + (wrap (x + ns * s) &&& (M - 1)), s, 0, none⟩) ∧
          s ≤ wsub ch'.egress.cr ch'.egress.cw ∧ ch'.error = none) ∨
       (¬ (ns * s + s ≤ nr * s + M) ∧
          xchg_channel_prepare mem ch msg = (false, ch', msg) ∧
          ch'.error = some ERR_FULL ∧
          xchg_channel_prepare mem ch' msg = (false, ch', msg))) := by
  obtain ⟨ing, ⟨r, cr, w, cw, data, szd, szm, mask⟩, err⟩ := ch
  obtain ⟨h1, h2, h3, h4, h5, h6, h7, h8⟩ := hp
  obtain ⟨g1, g2, g3, g4⟩ := hsh
  simp only at h1 h2 h3 h4 h5 h6 h7 h8
  have h1 := h1.symm
  have h4 := h4.symm
  have h5 := h5.symm
  subst h1 h2 h3 h4 h5 h6 h7
  have hs := G.hs
  have hM := G.hM
  have hd : B + 16 ≠ 0 := by omega
  have hs0 : ¬ (s = 0) := by omega
  by_cases hfree : wsub cr (wrap (x + ns * s)) < s
  · -- the cached shadow is insufficient: refresh
    have hnew : wsub (wrap (wrap (x + nr * s) + M)) (wrap (x + ns * s))
        = nr * s + M - ns * s := by
      unfold wsub wrap; omega
    by_cases hroom : ns * s + s ≤ nr * s + M
    · refine ⟨⟨ing, ⟨B, wrap (wrap (x + nr * s) + M), B + 8, wrap (x + ns * s), B + 16, M, s,
          M - 1⟩, none⟩, ?_, rfl, Or.inl ⟨hroom, ?_, ?_, rfl⟩⟩
      · refine ⟨rfl, rfl, rfl, rfl, rfl, rfl, rfl, ?_⟩
        simp only [hnew]; omega
      · have hn : ¬ (nr * s + M - ns * s < s) := by omega
        simp [xchg_channel_prepare, nr_free, NULL, xchg_message_init, hd, hfree, g1, hnew, hn, hs0]
      · simp only [hnew]; omega
    · refine ⟨⟨ing, ⟨B, wrap (wrap (x + nr * s) + M), B + 8, wrap (x + ns * s), B + 16, M, s,
          M - 1⟩, some ERR_FULL⟩, ?_, rfl, Or.inr ⟨hroom, ?_, rfl, ?_⟩⟩
      · refine ⟨rfl, rfl, rfl, rfl, rfl, rfl, rfl, ?_⟩
        simp only [hnew]; omega
      · have hn : nr * s + M - ns * s < s := by omega
        simp [xchg_channel_prepare, nr_free, NULL, hd, hfree, g1, hnew, hn]
      · have hn : nr * s + M - ns * s < s := by omega
        simp [xchg_channel_prepare, nr_free, NULL, hd, g1, hnew, hn]
  · -- the cached shadow already shows a free slot
    have hroom : ns * s + s ≤ nr * s + M := by omega
    refine ⟨⟨ing, ⟨B, cr, B + 8, wrap (x + ns * s), B + 16, M, s, M - 1⟩, none⟩, ?_, rfl,
      Or.inl ⟨hroom, ?_, ?_, rfl⟩⟩
    · exact ⟨rfl, rfl, rfl, rfl, rfl, rfl, rfl, h8⟩
    · simp [xchg_channel_prepare, nr_free, NULL, xchg_message_init, hd, hfree, hs0]
    · simp only; omega

theorem send_spec {B s M x ns nr : Nat} {mem : Mem} {ch : xchg_channel}
    (G : Geometry s M) (hp : ProdInv B s M x ns nr ch) (hsh : SharedInv B s M x ns nr mem)
    (hfree : s ≤ wsub ch.egress.cr ch.egress.cw) (msg : xchg_message)
    (hlen : msg.length = s) (hdata : msg.data = B + 16 + (wrap (x + ns * s) &&& (M - 1))) :
    ∃ ch', xchg_channel_send mem ch msg =
        (true, store64 mem (B + 8) (wrap (x + (ns + 1) * s)), ch') ∧
      ProdInv B s M x (ns + 1) nr ch' ∧
      SharedInv B s M x (ns + 1) nr (store64 mem (B + 8) (wrap (x + (ns + 1) * s))) ∧
      ch'.ingress = ch.ingress ∧ ch'.error = none := by
  obtain ⟨ing, ⟨r, cr, w, cw, data, szd, szm, mask⟩, err⟩ := ch
  obtain ⟨h1, h2, h3, h4, h5, h6, h7, h8⟩ := hp
  obtain ⟨g1, g2, g3, g4⟩ := hsh
  simp only at h1 h2 h3 h4 h5 h6 h7 h8 hfree
  have h1 := h1.symm
  have h4 := h4.symm
  have h5 := h5.symm
  subst h1 h2 h3 h4 h5 h6 h7
  have hs := G.hs
  have hM := G.hM
  have hd : B + 16 ≠ 0 := by omega
  have hmul : (ns + 1) * s = ns * s + s := by ring
  have hw1 : wrap (wrap (x + ns * s) + s) = wrap (x + (ns + 1) * s) := by
    rw [hmul]; unfold wrap; omega
  refine ⟨⟨ing, ⟨B, cr, B + 8, wrap (x + (ns + 1) * s), B + 16, M, s, M - 1⟩, none⟩, ?_, ?_, ?_,
    rfl, rfl⟩
  · simp [xchg_channel_send, NULL, hd, hlen, hdata, g2, hw1]
  · refine ⟨rfl, rfl, rfl, rfl, rfl, rfl, rfl, ?_⟩
    simp only
    have : wsub cr (wrap (x + (ns + 1) * s)) = wsub cr (wrap (x + ns * s)) - s := by
      rw [hmul]; unfold wsub wrap at *; omega
    rw [this, hmul]; omega
  · refine ⟨?_, ?_, ?_, ?_⟩
    · rw [load64_store64_other _ _ _ _ (by omega)]; exact g1
    · rw [load64_store64_same]; unfold wrap; omega
    · rw [hmul]; omega
    · rw [hmul]; omega

theorem receive_spec {B s M x ns nr : Nat} {mem : Mem} {ch : xchg_channel}
    (G : Geometry s M) (hc : ConsInv B s M x ns nr ch) (hsh : SharedInv B s M x ns nr mem)
    (msg : xchg_message) :
    ∃ ch', ConsInv B s M x ns nr ch' ∧ ch'.egress = ch.egress ∧
      ((nr * s + s ≤ ns * s ∧
          xchg_channel_receive mem ch msg =
            (true, ch', ⟨B + 16 + (wrap (x + nr * s) &&& (M - 1)), s, 0, none⟩) ∧
          s ≤ wsub ch'.ingress.cw ch'.ingress.cr ∧ ch'.error = none) ∨
       (¬ (nr * s + s ≤ ns * s) ∧
          xchg_channel_receive mem ch msg = (false, ch', msg) ∧
          ch'.error = some ERR_EMPTY ∧
          xchg_channel_receive mem ch' msg = (false, ch', msg))) := by
  obtain ⟨⟨r, cr, w, cw, data, szd, szm, mask⟩, eg, err⟩ := ch
  obtain ⟨h1, h2, h3, h4, h5, h6, h7, h8⟩ := hc
  obtain ⟨g1, g2, g3, g4⟩ := hsh
  simp only at h1 h2 h3 h4 h5 h6 h7 h8
  have h1 := h1.symm
  have h4 := h4.symm
  have h5 := h5.symm
  subst h1 h2 h3 h4 h5 h6 h7
  have hs := G.hs
  have hM := G.hM
  have hd : B + 16 ≠ 0 := by omega
  have hs0 : ¬ (s = 0) := by omega
  by_cases hused : wsub cw (wrap (x + nr * s)) < s
  · have hnew : wsub (wrap (x + ns * s)) (wrap (x + nr * s)) = ns * s - nr * s := by
      unfold wsub wrap; omega
    by_cases hroom : nr * s + s ≤ ns * s
    · refine ⟨⟨⟨B, wrap (x + nr * s), B + 8, wrap (x + ns * s), B + 16, M, s, M - 1⟩, eg, none⟩,
        ?_, rfl, Or.inl ⟨hroom, ?_, ?_, rfl⟩⟩
      · refine ⟨rfl, rfl, rfl, rfl, rfl, rfl, rfl, ?_⟩
        simp only [hnew]; omega
      · have hn : ¬ (ns * s - nr * s < s) := by omega
        simp [xchg_channel_receive, nr_used, NULL, xchg_message_init, hd, hused, g2, hnew, hn, hs0]
      · simp only [hnew]; omega
    · refine ⟨⟨⟨B, wrap (x + nr * s), B + 8, wrap (x + ns * s), B + 16, M, s, M - 1⟩, eg,
        some ERR_EMPTY⟩, ?_, rfl, Or.inr ⟨hroom, ?_, rfl, ?_⟩⟩
      · refine ⟨rfl, rfl, rfl, rfl, rfl, rfl, rfl, ?_⟩
        simp only [hnew]; omega
      · have hn : ns * s - nr * s < s := by omega
        simp [xchg_channel_receive, nr_used, NULL, hd, hused, g2, hnew, hn]
      · have hn : ns * s - nr * s < s := by omega
        simp [xchg_channel_receive, nr_used, NULL, hd, g2, hnew, hn]
  · have hroom : nr * s + s ≤ ns * s := by omega
    refine ⟨⟨⟨B, wrap (x + nr * s), B + 8, cw, B + 16, M, s, M - 1⟩, eg, none⟩, ?_, rfl,
      Or.inl ⟨hroom, ?_, ?_, rfl⟩⟩
    · exact ⟨rfl, rfl, rfl, rfl, rfl, rfl, rfl, h8⟩
    · simp [xchg_channel_receive, nr_used, NULL, xchg_message_init, hd, hused, hs0]
    · simp only; omega

theorem return_spec {B s M x ns nr : Nat} {mem : Mem} {ch : xchg_channel}
    (G : Geometry s M) (hc : ConsInv B s M x ns nr ch) (hsh : SharedInv B s M x ns nr mem)
    (hused : s ≤ wsub ch.ingress.cw ch.ingress.cr) (msg : xchg_message)
    (hlen : msg.length = s) (hdata : msg.data = B + 16 + (wrap (x + nr * s) &&& (M - 1))) :
    ∃ ch', xchg_channel_return mem ch msg =
        (true, store64 mem B (wrap (x + (nr + 1) * s)), ch') ∧
      ConsInv B s M x ns (nr + 1) ch' ∧
      SharedInv B s M x ns (nr + 1) (store64 mem B (wrap (x + (nr + 1) * s))) ∧
      ch'.egress = ch.egress ∧ ch'.error = none := by
  obtain ⟨⟨r, cr, w, cw, data, szd, szm, mask⟩, eg, err⟩ := ch
  obtain ⟨h1, h2, h3, h4, h5, h6, h7, h8⟩ := hc
  obtain ⟨g1, g2, g3, g4⟩ := hsh
  simp only at h1 h2 h3 h4 h5 h6 h7 h8 hused
  have h1 := h1.symm
  have h4 := h4.symm
  have h5 := h5.symm
  subst h1 h2 h3 h4 h5 h6 h7
  have hs := G.hs
  have hM := G.hM
  have hd : B + 16 ≠ 0 := by omega
  have hmul : (nr + 1) * s = nr * s + s := by ring
  have hw1 : wrap (wrap (x + nr * s) + s) = wrap (x + (nr + 1) * s) := by
    rw [hmul]; unfold wrap; omega
  refine ⟨⟨⟨B, wrap (x + (nr + 1) * s), B + 8, cw, B + 16, M, s, M - 1⟩, eg, none⟩, ?_, ?_, ?_,
    rfl, rfl⟩
  · simp [xchg_channel_return, NULL, hd, hlen, hdata, g1, hw1]
  · refine ⟨rfl, rfl, rfl, rfl, rfl, rfl, rfl, ?_⟩
    simp only
    have : wsub cw (wrap (x + (nr + 1) * s)) = wsub cw (wrap (x + nr * s)) - s := by
      rw [hmul]; unfold wsub wrap at *; omega
    rw [this, hmul]; omega
  · refine ⟨?_, ?_, ?_, ?_⟩
    · rw [load64_store64_same]; unfold wrap; omega
    · rw [load64_store64_other _ _ _ _ (by omega)]; exact g2
    · rw [hmul]; omega
    · rw [hmul]; omega

theorem load_le_lt (mem : Mem) (n : Nat) : ∀ a, load_le mem a n < 256 ^ n := by
  induction n with
  | zero => intro a; simp [load_le]
  | succ k ih =>
    intro a
    have h1 := ih (a + 1)
    have h2 := (mem a).isLt
    simp only [load_le]
    rw [pow_succ']
    omega

theorem load64_lt (mem : Mem) (a : Nat) : load64 mem a < 2 ^ 64 := by
  have := load_le_lt mem 8 a
  unfold load64
  norm_num at this ⊢
  exact this

theorem geometry_of_flp2 {s M : Nat} (h1 : flp2 s = s) (h2 : flp2 M = M) (h3 : M % s = 0) :
    Geometry s M := by
  obtain ⟨a, a1, a2, rfl⟩ := flp2_fixed h1
  obtain ⟨b, b1, b2, rfl⟩ := flp2_fixed h2
  have ha := pow_bounds a1 a2
  have hb := pow_bounds b1 b2
  refine ⟨ha.1, hb.2, ?_, h3, ⟨b, rfl⟩⟩
  exact Nat.le_of_dvd (by omega) (Nat.dvd_of_mod_eq_zero h3)

theorem init_sizes {s M : Nat} (B : Nat) (hB : B ≠ NULL)
    (c : ¬ (B ≠ NULL ∧ (flp2 M ≠ M ∨ M % s ≠ 0))) : flp2 M = M ∧ M % s = 0 := by
  by_contra hc
  apply c
  refine ⟨hB, ?_⟩
  by_cases h5 : flp2 M = M
  · right; intro h6; exact hc ⟨h5, h6⟩
  · left; exact h5

theorem init_egress {mem : Mem} {ch A : xchg_channel} {s I LI B L : Nat} (hB : B ≠ NULL)
    (h : xchg_channel_init mem ch s I LI B L = (true, A)) :
    Geometry s (wsub (wsub L 8) 8) ∧
      A.egress = ring_attach mem B (wsub (wsub L 8) 8) s := by
  simp only [xchg_channel_init] at h
  split_ifs at h with c1 c2 c3 c4 c5
  all_goals simp only [Prod.mk.injEq, Bool.false_eq_true, false_and, true_and] at h
  all_goals subst h
  all_goals first
    | exact absurd rfl hB
    | exact ⟨geometry_of_flp2 (by simpa using c2) (init_sizes B hB c4).1 (init_sizes B hB c4).2,
        rfl⟩

theorem init_ingress {mem : Mem} {ch A : xchg_channel} {s B L E LE : Nat} (hB : B ≠ NULL)
    (h : xchg_channel_init mem ch s B L E LE = (true, A)) :
    Geometry s (wsub (wsub L 8) 8) ∧
      A.ingress = ring_attach mem B (wsub (wsub L 8) 8) s := by
  simp only [xchg_channel_init] at h
  split_ifs at h with c1 c2 c3 c4 c5
  all_goals simp only [Prod.mk.injEq, Bool.false_eq_true, false_and, true_and] at h
  all_goals subst h
  all_goals first
    | exact absurd rfl hB
    | exact absurd c5 hB
    | exact ⟨geometry_of_flp2 (by simpa using c2) (init_sizes B hB c3).1 (init_sizes B hB c3).2,
        rfl⟩

theorem mask_eq {s M : Nat} (G : Geometry s M) : wsub M 1 = M - 1 := by
  have := G.hs; have := G.hM; have := G.hsM
  unfold wsub; omega

theorem prodInv_init {mem : Mem} {s M B : Nat} (G : Geometry s M) (A : xchg_channel)
    (hA : A.egress = ring_attach mem B M s) (hempty : load64 mem B = load64 mem (B + 8)) :
    ProdInv B s M (load64 mem B) 0 0 A := by
  have hlt := load64_lt mem B
  have hx : wrap (load64 mem B) = load64 mem B := wrap_of_lt hlt
  unfold ProdInv
  rw [hA]
  refine ⟨by simp [ring_attach], by simp [ring_attach], by simp [ring_attach], rfl, rfl,
    by simp [ring_attach, mask_eq G], by simp [ring_attach, ← hempty, hx], ?_⟩
  simp only [ring_attach, Nat.mul_zero, Nat.add_zero, ← hempty, Nat.zero_mul]
  unfold wsub; omega

theorem consInv_init {mem : Mem} {s M B : Nat} (G : Geometry s M) (A : xchg_channel)
    (hA : A.ingress = ring_attach mem B M s) (hempty : load64 mem B = load64 mem (B + 8)) :
    ConsInv B s M (load64 mem B) 0 0 A := by
  have hlt := load64_lt mem B
  have hx : wrap (load64 mem B) = load64 mem B := wrap_of_lt hlt
  unfold ConsInv
  rw [hA]
  refine ⟨by simp [ring_attach], by simp [ring_attach], by simp [ring_attach], rfl, rfl,
    by simp [ring_attach, mask_eq G], by simp [ring_attach, hx], ?_⟩
  simp only [ring_attach, Nat.mul_zero, Nat.add_zero, ← hempty, Nat.zero_mul]
  unfold wsub; omega

theorem sharedInv_init {mem : Mem} {s M B : Nat}
    (hempty : load64 mem B = load64 mem (B + 8)) :
    SharedInv B s M (load64 mem B) 0 0 mem := by
  have hlt := load64_lt mem B
  have hx : wrap (load64 mem B) = load64 mem B := wrap_of_lt hlt
  refine ⟨by simp [hx], by simp [hx, ← hempty], le_refl _, by omega⟩

theorem consInv_mono {B s M x ns nr : Nat} {ch : xchg_channel} (h : ConsInv B s M x ns nr ch) :
    ConsInv B s M x (ns + 1) nr ch := by
  obtain ⟨h1, h2, h3, h4, h5, h6, h7, h8⟩ := h
  refine ⟨h1, h2, h3, h4, h5, h6, h7, ?_⟩
  have : (ns + 1) * s = ns * s + s := by ring
  omega

theorem prodInv_mono {B s M x ns nr : Nat} {ch : xchg_channel} (h : ProdInv B s M x ns nr ch) :
    ProdInv B s M x ns (nr + 1) ch := by
  obtain ⟨h1, h2, h3, h4, h5, h6, h7, h8⟩ := h
  refine ⟨h1, h2, h3, h4, h5, h6, h7, ?_⟩
  have : (nr + 1) * s = nr * s + s := by ring
  omega

/-- A `prepare`+`send` pair on a ring with room for one more slot. -/
theorem prepare_send_spec {B s M x ns nr : Nat} {mem : Mem} {ch : xchg_channel}
    (G : Geometry s M) (hp : ProdInv B s M x ns nr ch) (hsh : SharedInv B s M x ns nr mem)
    (hroom : ns * s + s ≤ nr * s + M) :
    ∃ mem' ch', prepare_send mem ch = (true, mem', ch') ∧
      ProdInv B s M x (ns + 1) nr ch' ∧ SharedInv B s M x (ns + 1) nr mem' ∧
      (∀ a, a < B + 8 ∨ B + 16 ≤ a → mem' a = mem a) := by
  obtain ⟨ch1, hp1, -, hcase⟩ := prepare_spec G hp hsh unbound
  rcases hcase with ⟨-, heq, hfree, -⟩ | ⟨hno, -⟩
  · obtain ⟨ch2, hsend, hp2, hsh2, -, -⟩ :=
      send_spec G hp1 hsh hfree ⟨B + 16 + (wrap (x + ns * s) &&& (M - 1)), s, 0, none⟩ rfl rfl
    refine ⟨_, ch2, ?_, hp2, hsh2, ?_⟩
    · simp only [prepare_send, heq, hsend]
    · intro a ha
      exact store64_out _ _ _ _ (by omega)
  · exact absurd hroom hno

theorem prepare_send_n_spec {B s M x : Nat} {mem : Mem} {ch : xchg_channel}
    (G : Geometry s M) (hp : ProdInv B s M x 0 0 ch) (hsh : SharedInv B s M x 0 0 mem) :
    ∀ k, k * s ≤ M → ∃ mem' ch', prepare_send_n k mem ch = (true, mem', ch') ∧
      ProdInv B s M x k 0 ch' ∧ SharedInv B s M x k 0 mem' ∧
      (∀ a, a < B + 8 ∨ B + 16 ≤ a → mem' a = mem a) := by
  intro k
  induction k with
  | zero => intro _; exact ⟨mem, ch, rfl, hp, hsh, fun _ _ => rfl⟩
  | succ n ih =>
    intro hk
    have hmul : (n + 1) * s = n * s + s := by ring
    obtain ⟨mem1, ch1, h1, hp1, hsh1, hfr1⟩ := ih (by omega)
    obtain ⟨mem2, ch2, h2, hp2, hsh2, hfr2⟩ := prepare_send_spec G hp1 hsh1 (by omega)
    refine ⟨mem2, ch2, ?_, hp2, hsh2, ?_⟩
    · simp only [prepare_send_n, h1, h2]
    · intro a ha
      rw [hfr2 a ha, hfr1 a ha]

theorem write_frame (mem : Mem) (m : xchg_message) (value : xchg_value (List Byte))
    (hw : m.position + 9 + value.sz_data < 2 ^ 64) :
    (xchg_message_write mem m value).2.2.data = m.data ∧
    (xchg_message_write mem m value).2.2.length = m.length ∧
    ∀ a, (a < m.data + m.position ∨ m.data + m.length ≤ a) →
      (xchg_message_write mem m value).2.1 a = mem a := by
  unfold xchg_message_write
  split
  · exact ⟨rfl, rfl, fun _ _ => rfl⟩
  split
  · exact ⟨rfl, rfl, fun _ _ => rfl⟩
  split
  · exact ⟨rfl, rfl, fun _ _ => rfl⟩
  split
  · exact ⟨rfl, rfl, fun _ _ => rfl⟩
  split
  · exact ⟨rfl, rfl, fun _ _ => rfl⟩
  rename_i sz_data hsz
  split
  · exact ⟨rfl, rfl, fun _ _ => rfl⟩
  rename_i c5
  simp only
  have hnr : (if value.list = true then
      lsz_to_nr_bytes ((if value.list = true then lsz_from_sz_list sz_data else 0) % 4)
      else 0) ≤ 8 := by
    split
    · exact lsz_to_nr_bytes_le _
    · omega
  generalize (if value.list = true then
      lsz_to_nr_bytes ((if value.list = true then lsz_from_sz_list sz_data else 0) % 4)
      else 0) = nr at hnr ⊢
  have e3 : wrap (m.position + 1 + nr + sz_data) = m.position + 1 + nr + sz_data :=
    wrap_of_lt (by omega)
  have e1 : wrap (m.position + 1) = m.position + 1 := wrap_of_lt (by omega)
  have e2 : wrap (m.position + 1 + nr) = m.position + 1 + nr := wrap_of_lt (by omega)
  simp only [e1, e2, e3]
  split
  · exact ⟨rfl, rfl, fun _ _ => rfl⟩
  rename_i c6
  refine ⟨rfl, rfl, ?_⟩
  intro a ha
  simp only
  by_cases hz : nr > 0
  · simp only [hz, if_true]
    rw [memcpy_out _ _ _ _ _ (by omega), memcpy_out _ _ _ _ _ (by omega),
      memcpy_out _ _ _ _ _ (by omega)]
  · simp only [hz, if_false]
    rw [memcpy_out _ _ _ _ _ (by omega), memcpy_out _ _ _ _ _ (by omega)]

theorem read_frame (mem : Mem) (m : xchg_message) :
    (xchg_message_read mem m).2.1.data = m.data ∧
    (xchg_message_read mem m).2.1.length = m.length := by
  simp only [xchg_message_read]
  repeat' split
  all_goals exact ⟨rfl, rfl⟩

theorem load_bytes_congr (mem mem2 : Mem) (a n : Nat)
    (h : ∀ i, i < n → mem2 (a + i) = mem (a + i)) : load_bytes mem2 a n = load_bytes mem a n := by
  unfold load_bytes
  apply List.map_congr_left
  intro i hi
  exact h i (List.mem_range.mp hi)

theorem off_eq {s M : Nat} (G : Geometry s M) (i : Nat) : wrap i &&& (M - 1) = i % M := by
  obtain ⟨b, hb⟩ := G.hpow
  have hM := G.hM
  subst hb
  have hb63 : b ≤ 63 := (Nat.pow_le_pow_iff_right (by norm_num)).mp hM
  rw [Nat.and_pow_two_sub_one_eq_mod]
  unfold wrap
  exact Nat.mod_mod_of_dvd _ (pow_dvd_pow 2 (by omega))

theorem slots_disjoint {s M : Nat} (G : Geometry s M) (x k n : Nat) (hkn : k * s < n * s)
    (hroom : n * s < k * s + M) :
    (x + k * s) % M + s ≤ (x + n * s) % M ∨ (x + n * s) % M + s ≤ (x + k * s) % M := by
  have hs := G.hs
  have hdvd : s ∣ M := Nat.dvd_of_mod_eq_zero G.hdiv
  have ha : (x + k * s) % M % s = x % s := by
    rw [Nat.mod_mod_of_dvd _ hdvd, Nat.add_mul_mod_self_right]
  have hb : (x + n * s) % M % s = x % s := by
    rw [Nat.mod_mod_of_dvd _ hdvd, Nat.add_mul_mod_self_right]
  have hne : (x + k * s) % M ≠ (x + n * s) % M := by
    intro heq
    have hmod : (x + k * s) ≡ (x + n * s) [MOD M] := heq
    have hd := (Nat.modEq_iff_dvd' (by omega)).mp hmod
    have hpos : 0 < x + n * s - (x + k * s) := by omega
    have := Nat.le_of_dvd hpos hd
    omega
  rcases Nat.lt_or_gt_of_ne hne with hlt | hgt
  · left
    have h0 : ((x + n * s) % M - (x + k * s) % M) % s = 0 :=
      Nat.sub_mod_eq_zero_of_mod_eq (by rw [ha, hb])
    have := Nat.le_of_dvd (by omega) (Nat.dvd_of_mod_eq_zero h0)
    omega
  · right
    have h0 : ((x + k * s) % M - (x + n * s) % M) % s = 0 :=
      Nat.sub_mod_eq_zero_of_mod_eq (by rw [ha, hb])
    have := Nat.le_of_dvd (by omega) (Nat.dvd_of_mod_eq_zero h0)
    omega

theorem consInv_mono_n {B s M x nr : Nat} {ch : xchg_channel} (h : ConsInv B s M x 0 nr ch) :
    ∀ k, ConsInv B s M x k nr ch := by
  intro k
  induction k with
  | zero => exact h
  | succ n ih => exact consInv_mono ih

/-- Claim C5 (ring capacity). Let a producer endpoint `A` (egress) and a consumer
endpoint `C` (ingress) be initialised by `xchg_channel_init` over the same
buffer `B` of total length `L`, hence with data area `M = L - 16`, holding an
empty ring (published read index = published write index). Then `M / s`
consecutive `prepare`+`send` pairs all succeed; the next `prepare` fails with
"channel is full" and keeps failing (a failed `prepare` leaves the endpoint
in a state on which `prepare` fails again without any change); after one
`receive`+`return` by the consumer exactly one more `prepare`+`send`
succeeds, and the `prepare` after it fails with "channel is full". -/
theorem C5_ring_capacity (mem : Mem) (cha chb A C : xchg_channel) (s I LI E LE B L : Nat)
    (hB : B ≠ NULL)
    (hA : xchg_channel_init mem cha s I LI B L = (true, A))
    (hC : xchg_channel_init mem chb s B L E LE = (true, C))
    (hempty : load64 mem B = load64 mem (B + 8)) :
    ∃ mem1 A1 AF,
      prepare_send_n (wsub (wsub L 8) 8 / s) mem A = (true, mem1, A1) ∧
      xchg_channel_prepare mem1 A1 unbound = (false, AF, unbound) ∧
      AF.error = some ERR_FULL ∧
      xchg_channel_prepare mem1 AF unbound = (false, AF, unbound) ∧
      ∃ mem2 C2, receive_return mem1 C = (true, mem2, C2) ∧
        ∃ mem3 A3 AF3, prepare_send mem2 AF = (true, mem3, A3) ∧
          xchg_channel_prepare mem3 A3 unbound = (false, AF3, unbound) ∧
          AF3.error = some ERR_FULL := by
  obtain ⟨G, hAe⟩ := init_egress hB hA
  obtain ⟨-, hCi⟩ := init_ingress hB hC
  generalize wsub (wsub L 8) 8 = M at G hAe hCi ⊢
  have hs := G.hs
  have hsM := G.hsM
  have hMs : M / s * s = M := Nat.div_mul_cancel (Nat.dvd_of_mod_eq_zero G.hdiv)
  have hp0 := prodInv_init G A hAe hempty
  have hc0 := consInv_init G C hCi hempty
  have hsh0 : SharedInv B s M (load64 mem B) 0 0 mem := sharedInv_init hempty
  generalize load64 mem B = x at hp0 hc0 hsh0
  obtain ⟨mem1, A1, h1, hp1, hsh1, -⟩ := prepare_send_n_spec G hp0 hsh0 (M / s) (by omega)
  obtain ⟨AF, hpF, -, hcase⟩ := prepare_spec G hp1 hsh1 unbound
  rcases hcase with ⟨hroom, -⟩ | ⟨-, hfull, herr, hagain⟩
  · omega
  · refine ⟨mem1, A1, AF, h1, hfull, herr, hagain, ?_⟩
    have hck := consInv_mono_n hc0 (M / s)
    obtain ⟨C1, hc1, -, hcase⟩ := receive_spec G hck hsh1 unbound
    rcases hcase with ⟨-, hrecv, hused, -⟩ | ⟨hno, -⟩
    · obtain ⟨C2, hret, -, hsh2, -, -⟩ :=
        return_spec G hc1 hsh1 hused ⟨B + 16 + (wrap (x + 0 * s) &&& (M - 1)), s, 0, none⟩ rfl rfl
      refine ⟨store64 mem1 B (wrap (x + (0 + 1) * s)), C2,
        by simp only [receive_return, hrecv, hret], ?_⟩
      obtain ⟨mem3, A3, hps, hp3, hsh3, -⟩ :=
        prepare_send_spec G (prodInv_mono hpF) hsh2 (by omega)
      obtain ⟨AF3, -, -, hcase⟩ := prepare_spec G hp3 hsh3 unbound
      rcases hcase with ⟨hroom, -⟩ | ⟨-, hfull3, herr3, -⟩
      · have : (M / s + 1) * s = M / s * s + s := by ring
        omega
      · exact ⟨mem3, A3, AF3, hps, hfull3, herr3⟩
    · omega

/-- Claim C5, instantiated: slot size 64 and a zeroed 144-byte buffer
(`M = 128`): two pairs succeed and the third `prepare` fails. -/
theorem C5_ring_capacity_witness :
    ∃ mem1 A1 AF,
      prepare_send_n (wsub (wsub 144 8) 8 / 64) zero_mem
          (xchg_channel_init zero_mem zero_channel 64 NULL 0 4096 144).2 = (true, mem1, A1) ∧
      xchg_channel_prepare mem1 A1 unbound = (false, AF, unbound) ∧
      AF.error = some ERR_FULL ∧
      xchg_channel_prepare mem1 AF unbound = (false, AF, unbound) ∧
      ∃ mem2 C2, receive_return mem1
          (xchg_channel_init zero_mem zero_channel 64 4096 144 NULL 0).2 = (true, mem2, C2) ∧
        ∃ mem3 A3 AF3, prepare_send mem2 AF = (true, mem3, A3) ∧
          xchg_channel_prepare mem3 A3 unbound = (false, AF3, unbound) ∧
          AF3.error = some ERR_FULL :=
  C5_ring_capacity zero_mem zero_channel zero_channel
    (xchg_channel_init zero_mem zero_channel 64 NULL 0 4096 144).2
    (xchg_channel_init zero_mem zero_channel 64 4096 144 NULL 0).2
    64 NULL 0 NULL 0 4096 144
    (by decide) (by decide) (by decide) (by decide)

theorem slot_off_eq {s M : Nat} (G : Geometry s M) (x k : Nat) :
    slot_off s M x k = (x + k * s) % M := off_eq G _

theorem slot_off_lt {s M : Nat} (G : Geometry s M) (x k : Nat) : slot_off s M x k < M := by
  rw [slot_off_eq G]
  exact Nat.mod_lt _ (by have := G.hs; have := G.hsM; omega)

theorem sysInv_prepare {B s M x ns nr : Nat} {log : Nat → List Byte} {S S' : Endpoints}
    (G : Geometry s M) (h : SysInv B s M x ns nr log S) (hstep : step S .prepare = some S') :
    SysInv B s M x ns nr log S' := by
  obtain ⟨mem, P, C, pcur, ccur, prepared, sent, received⟩ := S
  obtain ⟨hsh, hp, hc, hpc, hcc, hprep, hsent, hrecv, hslots⟩ := h
  simp only at hsh hp hc hpc hcc hprep hsent hrecv hslots
  cases pcur with
  | some m => simp [step] at hstep
  | none =>
    obtain ⟨P', hp', -, hcase⟩ := prepare_spec G hp hsh unbound
    rcases hcase with ⟨hroom, heq, hfree, -⟩ | ⟨hno, heq, -, -⟩
    · simp only [step, heq, Option.some.injEq] at hstep
      subst hstep
      have hdata : P'.egress.data = B + 16 := hp'.2.2.1
      refine ⟨hsh, hp', hc, ?_, hcc, ?_, hsent, hrecv, hslots⟩
      · intro msg hm
        simp only [Option.some.injEq] at hm
        subst hm
        exact ⟨rfl, rfl, hfree⟩
      · simp only [hprep, hdata, Option.isSome_none, Option.isSome_some, if_true, Nat.add_zero,
          Bool.false_eq_true, if_false, List.range_succ, List.map_append, List.map_cons,
          List.map_nil]
        congr 2
        simp only [slot_off]
        omega
    · simp only [step, heq, Option.some.injEq] at hstep
      subst hstep
      exact ⟨hsh, hp', hc, fun msg hm => by simp at hm, hcc, hprep, hsent, hrecv, hslots⟩

theorem sysInv_receive {B s M x ns nr : Nat} {log : Nat → List Byte} {S S' : Endpoints}
    (G : Geometry s M) (h : SysInv B s M x ns nr log S) (hstep : step S .receive = some S') :
    SysInv B s M x ns nr log S' := by
  obtain ⟨mem, P, C, pcur, ccur, prepared, sent, received⟩ := S
  obtain ⟨hsh, hp, hc, hpc, hcc, hprep, hsent, hrecv, hslots⟩ := h
  simp only at hsh hp hc hpc hcc hprep hsent hrecv hslots
  have hs := G.hs
  cases ccur with
  | some m => simp [step] at hstep
  | none =>
    obtain ⟨C', hc', -, hcase⟩ := receive_spec G hc hsh unbound
    rcases hcase with ⟨hroom, heq, hused, -⟩ | ⟨hno, heq, -, -⟩
    · simp only [step, heq, Option.some.injEq] at hstep
      subst hstep
      have hdata : C'.ingress.data = B + 16 := hc'.2.2.1
      have hlt : nr < ns := by
        by_contra hge
        have : ns * s ≤ nr * s := Nat.mul_le_mul_right s (by omega)
        omega
      refine ⟨hsh, hp, hc', hpc, ?_, hprep, hsent, ?_, hslots⟩
      · intro msg hm
        simp only [Option.some.injEq] at hm
        subst hm
        exact ⟨rfl, rfl, hused⟩
      · simp only [hrecv, hdata, Option.isSome_none, Option.isSome_some, if_true, Nat.add_zero,
          Bool.false_eq_true, if_false, List.range_succ, List.map_append, List.map_cons,
          List.map_nil]
        congr 2
        have hl := hslots nr (le_refl _) hlt
        simp only [slot_off] at hl ⊢
        rw [hl]
        congr 1
        omega
    · simp only [step, heq, Option.some.injEq] at hstep
      subst hstep
      exact ⟨hsh, hp, hc', hpc, fun msg hm => by simp at hm, hprep, hsent, hrecv, hslots⟩

theorem sysInv_read {B s M x ns nr : Nat} {log : Nat → List Byte} {S S' : Endpoints}
    (h : SysInv B s M x ns nr log S) (hstep : step S .read = some S') :
    SysInv B s M x ns nr log S' := by
  obtain ⟨mem, P, C, pcur, ccur, prepared, sent, received⟩ := S
  obtain ⟨hsh, hp, hc, hpc, hcc, hprep, hsent, hrecv, hslots⟩ := h
  simp only at hsh hp hc hpc hcc hprep hsent hrecv hslots
  cases ccur with
  | none => simp [step] at hstep
  | some m =>
    simp only [step, Option.some.injEq] at hstep
    subst hstep
    obtain ⟨h1, h2, h3⟩ := hcc m rfl
    have hf := read_frame mem m
    refine ⟨hsh, hp, hc, hpc, ?_, hprep, hsent, hrecv, hslots⟩
    intro msg hm
    simp only [Option.some.injEq] at hm
    subst hm
    exact ⟨by rw [hf.1, h1], by rw [hf.2, h2], h3⟩

theorem sysInv_write {B s M x ns nr : Nat} {log : Nat → List Byte} {S S' : Endpoints}
    (G : Geometry s M) (h : SysInv B s M x ns nr log S) (value : xchg_value (List Byte))
    (hstep : step S (.write value) = some S') :
    SysInv B s M x ns nr log S' := by
  obtain ⟨mem, P, C, pcur, ccur, prepared, sent, received⟩ := S
  obtain ⟨hsh, hp, hc, hpc, hcc, hprep, hsent, hrecv, hslots⟩ := h
  simp only at hsh hp hc hpc hcc hprep hsent hrecv hslots
  have hs := G.hs
  cases pcur with
  | none => simp [step] at hstep
  | some m =>
    simp only [step] at hstep
    split_ifs at hstep with hguard
    simp only [Option.some.injEq] at hstep
    subst hstep
    obtain ⟨h1, h2, h3⟩ := hpc m rfl
    obtain ⟨f1, f2, f3⟩ := write_frame mem m value hguard
    have hfree : ns * s + s ≤ nr * s + M := by
      have := hp.2.2.2.2.2.2.2
      omega
    have hoff := slot_off_lt G x ns
    refine ⟨?_, hp, hc, ?_, hcc, hprep, hsent, hrecv, ?_⟩
    · obtain ⟨g1, g2, g3, g4⟩ := hsh
      refine ⟨?_, ?_, g3, g4⟩
      · rw [← g1]
        exact load64_congr _ _ _ (fun i hi => f3 _ (by omega))
      · rw [← g2]
        exact load64_congr _ _ _ (fun i hi => f3 _ (by omega))
    · intro msg hm
      simp only [Option.some.injEq] at hm
      subst hm
      exact ⟨by rw [f1, h1], by rw [f2, h2], h3⟩
    · intro k hk1 hk2
      rw [← hslots k hk1 hk2]
      apply load_bytes_congr
      intro i hi
      apply f3
      have hks : k * s < ns * s := Nat.mul_lt_mul_of_pos_right hk2 (by omega)
      have hnk : nr * s ≤ k * s := Nat.mul_le_mul_right s hk1
      have hd := slots_disjoint G x k ns hks (by omega)
      rw [← slot_off_eq G, ← slot_off_eq G] at hd
      omega

theorem sysInv_send {B s M x ns nr : Nat} {log : Nat → List Byte} {S S' : Endpoints}
    (G : Geometry s M) (h : SysInv B s M x ns nr log S) (hstep : step S .send = some S') :
    ∃ log', SysInv B s M x (ns + 1) nr log' S' := by
  obtain ⟨mem, P, C, pcur, ccur, prepared, sent, received⟩ := S
  obtain ⟨hsh, hp, hc, hpc, hcc, hprep, hsent, hrecv, hslots⟩ := h
  simp only at hsh hp hc hpc hcc hprep hsent hrecv hslots
  have hs := G.hs
  cases pcur with
  | none => simp [step] at hstep
  | some m =>
    obtain ⟨h1, h2, h3⟩ := hpc m rfl
    obtain ⟨P', hsend, hp', hsh', -, -⟩ := send_spec G hp hsh h3 m h2 h1
    simp only [step, hsend, Option.some.injEq] at hstep
    subst hstep
    have hnrns : nr + (if ccur.isSome then 1 else 0) ≤ ns := by
      cases hcu : ccur with
      | none =>
        simp only [Option.isSome_none, Bool.false_eq_true, if_false, Nat.add_zero]
        by_contra hlt
        have : ns * s < nr * s := Nat.mul_lt_mul_of_pos_right (by omega) (by omega)
        have := hsh.2.2.1
        omega
      | some cm =>
        simp only [Option.isSome_some, if_true]
        obtain ⟨-, -, hu⟩ := hcc cm hcu
        have := hc.2.2.2.2.2.2.2
        by_contra hlt
        have : ns * s ≤ nr * s := Nat.mul_le_mul_right s (by omega)
        omega
    refine ⟨fun k => if k = ns then load_bytes mem m.data m.length else log k, ?_⟩
    refine ⟨hsh', hp', consInv_mono hc, fun msg hm => by simp at hm, hcc, ?_, ?_, ?_, ?_⟩
    · simp only [hprep, Option.isSome_some, if_true, Option.isSome_none, Bool.false_eq_true,
        if_false, Nat.add_zero]
    · simp only [hsent, List.range_succ, List.map_append, List.map_cons, List.map_nil, if_true]
      congr 1
      apply List.map_congr_left
      intro k hk
      have := List.mem_range.mp hk
      rw [if_neg (by omega)]
    · simp only [hrecv]
      apply List.map_congr_left
      intro k hk
      have := List.mem_range.mp hk
      rw [if_neg (by omega)]
    · intro k hk1 hk2
      have hcongr : load_bytes (store64 mem (B + 8) (wrap (x + (ns + 1) * s)))
          (B + 16 + slot_off s M x k) s = load_bytes mem (B + 16 + slot_off s M x k) s :=
        load_bytes_congr _ _ _ _ (fun i hi => store64_out _ _ _ _ (by omega))
      simp only
      rw [hcongr]
      by_cases hk : k = ns
      · subst hk
        rw [if_pos rfl, h1, h2]
      · rw [if_neg hk]
        exact hslots k hk1 (by omega)

theorem sysInv_give_back {B s M x ns nr : Nat} {log : Nat → List Byte} {S S' : Endpoints}
    (G : Geometry s M) (h : SysInv B s M x ns nr log S) (hstep : step S .give_back = some S') :
    SysInv B s M x ns (nr + 1) log S' := by
  obtain ⟨mem, P, C, pcur, ccur, prepared, sent, received⟩ := S
  obtain ⟨hsh, hp, hc, hpc, hcc, hprep, hsent, hrecv, hslots⟩ := h
  simp only at hsh hp hc hpc hcc hprep hsent hrecv hslots
  have hs := G.hs
  cases ccur with
  | none => simp [step] at hstep
  | some m =>
    obtain ⟨h1, h2, h3⟩ := hcc m rfl
    obtain ⟨C', hret, hc', hsh', -, -⟩ := return_spec G hc hsh h3 m h2 h1
    simp only [step, hret, Option.some.injEq] at hstep
    subst hstep
    refine ⟨hsh', prodInv_mono hp, hc', hpc, fun msg hm => by simp at hm, hprep, hsent, ?_, ?_⟩
    · simp only [hrecv, Option.isSome_some, if_true, Option.isSome_none, Bool.false_eq_true,
        if_false, Nat.add_zero]
    · intro k hk1 hk2
      have hcongr : load_bytes (store64 mem B (wrap (x + (nr + 1) * s)))
          (B + 16 + slot_off s M x k) s = load_bytes mem (B + 16 + slot_off s M x k) s :=
        load_bytes_congr _ _ _ _ (fun i hi => store64_out _ _ _ _ (by omega))
      simp only
      rw [hcongr]
      exact hslots k (by omega) hk2

theorem sysInv_step {B s M x ns nr : Nat} {log : Nat → List Byte} {S S' : Endpoints}
    (G : Geometry s M) (h : SysInv B s M x ns nr log S) (a : Action)
    (hstep : step S a = some S') :
    ∃ ns' nr' log', SysInv B s M x ns' nr' log' S' := by
  cases a with
  | prepare => exact ⟨ns, nr, log, sysInv_prepare G h hstep⟩
  | write value => exact ⟨ns, nr, log, sysInv_write G h value hstep⟩
  | send =>
    obtain ⟨log', h'⟩ := sysInv_send G h hstep
    exact ⟨ns + 1, nr, log', h'⟩
  | receive => exact ⟨ns, nr, log, sysInv_receive G h hstep⟩
  | read => exact ⟨ns, nr, log, sysInv_read h hstep⟩
  | give_back => exact ⟨ns, nr + 1, log, sysInv_give_back G h hstep⟩

theorem sysInv_run {B s M x : Nat} (G : Geometry s M) (trace : List Action) :
    ∀ (S S' : Endpoints) (ns nr : Nat) (log : Nat → List Byte),
      SysInv B s M x ns nr log S → run S trace = some S' →
      ∃ ns' nr' log', SysInv B s M x ns' nr' log' S' := by
  induction trace with
  | nil =>
    intro S S' ns nr log h hrun
    simp only [run, Option.some.injEq] at hrun
    subst hrun
    exact ⟨ns, nr, log, h⟩
  | cons a as ih =>
    intro S S' ns nr log h hrun
    simp only [run] at hrun
    cases hs : step S a with
    | none => simp [hs] at hrun
    | some S1 =>
      simp only [hs] at hrun
      obtain ⟨ns1, nr1, log1, h1⟩ := sysInv_step G h a hs
      exact ih S1 S' ns1 nr1 log1 h1 hrun

theorem sysInv_fifo {B s M x ns nr : Nat} {log : Nat → List Byte} {S : Endpoints}
    (G : Geometry s M) (h : SysInv B s M x ns nr log S) :
    S.received.length ≤ S.sent.length ∧
    ∀ (i off : Nat) (bytes : List Byte), S.received[i]? = some (off, bytes) →
      S.prepared[i]? = some off ∧ S.sent[i]? = some bytes := by
  obtain ⟨hsh, hp, hc, hpc, hcc, hprep, hsent, hrecv, hslots⟩ := h
  have hs := G.hs
  have hnrns : nr + (if S.ccur.isSome then 1 else 0) ≤ ns := by
    cases hcu : S.ccur with
    | none =>
      simp only [Option.isSome_none, Bool.false_eq_true, if_false, Nat.add_zero]
      by_contra hlt
      have : ns * s < nr * s := Nat.mul_lt_mul_of_pos_right (by omega) (by omega)
      have := hsh.2.2.1
      omega
    | some cm =>
      simp only [Option.isSome_some, if_true]
      obtain ⟨-, -, hu⟩ := hcc cm hcu
      have := hc.2.2.2.2.2.2.2
      by_contra hlt
      have : ns * s ≤ nr * s := Nat.mul_le_mul_right s (by omega)
      omega
  refine ⟨by rw [hrecv, hsent]; simpa using hnrns, ?_⟩
  intro i off bytes hi
  rw [hrecv] at hi
  rw [hprep, hsent]
  simp only [List.getElem?_map, List.getElem?_range] at hi ⊢
  by_cases hlt : i < nr + (if S.ccur.isSome then 1 else 0)
  · have h1 : i < ns := by omega
    have h2 : i < ns + (if S.pcur.isSome then 1 else 0) := by omega
    simp only [List.getElem?_range hlt, Option.map_some', Option.some.injEq, Prod.mk.injEq] at hi
    simp only [List.getElem?_range h1, List.getElem?_range h2, Option.map_some', hi.1, hi.2,
      and_self]
  · have : (List.range (nr + (if S.ccur.isSome then 1 else 0)))[i]? = none := by
      apply List.getElem?_eq_none
      simp only [List.length_range]
      omega
    simp [this] at hi

/-- Claim C4 (ring FIFO). Let a producer endpoint `A` (egress) and a consumer
endpoint `C` (ingress) be initialised by `xchg_channel_init` over the same
buffer holding an empty ring. For every interleaving of producer calls
(`prepare`, codec writes, `send`) and consumer calls (`receive`, codec
reads, `return`) that follows the protocol, the `i`-th successful `receive`
binds the slot offset bound by the `i`-th successful `prepare`, and the slot
it binds holds the bytes the slot held at the `i`-th `send`; so the messages
are received in the order they were sent, and no more are received than were
sent. -/
theorem C4_ring_fifo (mem : Mem) (cha chb A C : xchg_channel) (s I LI E LE B L : Nat)
    (hB : B ≠ NULL)
    (hA : xchg_channel_init mem cha s I LI B L = (true, A))
    (hC : xchg_channel_init mem chb s B L E LE = (true, C))
    (hempty : load64 mem B = load64 mem (B + 8))
    (trace : List Action) (S : Endpoints) (hrun : run (fresh mem A C) trace = some S) :
    S.received.length ≤ S.sent.length ∧
    ∀ (i off : Nat) (bytes : List Byte), S.received[i]? = some (off, bytes) →
      S.prepared[i]? = some off ∧ S.sent[i]? = some bytes := by
  obtain ⟨G, hAe⟩ := init_egress hB hA
  obtain ⟨-, hCi⟩ := init_ingress hB hC
  have h0 : SysInv B s (wsub (wsub L 8) 8) (load64 mem B) 0 0 (fun _ => []) (fresh mem A C) := by
    refine ⟨sharedInv_init hempty, prodInv_init G A hAe hempty, consInv_init G C hCi hempty,
      fun msg hm => by simp [fresh] at hm, fun msg hm => by simp [fresh] at hm, ?_, ?_, ?_, ?_⟩
    · simp [fresh]
    · simp [fresh]
    · simp [fresh]
    · intro k _ hk; omega
  obtain ⟨ns, nr, log, hS⟩ := sysInv_run G trace _ S 0 0 _ h0 hrun
  exact sysInv_fifo G hS

/-- Claim C4, instantiated: one message is written, sent, received, read and
returned over a zeroed 144-byte buffer with slot size 64. -/
theorem C4_ring_fifo_witness :
    run (fresh zero_mem (xchg_channel_init zero_mem zero_channel 64 NULL 0 4096 144).2
        (xchg_channel_init zero_mem zero_channel 64 4096 144 NULL 0).2) demo_trace
      = some demo_state ∧
    demo_state.received.length ≤ demo_state.sent.length ∧
    ∀ (i off : Nat) (bytes : List Byte), demo_state.received[i]? = some (off, bytes) →
      demo_state.prepared[i]? = some off ∧ demo_state.sent[i]? = some bytes :=
  ⟨rfl, C4_ring_fifo zero_mem zero_channel zero_channel
    (xchg_channel_init zero_mem zero_channel 64 NULL 0 4096 144).2
    (xchg_channel_init zero_mem zero_channel 64 4096 144 NULL 0).2
    64 NULL 0 NULL 0 4096 144
    (by decide) (by decide) (by decide) (by decide) demo_trace demo_state rfl⟩

/-- What peek and the read kernel have in common: when peek succeeds, the read
kernel succeeds on the same cursor with the tag's type, null flag and list
flag, peek's outputs are exactly the kernel's values, the position the
kernel leaves is within the cursor, and the kernel hands out a payload
pointer exactly when the payload size it computed is positive. -/
theorem peek_ok_read_ok (mem : Mem) (m : xchg_message) (out : peek_out)
    (h : (xchg_message_peek mem m out).1 = true) :
    ∃ v : xchg_value Nat, ∃ m1 : xchg_message,
      xchg_message_read mem m = (true, m1, some v) ∧
      v.type = (tag_of_byte (mem (m.data + m.position))).type ∧
      v.null = (tag_of_byte (mem (m.data + m.position))).null ∧
      v.list = (tag_of_byte (mem (m.data + m.position))).list ∧
      (xchg_message_peek mem m out).2.2 =
        { sz_list := out.sz_list.map (fun _ => v.sz_list)
          type := out.type.map (fun _ => v.type)
          null := out.null.map (fun _ => v.null)
          list := out.list.map (fun _ => v.list) } ∧
      m1.position ≤ m.length ∧
      (v.data.isSome = true ↔ 0 < v.sz_data) := by
  simp only [xchg_message_peek, xchg_message_read] at h ⊢
  generalize tag_of_byte (mem (m.data + m.position)) = t at h ⊢
  obtain ⟨ty, lsz, list, null⟩ := t
  by_cases c1 : wrap (m.position + 1) > m.length
  · simp [c1] at h
  have c1' : wrap (m.position + 1) ≤ m.length := by omega
  cases null <;> cases list <;> by_cases hl : lsz > 0 <;> simp only [c1, hl, if_false,
    Bool.not_true, Bool.not_false, Bool.false_and, Bool.true_and, Bool.and_true, Bool.and_false,
    decide_True, decide_False, Bool.false_eq_true, if_true] at h ⊢
  all_goals (repeat' split at h)
  all_goals (first | (simp at h; done) | skip)
  all_goals (try split_ifs)
  all_goals first
    | (refine ⟨_, _, rfl, rfl, rfl, rfl, rfl, ?_, ?_⟩ <;> simp_all)
    | (exfalso; simp_all; omega)
    | (exfalso; simp_all)

/-! ### Inputs on which the code departs from the specification -/

/-- Claim C3 (peek guarantees the read), evaluated on the 9-byte buffer
`73 F7 FF FF FF FF FF FF FF`: `xchg_message_peek` succeeds and reports a
non-null `uint8` list of `2^64 - 9` elements, and `read_uint8_list` succeeds
with that count, but the position is still 0 afterwards, where the claim
says it advanced by `1 + 8 + (2^64 - 9)` bytes: the sum `position + sz_data`
of the bounds check wraps around to 0. -/
theorem C3_read_after_peek_does_not_advance :
    xchg_message_peek (oversized_uint8_list 4096) ⟨4096, 9, 0, none⟩
        ⟨some 0, some false, some false, some 0⟩ =
      (true, ⟨4096, 9, 0, none⟩,
        ⟨some xchg_type_uint8, some false, some true, some (2 ^ 64 - 9)⟩) ∧
    xchg_message_read_list .uint8 (oversized_uint8_list 4096) ⟨4096, 9, 0, none⟩
        (some none) (some 0) =
      (true, ⟨4096, 9, 0, none⟩, some (some (4096 + 9)), some (2 ^ 64 - 9)) ∧
    (xchg_message_read_list .uint8 (oversized_uint8_list 4096) ⟨4096, 9, 0, none⟩
        (some none) (some 0)).2.1.position ≠ 0 + (1 + 8 + (2 ^ 64 - 9) * scalar.uint8.sizeof) := by
  decide

/-- Claim C7 (wire format of a write), evaluated on
`write_int64_list(list, 2^61 + 1)` with one element `7` behind `list`, on a
64-byte cursor over zeroed memory: the write succeeds and emits the ten bytes
`58 01 07 00 00 00 00 00 00 00`. The tag announces a 1-byte length field, and
that field holds 1, not the count `2^61 + 1`: `sz_list * sizeof(int64_t)`
wrapped around to 8. -/
theorem C7_length_field_is_not_the_count :
    (xchg_message_write_list .int64 zero_mem ⟨4096, 64, 0, none⟩ (some [7]) (2 ^ 61 + 1)).1
      = true ∧
    (xchg_message_write_list .int64 zero_mem ⟨4096, 64, 0, none⟩ (some [7])
      (2 ^ 61 + 1)).2.2.position = 10 ∧
    load_bytes (xchg_message_write_list .int64 zero_mem ⟨4096, 64, 0, none⟩ (some [7])
      (2 ^ 61 + 1)).2.1 4096 10 = [0x58, 0x01, 7, 0, 0, 0, 0, 0, 0, 0] ∧
    (tag_of_byte 0x58).lsz = 1 ∧ lsz_to_nr_bytes 1 = 1 ∧
    load_le (xchg_message_write_list .int64 zero_mem ⟨4096, 64, 0, none⟩ (some [7])
      (2 ^ 61 + 1)).2.1 (4096 + 1) 1 ≠ 2 ^ 61 + 1 := by
  decide

/-- Claim C8 (list-size class from the element count), evaluated on
`write_int64_list` of 32 elements into a 4096-byte cursor: the write
succeeds and the tag it emits has `lsz = 2`, where the element count 32 is
at most `0xFF` and the claim says `lsz = 1`: the writer passes the payload
size in bytes (256) to `lsz_from_sz_list`. -/
theorem C8_lsz_follows_the_byte_size :
    (xchg_message_write_list .int64 zero_mem ⟨4096, 4096, 0, none⟩
        (some (List.replicate 32 0)) 32).1 = true ∧
    tag_of_byte ((xchg_message_write_list .int64 zero_mem ⟨4096, 4096, 0, none⟩
        (some (List.replicate 32 0)) 32).2.1 4096) = ⟨xchg_type_int64, 2, true, false⟩ ∧
    lsz_from_sz_list 32 = 1 := by
  decide

/-- Claim C10 (peek verifies that the payload fits), evaluated on the 9-byte
buffer `78 00 00 00 00 00 00 00 20`: `xchg_message_peek`, the read kernel and
`read_int64_list` all succeed and report a non-null `int64` list of `2^61`
elements, although `0 + 1 + 8 + 2^61 * 8` exceeds the length 9 of the
buffer: `sz_list * sizeof(int64_t)` wraps around to 0. -/
theorem C10_peek_accepts_a_list_beyond_the_buffer :
    xchg_message_peek (oversized_int64_list 4096) ⟨4096, 9, 0, none⟩
        ⟨some 0, some false, some false, some 0⟩ =
      (true, ⟨4096, 9, 0, none⟩,
        ⟨some xchg_type_int64, some false, some true, some (2 ^ 61)⟩) ∧
    (xchg_message_read (oversized_int64_list 4096) ⟨4096, 9, 0, none⟩).1 = true ∧
    xchg_message_read_list .int64 (oversized_int64_list 4096) ⟨4096, 9, 0, none⟩
        (some none) (some 0) =
      (true, ⟨4096, 9, 9, none⟩, some none, some (2 ^ 61)) ∧
    ¬ (0 + 1 + 8 + 2 ^ 61 * scalar.int64.sizeof ≤ 9) := by
  decide

/-! ## Type codes on the wire -/

theorem switch_invalid (t : Nat) (l : Bool) (n : Nat) (h : t = 0 ∨ 12 ≤ t) :
    switch_sz_data t l n = none := by
  rcases h with h | h
  · subst h; rfl
  · obtain ⟨k, rfl⟩ : ∃ k, t = k + 12 := ⟨t - 12, by omega⟩
    rfl

theorem peek_rejects (mem : Mem) (m : xchg_message) (out : peek_out)
    (ht : (tag_of_byte (mem (m.data + m.position))).type = 0 ∨
      12 ≤ (tag_of_byte (mem (m.data + m.position))).type) :
    ∃ e, xchg_message_peek mem m out = (false, { m with error := some e }, out) := by
  simp only [xchg_message_peek]
  split
  · exact ⟨ERR_EOF, rfl⟩
  · split
    · exact ⟨ERR_TRUNC, rfl⟩
    · rw [switch_invalid _ _ _ ht]
      exact ⟨ERR_TYPE, rfl⟩

theorem read_rejects (mem : Mem) (m : xchg_message)
    (ht : (tag_of_byte (mem (m.data + m.position))).type = 0 ∨
      12 ≤ (tag_of_byte (mem (m.data + m.position))).type) :
    ∃ e, xchg_message_read mem m = (false, { m with error := some e }, none) := by
  simp only [xchg_message_read]
  split
  · exact ⟨ERR_EOF, rfl⟩
  · split
    · exact ⟨ERR_TRUNC, rfl⟩
    · rw [switch_invalid _ _ _ ht]
      exact ⟨ERR_TYPE, rfl⟩

/-- Claim C12 (readers reject invalid type codes). When the tag byte at the
cursor's position carries type code 0 or one of the reserved codes 12..15,
whatever its null, list and lsz bits and whatever follows it, then
`xchg_message_peek`, the read kernel, every typed scalar reader, every typed
list reader, `read_null` and `read_null_list` return failure; the cursor
they leave differs from the one they were given at most in its error field,
so the position is unchanged, and the outputs are left as they were. -/
theorem C12_readers_reject_invalid_type_codes (mem : Mem) (m : xchg_message)
    (ht : (tag_of_byte (mem (m.data + m.position))).type = 0 ∨
      12 ≤ (tag_of_byte (mem (m.data + m.position))).type) :
    (∀ out, ∃ e, xchg_message_peek mem m out = (false, { m with error := e }, out)) ∧
    (∃ e, xchg_message_read mem m = (false, { m with error := e }, none)) ∧
    (∀ T value, ∃ e,
      xchg_message_read_scalar T mem m value = (false, { m with error := e }, value)) ∧
    (∀ T list sz_list, ∃ e,
      xchg_message_read_list T mem m list sz_list =
        (false, { m with error := e }, list, sz_list)) ∧
    (∀ type, ∃ e, xchg_message_read_null mem m type = (false, { m with error := e }, type)) ∧
    (∀ type, ∃ e,
      xchg_message_read_null_list mem m type = (false, { m with error := e }, type)) := by
  obtain ⟨er, hr⟩ := read_rejects mem m ht
  refine ⟨?_, ⟨some er, hr⟩, ?_, ?_, ?_, ?_⟩
  · intro out
    obtain ⟨e, he⟩ := peek_rejects mem m out ht
    exact ⟨some e, he⟩
  · intro T value
    have hne : (tag_of_byte (mem (m.data + m.position))).type ≠ T.type := by
      have := type_pos T; have := type_lt T; omega
    cases value with
    | none => exact ⟨m.error, rfl⟩
    | some v =>
      simp only [xchg_message_read_scalar]
      split
      · exact ⟨some ERR_EOF, rfl⟩
      · refine ⟨m.error, ?_⟩
        simp [hne]
  · intro T list sz_list
    have hne : (tag_of_byte (mem (m.data + m.position))).type ≠ T.type := by
      have := type_pos T; have := type_lt T; omega
    cases list with
    | none => exact ⟨m.error, by simp [xchg_message_read_list]⟩
    | some l =>
      cases sz_list with
      | none => exact ⟨m.error, by simp [xchg_message_read_list]⟩
      | some n =>
        simp only [xchg_message_read_list]
        split
        · exact ⟨some ERR_EOF, rfl⟩
        · refine ⟨m.error, ?_⟩
          simp [hne]
  · intro type
    cases type with
    | none => exact ⟨m.error, rfl⟩
    | some t =>
      simp only [xchg_message_read_null]
      split
      · exact ⟨some ERR_EOF, rfl⟩
      · split
        · exact ⟨m.error, rfl⟩
        · rw [hr]; exact ⟨some er, rfl⟩
  · intro type
    cases type with
    | none => exact ⟨m.error, rfl⟩
    | some t =>
      simp only [xchg_message_read_null_list]
      split
      · exact ⟨some ERR_EOF, rfl⟩
      · split
        · exact ⟨m.error, rfl⟩
        · rw [hr]; exact ⟨some er, rfl⟩

/-- Claim C12, instantiated on a zeroed 4-byte buffer: its first byte is the tag
`00`, type code 0. -/
theorem C12_readers_reject_invalid_type_codes_witness :
    ((tag_of_byte (zero_mem (4096 + 0))).type = 0 ∨ 12 ≤ (tag_of_byte (zero_mem (4096 + 0))).type) ∧
    (∀ out, ∃ e, xchg_message_peek zero_mem ⟨4096, 4, 0, none⟩ out =
      (false, { (⟨4096, 4, 0, none⟩ : xchg_message) with error := e }, out)) :=
  ⟨by decide, (C12_readers_reject_invalid_type_codes zero_mem ⟨4096, 4, 0, none⟩ (by decide)).1⟩

theorem write_nonnull_validates_type (mem : Mem) (m : xchg_message)
    (value : xchg_value (List Byte)) (hn : value.null = false)
    (h : (xchg_message_write mem m value).1 = true) : 1 ≤ value.type ∧ value.type ≤ 11 := by
  by_contra hc
  have ht : value.type = 0 ∨ 12 ≤ value.type := by omega
  simp only [xchg_message_write, hn, switch_invalid _ _ _ ht, Bool.false_eq_true, if_false] at h
  split_ifs at h

/-- Claim C11 (the writer never produces the invalid type code), evaluated on a
4-byte cursor over zeroed memory. `xchg_message_write_null(message,
xchg_type_invalid)` returns success and emits the tag byte `80`, whose type
code is 0; `xchg_message_write_null_list(message, 12)` returns success and
emits `CC`, whose type code is the reserved code 12. The byte `80` is then
rejected by `xchg_message_read_null` with "value type should be one of
xchg_type_t". The non-null path of the write kernel rejects such a type in
the `default:` case of its `switch`; the null path skips that `switch`. -/
theorem C11_null_writers_emit_invalid_type_codes :
    (xchg_message_write_null zero_mem ⟨4096, 4, 0, none⟩ xchg_type_invalid).1 = true ∧
    (xchg_message_write_null zero_mem ⟨4096, 4, 0, none⟩ xchg_type_invalid).2.2 =
      ⟨4096, 4, 1, none⟩ ∧
    (xchg_message_write_null zero_mem ⟨4096, 4, 0, none⟩ xchg_type_invalid).2.1 4096 = 0x80 ∧
    (tag_of_byte ((xchg_message_write_null zero_mem ⟨4096, 4, 0, none⟩
      xchg_type_invalid).2.1 4096)).type = xchg_type_invalid ∧
    (xchg_message_write_null_list zero_mem ⟨4096, 4, 0, none⟩ 12).1 = true ∧
    (xchg_message_write_null_list zero_mem ⟨4096, 4, 0, none⟩ 12).2.1 4096 = 0xCC ∧
    (tag_of_byte ((xchg_message_write_null_list zero_mem ⟨4096, 4, 0, none⟩ 12).2.1 4096)).type
      = 12 ∧
    xchg_message_read_null
        (xchg_message_write_null zero_mem ⟨4096, 4, 0, none⟩ xchg_type_invalid).2.1
        ⟨4096, 4, 0, none⟩ (some xchg_type_bool) =
      (false, ⟨4096, 4, 0, some ERR_TYPE⟩, some xchg_type_bool) := by
  decide

/-! ## The commit operations `send` and `return` -/

/-- Claim C13 (send validates and commits). On a channel whose egress is
configured (its `data` pointer is not null, and the index words and the data
area are laid out as `xchg_channel_init` lays them out: `w = r + 8`,
`data = r + 16`), `xchg_channel_send` succeeds exactly when the cursor has
`length = sz_message` and `data = egress.data + (cw & mask)`. On success the
`cw` shadow and the published write index are each increased by `sz_message`
modulo `2^64`, the other fields of the egress ring and the ingress ring are
unchanged, the channel error is cleared, the published read index is
unchanged, and no byte outside the word of the write index is written, in
particular no slot byte. On failure the result is the memory as it was and
the channel with only its error set to "message is invalid". -/
theorem C13_send_validates_and_commits (mem : Mem) (ch : xchg_channel) (msg : xchg_message)
    (hdata : ch.egress.data ≠ NULL) (hw : ch.egress.w = ch.egress.r + 8)
    (hd : ch.egress.data = ch.egress.r + 16) :
    ((xchg_channel_send mem ch msg).1 = true ↔
      msg.length = ch.egress.sz_message ∧
        msg.data = ch.egress.data + (ch.egress.cw &&& ch.egress.mask)) ∧
    ((xchg_channel_send mem ch msg).1 = true →
      (xchg_channel_send mem ch msg).2.2.egress =
        { ch.egress with cw := wrap (ch.egress.cw + ch.egress.sz_message) } ∧
      (xchg_channel_send mem ch msg).2.2.ingress = ch.ingress ∧
      (xchg_channel_send mem ch msg).2.2.error = none ∧
      load64 (xchg_channel_send mem ch msg).2.1 ch.egress.w =
        wrap (load64 mem ch.egress.w + ch.egress.sz_message) ∧
      load64 (xchg_channel_send mem ch msg).2.1 ch.egress.r = load64 mem ch.egress.r ∧
      (∀ a, a < ch.egress.w ∨ ch.egress.w + 8 ≤ a →
        (xchg_channel_send mem ch msg).2.1 a = mem a) ∧
      (∀ a, ch.egress.data ≤ a → (xchg_channel_send mem ch msg).2.1 a = mem a)) ∧
    ((xchg_channel_send mem ch msg).1 = false →
      xchg_channel_send mem ch msg = (false, mem, { ch with error := some ERR_INVALID_MSG })) := by
  by_cases hv : msg.length ≠ ch.egress.sz_message ∨
      ch.egress.data + (ch.egress.cw &&& ch.egress.mask) ≠ msg.data
  · have hs : xchg_channel_send mem ch msg =
        (false, mem, { ch with error := some ERR_INVALID_MSG }) := by
      simp only [xchg_channel_send, if_neg hdata, if_pos hv]
    rw [hs]
    refine ⟨?_, ?_, fun _ => rfl⟩
    · constructor
      · intro h; simp at h
      · rintro ⟨h1, h2⟩
        rcases hv with hv | hv
        · exact absurd h1 hv
        · exact absurd h2.symm hv
    · intro h; simp at h
  · have hs : xchg_channel_send mem ch msg =
        (true, store64 mem ch.egress.w (wrap (load64 mem ch.egress.w + ch.egress.sz_message)),
          { ch with
            egress := { ch.egress with cw := wrap (ch.egress.cw + ch.egress.sz_message) }
            error := none }) := by
      simp only [xchg_channel_send, if_neg hdata, if_neg hv]
    rw [hs]
    refine ⟨?_, ?_, fun h => by simp at h⟩
    · constructor
      · intro _
        constructor
        · by_contra h1; exact hv (Or.inl h1)
        · by_contra h2; exact hv (Or.inr (fun h => h2 h.symm))
      · intro _; rfl
    · intro _
      refine ⟨rfl, rfl, rfl, ?_, ?_, ?_, ?_⟩
      · simp only [load64_store64_same]
        exact wrap_of_lt (wrap_lt _)
      · exact load64_store64_other _ _ _ _ (by omega)
      · intro a ha
        exact store64_out _ _ _ _ ha
      · intro a ha
        exact store64_out _ _ _ _ (by omega)

/-- Claim C13, instantiated on the scenario of `tests/channel.cpp`: a zeroed
144-byte buffer at address 4096 (`M = 128`) with slot size 64. The first
`prepare`+`send` leaves `cw = 64`, published `w = 64` and published `r = 0`,
the second leaves `cw = 128` and published `w = 128`. -/
theorem C13_send_validates_and_commits_witness :
    ((xchg_channel_send zero_mem
        (xchg_channel_prepare zero_mem
          (xchg_channel_init zero_mem zero_channel 64 NULL 0 4096 144).2 unbound).2.1
        ⟨4112, 64, 0, none⟩).1 = true ↔
      (⟨4112, 64, 0, none⟩ : xchg_message).length = 64 ∧
        (⟨4112, 64, 0, none⟩ : xchg_message).data = 4112 + (0 &&& 127)) ∧
    (prepare_send zero_mem (xchg_channel_init zero_mem zero_channel 64 NULL 0 4096 144).2).1
      = true ∧
    (prepare_send zero_mem
      (xchg_channel_init zero_mem zero_channel 64 NULL 0 4096 144).2).2.2.egress.cw = 64 ∧
    load64 (prepare_send zero_mem
      (xchg_channel_init zero_mem zero_channel 64 NULL 0 4096 144).2).2.1 4104 = 64 ∧
    load64 (prepare_send zero_mem
      (xchg_channel_init zero_mem zero_channel 64 NULL 0 4096 144).2).2.1 4096 = 0 ∧
    (prepare_send_n 2 zero_mem
      (xchg_channel_init zero_mem zero_channel 64 NULL 0 4096 144).2).1 = true ∧
    (prepare_send_n 2 zero_mem
      (xchg_channel_init zero_mem zero_channel 64 NULL 0 4096 144).2).2.2.egress.cw = 128 ∧
    load64 (prepare_send_n 2 zero_mem
      (xchg_channel_init zero_mem zero_channel 64 NULL 0 4096 144).2).2.1 4104 = 128 :=
  ⟨(C13_send_validates_and_commits zero_mem
      (xchg_channel_prepare zero_mem
        (xchg_channel_init zero_mem zero_channel 64 NULL 0 4096 144).2 unbound).2.1
      ⟨4112, 64, 0, none⟩ (by decide) (by decide) (by decide)).1,
    by decide, by decide, by decide, by decide, by decide, by decide, by decide⟩

/-- Claim C18 (return validates and commits). On a channel whose ingress is
configured (its `data` pointer is not null, and the index words and the data
area are laid out as `xchg_channel_init` lays them out: `w = r + 8`,
`data = r + 16`), `xchg_channel_return` succeeds exactly when the cursor has
`length = sz_message` and `data = ingress.data + (cr & mask)`. On success the
`cr` shadow and the published read index are each increased by `sz_message`
modulo `2^64`, the other fields of the ingress ring (the `cw` shadow among
them) and the egress ring are unchanged, the channel error is cleared, the
published write index is unchanged, and no byte outside the word of the read
index is written, in particular no slot byte. On failure the result is the
memory as it was and the channel with only its error set to "message is
invalid". -/
theorem C18_return_validates_and_commits (mem : Mem) (ch : xchg_channel) (msg : xchg_message)
    (hdata : ch.ingress.data ≠ NULL) (hw : ch.ingress.w = ch.ingress.r + 8)
    (hd : ch.ingress.data = ch.ingress.r + 16) :
    ((xchg_channel_return mem ch msg).1 = true ↔
      msg.length = ch.ingress.sz_message ∧
        msg.data = ch.ingress.data + (ch.ingress.cr &&& ch.ingress.mask)) ∧
    ((xchg_channel_return mem ch msg).1 = true →
      (xchg_channel_return mem ch msg).2.2.ingress =
        { ch.ingress with cr := wrap (ch.ingress.cr + ch.ingress.sz_message) } ∧
      (xchg_channel_return mem ch msg).2.2.egress = ch.egress ∧
      (xchg_channel_return mem ch msg).2.2.error = none ∧
      load64 (xchg_channel_return mem ch msg).2.1 ch.ingress.r =
        wrap (load64 mem ch.ingress.r + ch.ingress.sz_message) ∧
      load64 (xchg_channel_return mem ch msg).2.1 ch.ingress.w = load64 mem ch.ingress.w ∧
      (∀ a, a < ch.ingress.r ∨ ch.ingress.r + 8 ≤ a →
        (xchg_channel_return mem ch msg).2.1 a = mem a) ∧
      (∀ a, ch.ingress.data ≤ a → (xchg_channel_return mem ch msg).2.1 a = mem a)) ∧
    ((xchg_channel_return mem ch msg).1 = false →
      xchg_channel_return mem ch msg =
        (false, mem, { ch with error := some ERR_INVALID_MSG })) := by
  by_cases hv : msg.length ≠ ch.ingress.sz_message ∨
      ch.ingress.data + (ch.ingress.cr &&& ch.ingress.mask) ≠ msg.data
  · have hs : xchg_channel_return mem ch msg =
        (false, mem, { ch with error := some ERR_INVALID_MSG }) := by
      simp only [xchg_channel_return, if_neg hdata, if_pos hv]
    rw [hs]
    refine ⟨?_, ?_, fun _ => rfl⟩
    · constructor
      · intro h; simp at h
      · rintro ⟨h1, h2⟩
        rcases hv with hv | hv
        · exact absurd h1 hv
        · exact absurd h2.symm hv
    · intro h; simp at h
  · have hs : xchg_channel_return mem ch msg =
        (true, store64 mem ch.ingress.r (wrap (load64 mem ch.ingress.r + ch.ingress.sz_message)),
          { ch with
            ingress := { ch.ingress with cr := wrap (ch.ingress.cr + ch.ingress.sz_message) }
            error := none }) := by
      simp only [xchg_channel_return, if_neg hdata, if_neg hv]
    rw [hs]
    refine ⟨?_, ?_, fun h => by simp at h⟩
    · constructor
      · intro _
        constructor
        · by_contra h1; exact hv (Or.inl h1)
        · by_contra h2; exact hv (Or.inr (fun h => h2 h.symm))
      · intro _; rfl
    · intro _
      refine ⟨rfl, rfl, rfl, ?_, ?_, ?_, ?_⟩
      · simp only [load64_store64_same]
        exact wrap_of_lt (wrap_lt _)
      · exact load64_store64_other _ _ _ _ (by omega)
      · intro a ha
        exact store64_out _ _ _ _ ha
      · intro a ha
        exact store64_out _ _ _ _ (by omega)

/-- Claim C18, instantiated: the consumer over a 144-byte buffer at address 4096
(`M = 128`, slot size 64) into which the producer has sent one message. After
`receive` and `return` of the cursor, `cr = 64`, published `r = 64`, and the
published `w` is still 64. -/
theorem C18_return_validates_and_commits_witness :
    ((xchg_channel_return
        (prepare_send zero_mem (xchg_channel_init zero_mem zero_channel 64 NULL 0 4096 144).2).2.1
        (xchg_channel_receive
          (prepare_send zero_mem
            (xchg_channel_init zero_mem zero_channel 64 NULL 0 4096 144).2).2.1
          (xchg_channel_init zero_mem zero_channel 64 4096 144 NULL 0).2 unbound).2.1
        ⟨4112, 64, 0, none⟩).1 = true ↔
      (⟨4112, 64, 0, none⟩ : xchg_message).length = 64 ∧
        (⟨4112, 64, 0, none⟩ : xchg_message).data = 4112 + (0 &&& 127)) ∧
    (receive_return
      (prepare_send zero_mem (xchg_channel_init zero_mem zero_channel 64 NULL 0 4096 144).2).2.1
      (xchg_channel_init zero_mem zero_channel 64 4096 144 NULL 0).2).1 = true ∧
    (receive_return
      (prepare_send zero_mem (xchg_channel_init zero_mem zero_channel 64 NULL 0 4096 144).2).2.1
      (xchg_channel_init zero_mem zero_channel 64 4096 144 NULL 0).2).2.2.ingress.cr = 64 ∧
    load64 (receive_return
      (prepare_send zero_mem (xchg_channel_init zero_mem zero_channel 64 NULL 0 4096 144).2).2.1
      (xchg_channel_init zero_mem zero_channel 64 4096 144 NULL 0).2).2.1 4096 = 64 ∧
    load64 (receive_return
      (prepare_send zero_mem (xchg_channel_init zero_mem zero_channel 64 NULL 0 4096 144).2).2.1
      (xchg_channel_init zero_mem zero_channel 64 4096 144 NULL 0).2).2.1 4104 = 64 :=
  ⟨(C18_return_validates_and_commits
      (prepare_send zero_mem (xchg_channel_init zero_mem zero_channel 64 NULL 0 4096 144).2).2.1
      (xchg_channel_receive
        (prepare_send zero_mem
          (xchg_channel_init zero_mem zero_channel 64 NULL 0 4096 144).2).2.1
        (xchg_channel_init zero_mem zero_channel 64 4096 144 NULL 0).2 unbound).2.1
      ⟨4112, 64, 0, none⟩ (by decide) (by decide) (by decide)).1,
    by decide, by decide, by decide, by decide⟩

/-! ## What `prepare` and `receive` bind, and stale cursors -/

theorem prepare_binds (mem : Mem) (ch : xchg_channel) (msg0 : xchg_message)
    (hs : ch.egress.sz_message ≠ 0) (h : (xchg_channel_prepare mem ch msg0).1 = true) :
    ch.egress.data ≠ NULL ∧
    (xchg_channel_prepare mem ch msg0).2.2 =
      ⟨ch.egress.data + (ch.egress.cw &&& ch.egress.mask), ch.egress.sz_message, 0, none⟩ ∧
    (xchg_channel_prepare mem ch msg0).2.1.error = none ∧
    (xchg_channel_prepare mem ch msg0).2.1.ingress = ch.ingress ∧
    (xchg_channel_prepare mem ch msg0).2.1.egress =
      { ch.egress with cr := (xchg_channel_prepare mem ch msg0).2.1.egress.cr } := by
  by_cases hd : ch.egress.data = NULL
  · simp [xchg_channel_prepare, hd] at h
  · have hd0 : ch.egress.data ≠ 0 := hd
    refine ⟨hd, ?_⟩
    by_cases hf : wsub ch.egress.cr ch.egress.cw < ch.egress.sz_message
    · by_cases hf2 : wsub (wrap (load64 mem ch.egress.r + ch.egress.sz_data)) ch.egress.cw
          < ch.egress.sz_message
      · simp [xchg_channel_prepare, nr_free, hd, hf, hf2] at h
      · simp [xchg_channel_prepare, nr_free, xchg_message_init, hd, hd0, hf, hf2, hs, NULL]
    · simp [xchg_channel_prepare, nr_free, xchg_message_init, hd, hd0, hf, hs, NULL]

theorem receive_binds (mem : Mem) (ch : xchg_channel) (msg0 : xchg_message)
    (hs : ch.ingress.sz_message ≠ 0) (h : (xchg_channel_receive mem ch msg0).1 = true) :
    ch.ingress.data ≠ NULL ∧
    (xchg_channel_receive mem ch msg0).2.2 =
      ⟨ch.ingress.data + (ch.ingress.cr &&& ch.ingress.mask), ch.ingress.sz_message, 0, none⟩ ∧
    (xchg_channel_receive mem ch msg0).2.1.error = none ∧
    (xchg_channel_receive mem ch msg0).2.1.egress = ch.egress ∧
    (xchg_channel_receive mem ch msg0).2.1.ingress =
      { ch.ingress with cw := (xchg_channel_receive mem ch msg0).2.1.ingress.cw } := by
  by_cases hd : ch.ingress.data = NULL
  · simp [xchg_channel_receive, hd] at h
  · have hd0 : ch.ingress.data ≠ 0 := hd
    refine ⟨hd, ?_⟩
    by_cases hf : wsub ch.ingress.cw ch.ingress.cr < ch.ingress.sz_message
    · by_cases hf2 : wsub (load64 mem ch.ingress.w) ch.ingress.cr < ch.ingress.sz_message
      · simp [xchg_channel_receive, nr_used, hd, hf, hf2] at h
      · simp [xchg_channel_receive, nr_used, xchg_message_init, hd, hd0, hf, hf2, hs, NULL]
    · simp [xchg_channel_receive, nr_used, xchg_message_init, hd, hd0, hf, hs, NULL]

theorem send_commits (mem : Mem) (ch : xchg_channel) (msg : xchg_message)
    (h : (xchg_channel_send mem ch msg).1 = true) :
    (xchg_channel_send mem ch msg).2.2.egress =
      { ch.egress with cw := wrap (ch.egress.cw + ch.egress.sz_message) } := by
  simp only [xchg_channel_send] at h ⊢
  split_ifs at h ⊢
  simp_all

theorem return_commits (mem : Mem) (ch : xchg_channel) (msg : xchg_message)
    (h : (xchg_channel_return mem ch msg).1 = true) :
    (xchg_channel_return mem ch msg).2.2.ingress =
      { ch.ingress with cr := wrap (ch.ingress.cr + ch.ingress.sz_message) } := by
  simp only [xchg_channel_return] at h ⊢
  split_ifs at h ⊢
  simp_all

theorem and_mask {s M : Nat} (G : Geometry s M) (i : Nat) : i &&& (M - 1) = i % M := by
  obtain ⟨b, rfl⟩ := G.hpow
  exact Nat.and_pow_two_sub_one_eq_mod i b

theorem next_slot_differs {s M : Nat} (G : Geometry s M) (hlt : s < M) (c : Nat) :
    (wrap (c + s) &&& (M - 1)) ≠ (c &&& (M - 1)) := by
  rw [off_eq G, and_mask G]
  intro h
  have h1 : c + s ≡ c + 0 [MOD M] := h
  have h2 : s ≡ 0 [MOD M] := Nat.ModEq.add_left_cancel' c h1
  have h3 : s % M = 0 := h2
  rw [Nat.mod_eq_of_lt hlt] at h3
  have := G.hs
  omega

theorem attach_moved (mem0 : Mem) (B M s cr cw : Nat) :
    ({ ring_attach mem0 B M s with cr := cr, cw := cw } : xchg_ring) =
      ⟨B, cr, B + 8, cw, B + 16, M, s, wsub M 1⟩ := rfl

theorem stale_send_rejected {s M B : Nat} (G : Geometry s M) (hlt : s < M) (mem0 : Mem)
    (ch : xchg_channel) (cr cw : Nat)
    (hch : ch.egress = { ring_attach mem0 B M s with cr := cr, cw := cw })
    (mem memA memB mem2 : Mem) (msg0 msg : xchg_message) (ch1 ch2 : xchg_channel)
    (hprep : xchg_channel_prepare mem ch msg0 = (true, ch1, msg))
    (hsend : xchg_channel_send memA ch1 msg = (true, mem2, ch2)) :
    xchg_channel_send memB ch2 msg =
      (false, memB, { ch2 with error := some ERR_INVALID_MSG }) := by
  rw [attach_moved] at hch
  have hs := G.hs
  have hp := prepare_binds mem ch msg0 (by rw [hch]; simp only; omega) (by rw [hprep])
  rw [hprep, hch] at hp
  obtain ⟨-, hmsg, -, -, he1⟩ := hp
  simp only at hmsg he1
  have hc := send_commits memA ch1 msg (by rw [hsend])
  rw [hsend, he1] at hc
  simp only at hc
  have hne := next_slot_differs G hlt cw
  rw [← mask_eq G] at hne
  have hd : ¬ (ch2.egress.data = NULL) := by rw [hc]; simp [NULL]
  have hv : msg.length ≠ ch2.egress.sz_message ∨
      ch2.egress.data + (ch2.egress.cw &&& ch2.egress.mask) ≠ msg.data := by
    right
    rw [hc, hmsg]
    simp only
    omega
  simp only [xchg_channel_send, if_neg hd, if_pos hv]

theorem stale_return_rejected {s M B : Nat} (G : Geometry s M) (hlt : s < M) (mem0 : Mem)
    (ch : xchg_channel) (cr cw : Nat)
    (hch : ch.ingress = { ring_attach mem0 B M s with cr := cr, cw := cw })
    (mem memA memB mem2 : Mem) (msg0 msg : xchg_message) (ch1 ch2 : xchg_channel)
    (hrecv : xchg_channel_receive mem ch msg0 = (true, ch1, msg))
    (hret : xchg_channel_return memA ch1 msg = (true, mem2, ch2)) :
    xchg_channel_return memB ch2 msg =
      (false, memB, { ch2 with error := some ERR_INVALID_MSG }) := by
  rw [attach_moved] at hch
  have hs := G.hs
  have hp := receive_binds mem ch msg0 (by rw [hch]; simp only; omega) (by rw [hrecv])
  rw [hrecv, hch] at hp
  obtain ⟨-, hmsg, -, -, he1⟩ := hp
  simp only at hmsg he1
  have hc := return_commits memA ch1 msg (by rw [hret])
  rw [hret, he1] at hc
  simp only at hc
  have hne := next_slot_differs G hlt cr
  rw [← mask_eq G] at hne
  have hd : ¬ (ch2.ingress.data = NULL) := by rw [hc]; simp [NULL]
  have hv : msg.length ≠ ch2.ingress.sz_message ∨
      ch2.ingress.data + (ch2.ingress.cr &&& ch2.ingress.mask) ≠ msg.data := by
    right
    rw [hc, hmsg]
    simp only
    omega
  simp only [xchg_channel_return, if_neg hd, if_pos hv]

/-- Claim C14 (a stale cursor cannot be published), for rings of at least two
slots. Let `xchg_channel_init` have succeeded with slot size `s`. If the egress
buffer is present and its data area `M` is larger than `s`, then in every
state of the egress ring (any values of the two shadows), after a successful
`prepare` followed by a successful `send` of the cursor it bound, `send` with
that same cursor fails with "message is invalid", whatever the shared memory
holds by then, and leaves the memory and every ring field, `cw` among them,
as they were. Symmetrically for an ingress ring with `M > s`: after a
successful `receive` and a successful `return` of the cursor it bound, a
second `return` of that cursor fails in the same way. -/
theorem C14_stale_cursor_rejected_with_two_slots (mem0 : Mem) (ch0 A : xchg_channel)
    (s I LI E LE : Nat) (hA : xchg_channel_init mem0 ch0 s I LI E LE = (true, A)) :
    (E ≠ NULL → s < wsub (wsub LE 8) 8 →
      ∀ (ch : xchg_channel) (cr cw : Nat), ch.egress = { A.egress with cr := cr, cw := cw } →
      ∀ (mem memA memB mem2 : Mem) (msg0 msg : xchg_message) (ch1 ch2 : xchg_channel),
        xchg_channel_prepare mem ch msg0 = (true, ch1, msg) →
        xchg_channel_send memA ch1 msg = (true, mem2, ch2) →
        xchg_channel_send memB ch2 msg =
          (false, memB, { ch2 with error := some ERR_INVALID_MSG })) ∧
    (I ≠ NULL → s < wsub (wsub LI 8) 8 →
      ∀ (ch : xchg_channel) (cr cw : Nat), ch.ingress = { A.ingress with cr := cr, cw := cw } →
      ∀ (mem memA memB mem2 : Mem) (msg0 msg : xchg_message) (ch1 ch2 : xchg_channel),
        xchg_channel_receive mem ch msg0 = (true, ch1, msg) →
        xchg_channel_return memA ch1 msg = (true, mem2, ch2) →
        xchg_channel_return memB ch2 msg =
          (false, memB, { ch2 with error := some ERR_INVALID_MSG })) := by
  constructor
  · intro hE hlt ch cr cw hch mem memA memB mem2 msg0 msg ch1 ch2 hprep hsend
    obtain ⟨G, hAe⟩ := init_egress hE hA
    rw [hAe] at hch
    exact stale_send_rejected G hlt mem0 ch cr cw hch mem memA memB mem2 msg0 msg ch1 ch2
      hprep hsend
  · intro hI hlt ch cr cw hch mem memA memB mem2 msg0 msg ch1 ch2 hrecv hret
    obtain ⟨G, hAi⟩ := init_ingress hI hA
    rw [hAi] at hch
    exact stale_return_rejected G hlt mem0 ch cr cw hch mem memA memB mem2 msg0 msg ch1 ch2
      hrecv hret

/-- Claim C14, instantiated on a zeroed 144-byte buffer at address 4096
(`M = 128`, slot size 64): the cursor bound by the first `prepare` is sent,
and sending it once more is refused. -/
theorem C14_stale_cursor_rejected_with_two_slots_witness :
    xchg_channel_init zero_mem zero_channel 64 NULL 0 4096 144 =
      (true, (xchg_channel_init zero_mem zero_channel 64 NULL 0 4096 144).2) ∧
    xchg_channel_prepare zero_mem (xchg_channel_init zero_mem zero_channel 64 NULL 0 4096 144).2
        unbound =
      (true, (xchg_channel_prepare zero_mem
        (xchg_channel_init zero_mem zero_channel 64 NULL 0 4096 144).2 unbound).2.1, slot0) ∧
    xchg_channel_send zero_mem
        (xchg_channel_prepare zero_mem
          (xchg_channel_init zero_mem zero_channel 64 NULL 0 4096 144).2 unbound).2.1 slot0 =
      (true, (prepare_send zero_mem
          (xchg_channel_init zero_mem zero_channel 64 NULL 0 4096 144).2).2.1,
        (prepare_send zero_mem
          (xchg_channel_init zero_mem zero_channel 64 NULL 0 4096 144).2).2.2) ∧
    xchg_channel_send
        (prepare_send zero_mem (xchg_channel_init zero_mem zero_channel 64 NULL 0 4096 144).2).2.1
        (prepare_send zero_mem (xchg_channel_init zero_mem zero_channel 64 NULL 0 4096 144).2).2.2
        slot0 =
      (false,
        (prepare_send zero_mem (xchg_channel_init zero_mem zero_channel 64 NULL 0 4096 144).2).2.1,
        { (prepare_send zero_mem
            (xchg_channel_init zero_mem zero_channel 64 NULL 0 4096 144).2).2.2 with
          error := some ERR_INVALID_MSG }) :=
  ⟨rfl, rfl, rfl,
    (C14_stale_cursor_rejected_with_two_slots zero_mem zero_channel
      (xchg_channel_init zero_mem zero_channel 64 NULL 0 4096 144).2 64 NULL 0 4096 144 rfl).1
      (by decide) (by decide)
      (xchg_channel_init zero_mem zero_channel 64 NULL 0 4096 144).2 0 0 rfl
      zero_mem zero_mem _ _ unbound slot0 _ _ rfl rfl⟩

/-- Claim C14 as stated, evaluated on a single-slot ring (`M = s = 64`, a zeroed
80-byte buffer at address 4096, which `xchg_channel_init` accepts). The
producer's `prepare` binds the slot at offset 0 and `send` publishes it
(`cw = 64`, published `w = 64`); `send` called again with the same cursor
succeeds and publishes a second slot (`cw = 128`, published `w = 128`,
published `r` still 0). Likewise the consumer's `receive` and `return`
succeed (`cr = 64`, published `r = 64`), and `return` called again with the
same cursor succeeds (`cr = 128`, published `r = 128`, published `w` still
64). With one slot, `cw & mask` is the same before and after the commit. -/
theorem C14_single_slot_ring_accepts_stale_cursor :
    xchg_channel_init zero_mem zero_channel 64 NULL 0 4096 80 = (true, single_slot_producer) ∧
    (xchg_channel_prepare zero_mem single_slot_producer unbound).1 = true ∧
    (xchg_channel_prepare zero_mem single_slot_producer unbound).2.2 = slot0 ∧
    (prepare_send zero_mem single_slot_producer).1 = true ∧
    (prepare_send zero_mem single_slot_producer).2.2.egress.cw = 64 ∧
    load64 (prepare_send zero_mem single_slot_producer).2.1 4104 = 64 ∧
    (xchg_channel_send (prepare_send zero_mem single_slot_producer).2.1
      (prepare_send zero_mem single_slot_producer).2.2 slot0).1 = true ∧
    (xchg_channel_send (prepare_send zero_mem single_slot_producer).2.1
      (prepare_send zero_mem single_slot_producer).2.2 slot0).2.2.egress.cw = 128 ∧
    load64 (xchg_channel_send (prepare_send zero_mem single_slot_producer).2.1
      (prepare_send zero_mem single_slot_producer).2.2 slot0).2.1 4104 = 128 ∧
    load64 (xchg_channel_send (prepare_send zero_mem single_slot_producer).2.1
      (prepare_send zero_mem single_slot_producer).2.2 slot0).2.1 4096 = 0 ∧
    xchg_channel_init zero_mem zero_channel 64 4096 80 NULL 0 = (true, single_slot_consumer) ∧
    (xchg_channel_receive (prepare_send zero_mem single_slot_producer).2.1
      single_slot_consumer unbound).1 = true ∧
    (xchg_channel_receive (prepare_send zero_mem single_slot_producer).2.1
      single_slot_consumer unbound).2.2 = slot0 ∧
    (receive_return (prepare_send zero_mem single_slot_producer).2.1
      single_slot_consumer).1 = true ∧
    (receive_return (prepare_send zero_mem single_slot_producer).2.1
      single_slot_consumer).2.2.ingress.cr = 64 ∧
    (xchg_channel_return
      (receive_return (prepare_send zero_mem single_slot_producer).2.1
        single_slot_consumer).2.1
      (receive_return (prepare_send zero_mem single_slot_producer).2.1
        single_slot_consumer).2.2 slot0).1 = true ∧
    (xchg_channel_return
      (receive_return (prepare_send zero_mem single_slot_producer).2.1
        single_slot_consumer).2.1
      (receive_return (prepare_send zero_mem single_slot_producer).2.1
        single_slot_consumer).2.2 slot0).2.2.ingress.cr = 128 ∧
    load64 (xchg_channel_return
      (receive_return (prepare_send zero_mem single_slot_producer).2.1
        single_slot_consumer).2.1
      (receive_return (prepare_send zero_mem single_slot_producer).2.1
        single_slot_consumer).2.2 slot0).2.1 4096 = 128 ∧
    load64 (xchg_channel_return
      (receive_return (prepare_send zero_mem single_slot_producer).2.1
        single_slot_consumer).2.1
      (receive_return (prepare_send zero_mem single_slot_producer).2.1
        single_slot_consumer).2.2 slot0).2.1 4104 = 64 := by
  refine ⟨rfl, ?_⟩
  decide

/-- Claim C15 (prepare binds the next egress slot). On a ring with a nonzero
slot size (every ring set up by `xchg_channel_init` has one, since only
powers of two from 2 on are accepted), whenever `xchg_channel_prepare`
succeeds the cursor it fills has `data = egress.data + (cw & mask)`,
`length = sz_message`, `position = 0` and no error, where `cw` is the write
shadow before and after the call; the channel error is cleared and the
ingress ring is untouched. The call takes the memory as an input only: as a
step of the producer it leaves every byte, the slot bytes among them, as it
was. -/
theorem C15_prepare_binds_next_slot (mem : Mem) (ch : xchg_channel) (msg0 : xchg_message)
    (hs : ch.egress.sz_message ≠ 0) (h : (xchg_channel_prepare mem ch msg0).1 = true) :
    (xchg_channel_prepare mem ch msg0).2.2 =
      ⟨ch.egress.data + (ch.egress.cw &&& ch.egress.mask), ch.egress.sz_message, 0, none⟩ ∧
    (xchg_channel_prepare mem ch msg0).2.1.error = none ∧
    (xchg_channel_prepare mem ch msg0).2.1.egress.cw = ch.egress.cw ∧
    (xchg_channel_prepare mem ch msg0).2.1.ingress = ch.ingress ∧
    (∀ S S1 : Endpoints, step S .prepare = some S1 → S1.mem = S.mem) := by
  obtain ⟨-, h1, h2, h3, h4⟩ := prepare_binds mem ch msg0 hs h
  refine ⟨h1, h2, ?_, h3, ?_⟩
  · rw [h4]
  · intro S S1 hstep
    simp only [step] at hstep
    split at hstep
    · simp at hstep
    · split at hstep <;>
      · simp only [Option.some.injEq] at hstep
        subst hstep
        rfl

/-- Claim C15, instantiated on the first `prepare` over a zeroed 144-byte buffer
at address 4096 with slot size 64. -/
theorem C15_prepare_binds_next_slot_witness :
    (xchg_channel_prepare zero_mem
      (xchg_channel_init zero_mem zero_channel 64 NULL 0 4096 144).2 unbound).1 = true ∧
    (xchg_channel_prepare zero_mem
      (xchg_channel_init zero_mem zero_channel 64 NULL 0 4096 144).2 unbound).2.2 =
      ⟨4112 + (0 &&& 127), 64, 0, none⟩ :=
  ⟨by decide,
    (C15_prepare_binds_next_slot zero_mem
      (xchg_channel_init zero_mem zero_channel 64 NULL 0 4096 144).2 unbound
      (by decide) (by decide)).1⟩

/-- Claim C17 (receive reports empty and binds the next ingress slot). Take a
channel whose ingress is configured (`data` not null, nonzero slot size) and
whose `cw` shadow does not run ahead of the published write index, as is the
case right after `xchg_channel_init` and after every call of the protocol.
Then `xchg_channel_receive` fails exactly when `*w - cr < sz_message`. When
it fails, the error is "channel is empty", the cursor is left as it was, and
of the ring fields only the `cw` shadow may have changed (it holds the
published write index); `cr` is unchanged. When it succeeds, the cursor has
`data = ingress.data + (cr & mask)`, `length = sz_message`, `position = 0` and
no error, the channel error is cleared and `cr` is unchanged. The egress ring
is untouched in both cases. The call takes the memory as an input only: as a
step of the consumer it leaves every byte, both published indices among
them, as it was. -/
theorem C17_receive_reports_empty_and_binds (mem : Mem) (ch : xchg_channel)
    (msg0 : xchg_message) (hd : ch.ingress.data ≠ NULL) (hs : ch.ingress.sz_message ≠ 0)
    (hshadow : wsub ch.ingress.cw ch.ingress.cr ≤ wsub (load64 mem ch.ingress.w) ch.ingress.cr) :
    ((xchg_channel_receive mem ch msg0).1 = false ↔
      wsub (load64 mem ch.ingress.w) ch.ingress.cr < ch.ingress.sz_message) ∧
    ((xchg_channel_receive mem ch msg0).1 = false →
      xchg_channel_receive mem ch msg0 =
        (false, { ch with
          ingress := { ch.ingress with cw := load64 mem ch.ingress.w }
          error := some ERR_EMPTY }, msg0)) ∧
    ((xchg_channel_receive mem ch msg0).1 = true →
      (xchg_channel_receive mem ch msg0).2.2 =
        ⟨ch.ingress.data + (ch.ingress.cr &&& ch.ingress.mask), ch.ingress.sz_message, 0, none⟩ ∧
      (xchg_channel_receive mem ch msg0).2.1.error = none ∧
      (xchg_channel_receive mem ch msg0).2.1.ingress.cr = ch.ingress.cr ∧
      (xchg_channel_receive mem ch msg0).2.1.egress = ch.egress) ∧
    (∀ S S1 : Endpoints, step S .receive = some S1 → S1.mem = S.mem) := by
  have hd0 : ch.ingress.data ≠ 0 := hd
  refine ⟨?_, ?_, ?_, ?_⟩
  · by_cases hf : wsub ch.ingress.cw ch.ingress.cr < ch.ingress.sz_message
    · by_cases hf2 : wsub (load64 mem ch.ingress.w) ch.ingress.cr < ch.ingress.sz_message
      · simp [xchg_channel_receive, nr_used, hd, hf, hf2]
      · simp [xchg_channel_receive, nr_used, hd, hf, hf2]
    · have hf2 : ¬ (wsub (load64 mem ch.ingress.w) ch.ingress.cr < ch.ingress.sz_message) := by
        omega
      simp [xchg_channel_receive, nr_used, hd, hf, hf2]
  · intro h
    by_cases hf : wsub ch.ingress.cw ch.ingress.cr < ch.ingress.sz_message
    · by_cases hf2 : wsub (load64 mem ch.ingress.w) ch.ingress.cr < ch.ingress.sz_message
      · simp [xchg_channel_receive, nr_used, hd, hf, hf2]
      · simp [xchg_channel_receive, nr_used, hd, hf, hf2] at h
    · simp [xchg_channel_receive, nr_used, hd, hf] at h
  · intro h
    obtain ⟨-, h1, h2, h3, h4⟩ := receive_binds mem ch msg0 hs h
    refine ⟨h1, h2, ?_, h3⟩
    rw [h4]
  · intro S S1 hstep
    simp only [step] at hstep
    split at hstep
    · simp at hstep
    · split at hstep <;>
      · simp only [Option.some.injEq] at hstep
        subst hstep
        rfl

/-- Claim C17, instantiated on the scenario of `tests/channel.cpp`: `receive` on
a fresh consumer over a zeroed 4112-byte buffer fails with "channel is empty"
and `cr` and `cw` stay 0. -/
theorem C17_receive_reports_empty_and_binds_witness :
    ((xchg_channel_receive zero_mem
        (xchg_channel_init zero_mem zero_channel 64 4096 4112 NULL 0).2 unbound).1 = false ↔
      wsub (load64 zero_mem 4104) 0 < 64) ∧
    xchg_channel_receive zero_mem
        (xchg_channel_init zero_mem zero_channel 64 4096 4112 NULL 0).2 unbound =
      (false, ⟨⟨4096, 0, 4104, 0, 4112, 4096, 64, 4095⟩, zero_channel.egress, some ERR_EMPTY⟩,
        unbound) ∧
    load64 zero_mem 4096 = 0 ∧ load64 zero_mem 4104 = 0 :=
  ⟨(C17_receive_reports_empty_and_binds zero_mem
      (xchg_channel_init zero_mem zero_channel 64 4096 4112 NULL 0).2 unbound
      (by decide) (by decide) (by decide)).1,
    by decide, by decide, by decide⟩

/-! ## States reached by the protocol -/

theorem sysInv_reach {mem : Mem} {cha chb A C : xchg_channel} {s I LI E LE B L : Nat}
    (hB : B ≠ NULL)
    (hA : xchg_channel_init mem cha s I LI B L = (true, A))
    (hC : xchg_channel_init mem chb s B L E LE = (true, C))
    (hempty : load64 mem B = load64 mem (B + 8))
    {trace : List Action} {S : Endpoints} (hrun : run (fresh mem A C) trace = some S) :
    Geometry s (wsub (wsub L 8) 8) ∧
      ∃ ns nr log, SysInv B s (wsub (wsub L 8) 8) (load64 mem B) ns nr log S := by
  obtain ⟨G, hAe⟩ := init_egress hB hA
  obtain ⟨-, hCi⟩ := init_ingress hB hC
  have h0 : SysInv B s (wsub (wsub L 8) 8) (load64 mem B) 0 0 (fun _ => []) (fresh mem A C) := by
    refine ⟨sharedInv_init hempty, prodInv_init G A hAe hempty, consInv_init G C hCi hempty,
      fun msg hm => by simp [fresh] at hm, fun msg hm => by simp [fresh] at hm, ?_, ?_, ?_, ?_⟩
    · simp [fresh]
    · simp [fresh]
    · simp [fresh]
    · intro k _ hk; omega
  exact ⟨G, sysInv_run G trace _ S 0 0 _ h0 hrun⟩

theorem shared_used {B s M x ns nr : Nat} {mem : Mem} (G : Geometry s M)
    (h : SharedInv B s M x ns nr mem) :
    wsub (load64 mem (B + 8)) (load64 mem B) = ns * s - nr * s := by
  obtain ⟨h1, h2, h3, h4⟩ := h
  have := G.hM
  rw [h1, h2]
  unfold wsub wrap
  omega

/-- In every state reached by the protocol the consumer's `cw` shadow does not
run ahead of the published write index. -/
theorem shadow_conservative {mem : Mem} {cha chb A C : xchg_channel} {s I LI E LE B L : Nat}
    (hB : B ≠ NULL)
    (hA : xchg_channel_init mem cha s I LI B L = (true, A))
    (hC : xchg_channel_init mem chb s B L E LE = (true, C))
    (hempty : load64 mem B = load64 mem (B + 8))
    {trace : List Action} {S : Endpoints} (hrun : run (fresh mem A C) trace = some S) :
    wsub S.consumer.ingress.cw S.consumer.ingress.cr ≤
      wsub (load64 S.mem S.consumer.ingress.w) S.consumer.ingress.cr := by
  obtain ⟨G, ns, nr, log, hS⟩ := sysInv_reach hB hA hC hempty hrun
  obtain ⟨c1, c2, c3, c4, c5, c6, c7, c8⟩ := hS.cons
  obtain ⟨h1, h2, h3, h4⟩ := hS.shared
  have := G.hM
  rw [c2, h2, c7]
  have : wsub (wrap (load64 mem B + ns * s)) (wrap (load64 mem B + nr * s)) = ns * s - nr * s := by
    unfold wsub wrap; omega
  rw [this]
  rw [c7] at c8
  omega

/-- Claim C16 (prepare reports full exactly when the ring is full). Let a
producer endpoint `A` (egress) and a consumer endpoint `C` (ingress) be
initialised by `xchg_channel_init` over the same buffer holding an empty
ring, and let `S` be any state reached from there by calls of the producer
and the consumer that follow the protocol. Then `xchg_channel_prepare` on
the producer fails, and it does so with "channel is full", if and only if
`sz_data - (*w - *r) < sz_message` for the published indices `*w` and `*r` in
the memory of `S`; otherwise it succeeds. -/
theorem C16_prepare_full_iff_ring_full (mem : Mem) (cha chb A C : xchg_channel)
    (s I LI E LE B L : Nat) (hB : B ≠ NULL)
    (hA : xchg_channel_init mem cha s I LI B L = (true, A))
    (hC : xchg_channel_init mem chb s B L E LE = (true, C))
    (hempty : load64 mem B = load64 mem (B + 8))
    (trace : List Action) (S : Endpoints) (hrun : run (fresh mem A C) trace = some S)
    (msg : xchg_message) :
    (((xchg_channel_prepare S.mem S.producer msg).1 = false ∧
        (xchg_channel_prepare S.mem S.producer msg).2.1.error = some ERR_FULL) ↔
      S.producer.egress.sz_data -
          wsub (load64 S.mem S.producer.egress.w) (load64 S.mem S.producer.egress.r)
        < S.producer.egress.sz_message) ∧
    ((xchg_channel_prepare S.mem S.producer msg).1 = true ↔
      ¬ (S.producer.egress.sz_data -
          wsub (load64 S.mem S.producer.egress.w) (load64 S.mem S.producer.egress.r)
        < S.producer.egress.sz_message)) := by
  obtain ⟨G, ns, nr, log, hS⟩ := sysInv_reach hB hA hC hempty hrun
  have hused := shared_used G hS.shared
  obtain ⟨h1, h2, h3, h4⟩ := hS.shared
  obtain ⟨ch1, -, -, hcase⟩ := prepare_spec G hS.prod hS.shared msg
  obtain ⟨p1, p2, p3, p4, p5, p6, p7, p8⟩ := hS.prod
  rw [p1, p2, p4, p5, hused]
  rcases hcase with ⟨hroom, heq, -, -⟩ | ⟨hroom, heq, herr, -⟩
  · rw [heq]
    refine ⟨⟨fun h => by simp at h, fun h => by omega⟩, ⟨fun _ => by omega, fun _ => rfl⟩⟩
  · rw [heq]
    refine ⟨⟨fun _ => by omega, fun _ => ⟨rfl, herr⟩⟩, ⟨fun h => by simp at h, fun h => by omega⟩⟩

/-- Claim C16, instantiated on the state after one message has been written,
sent, received, read and returned over a zeroed 144-byte buffer with slot
size 64. -/
theorem C16_prepare_full_iff_ring_full_witness :
    run (fresh zero_mem (xchg_channel_init zero_mem zero_channel 64 NULL 0 4096 144).2
        (xchg_channel_init zero_mem zero_channel 64 4096 144 NULL 0).2) demo_trace
      = some demo_state ∧
    ((xchg_channel_prepare demo_state.mem demo_state.producer unbound).1 = true ↔
      ¬ (demo_state.producer.egress.sz_data -
          wsub (load64 demo_state.mem demo_state.producer.egress.w)
            (load64 demo_state.mem demo_state.producer.egress.r)
        < demo_state.producer.egress.sz_message)) :=
  ⟨rfl, (C16_prepare_full_iff_ring_full zero_mem zero_channel zero_channel
    (xchg_channel_init zero_mem zero_channel 64 NULL 0 4096 144).2
    (xchg_channel_init zero_mem zero_channel 64 4096 144 NULL 0).2
    64 NULL 0 NULL 0 4096 144
    (by decide) (by decide) (by decide) (by decide) demo_trace demo_state rfl unbound).2⟩

/-! ## Channel initialisation -/

theorem flp2_loop_reach (k : Nat) (hk : 1 ≤ k) : ∀ (fuel j : Nat), k ≤ j → j - k ≤ fuel →
    flp2_loop (2 ^ k) fuel (2 ^ j) = 2 ^ k := by
  intro fuel
  induction fuel with
  | zero =>
    intro j h1 h2
    have : j = k := by omega
    subst this
    rfl
  | succ n ih =>
    intro j h1 h2
    unfold flp2_loop
    by_cases hjk : j = k
    · subst hjk
      simp
    · have hlt : k < j := by omega
      have h3 : 2 ^ k < 2 ^ j := Nat.pow_lt_pow_right (by norm_num) hlt
      have h4 : 2 ^ 1 < 2 ^ j := Nat.pow_lt_pow_right (by norm_num) (by omega)
      have hdiv : 2 ^ j / 2 = 2 ^ (j - 1) := by
        obtain ⟨t, rfl⟩ : ∃ t, j = t + 1 := ⟨j - 1, by omega⟩
        rw [pow_succ]; simp
      have hc : 2 ^ j > 2 ^ k ∧ 2 ^ j > 2 := ⟨h3, by simpa using h4⟩
      rw [if_pos hc, hdiv]
      exact ih (j - 1) (by omega) (by omega)

theorem flp2_of_pow {k : Nat} (h1 : 1 ≤ k) (h2 : k ≤ 63) : flp2 (2 ^ k) = 2 ^ k :=
  flp2_loop_reach k h1 64 63 h2 (by omega)

theorem pow_lt_word {k : Nat} (h : 2 ^ k < 2 ^ 64) : k ≤ 63 := by
  by_contra hc
  have : 2 ^ 64 ≤ 2 ^ k := Nat.pow_le_pow_right (by norm_num) (by omega)
  omega

theorem flp2_fixed_iff (x : Nat) (hx : x < 2 ^ 64) : flp2 x = x ↔ (∃ k, x = 2 ^ k) ∧ 2 ≤ x := by
  constructor
  · intro h
    obtain ⟨j, j1, j2, rfl⟩ := flp2_fixed h
    exact ⟨⟨j, rfl⟩, (pow_bounds j1 j2).1⟩
  · rintro ⟨⟨k, rfl⟩, h2⟩
    have hk : 1 ≤ k := by
      by_contra hc
      have : k = 0 := by omega
      subst this
      simp at h2
    exact flp2_of_pow hk (pow_lt_word hx)

theorem data_area_iff (s L : Nat) (hs : 2 ≤ s) (hL : L < 2 ^ 64) :
    (flp2 (wsub (wsub L 8) 8) = wsub (wsub L 8) 8 ∧ wsub (wsub L 8) 8 % s = 0) ↔
      ∃ k, L = 2 ^ k + 16 ∧ 2 ^ k % s = 0 := by
  constructor
  · rintro ⟨h1, h2⟩
    obtain ⟨j, j1, j2, hj⟩ := flp2_fixed h1
    have hb := pow_bounds j1 j2
    refine ⟨j, ?_, by rw [← hj]; exact h2⟩
    unfold wsub at hj
    omega
  · rintro ⟨k, rfl, h2⟩
    have hk63 : k ≤ 63 := pow_lt_word (by omega)
    have hk : 1 ≤ k := by
      by_contra hc
      have : k = 0 := by omega
      subst this
      rw [pow_zero, Nat.mod_eq_of_lt (by omega)] at h2
      omega
    have hM : wsub (wsub (2 ^ k + 16) 8) 8 = 2 ^ k := by
      generalize 2 ^ k = p at hL
      unfold wsub; omega
    rw [hM]
    exact ⟨flp2_of_pow hk hk63, h2⟩

theorem init_success_iff (mem : Mem) (ch : xchg_channel) (s I LI E LE : Nat)
    (hsome : I ≠ NULL ∨ E ≠ NULL) :
    (xchg_channel_init mem ch s I LI E LE).1 = true ↔
      flp2 s = s ∧
      (I ≠ NULL → flp2 (wsub (wsub LI 8) 8) = wsub (wsub LI 8) 8 ∧ wsub (wsub LI 8) 8 % s = 0) ∧
      (E ≠ NULL → flp2 (wsub (wsub LE 8) 8) = wsub (wsub LE 8) 8 ∧ wsub (wsub LE 8) 8 % s = 0) := by
  have h0 : ¬ (I = NULL ∧ E = NULL) := by
    rintro ⟨h1, h2⟩
    rcases hsome with h | h
    · exact h h1
    · exact h h2
  simp only [xchg_channel_init, if_neg h0]
  by_cases c2 : flp2 s ≠ s
  · rw [if_pos c2]
    refine ⟨fun h => by simp at h, ?_⟩
    rintro ⟨h, -, -⟩
    exact absurd h c2
  · rw [if_neg c2]
    by_cases c3 : I ≠ NULL ∧ (flp2 (wsub (wsub LI 8) 8) ≠ wsub (wsub LI 8) 8
        ∨ wsub (wsub LI 8) 8 % s ≠ 0)
    · rw [if_pos c3]
      refine ⟨fun h => by simp at h, ?_⟩
      rintro ⟨-, h, -⟩
      obtain ⟨hI, hbad⟩ := c3
      obtain ⟨h1, h2⟩ := h hI
      rcases hbad with hb | hb
      · exact absurd h1 hb
      · exact absurd h2 hb
    · rw [if_neg c3]
      by_cases c4 : E ≠ NULL ∧ (flp2 (wsub (wsub LE 8) 8) ≠ wsub (wsub LE 8) 8
          ∨ wsub (wsub LE 8) 8 % s ≠ 0)
      · rw [if_pos c4]
        refine ⟨fun h => by simp at h, ?_⟩
        rintro ⟨-, -, h⟩
        obtain ⟨hE, hbad⟩ := c4
        obtain ⟨h1, h2⟩ := h hE
        rcases hbad with hb | hb
        · exact absurd h1 hb
        · exact absurd h2 hb
      · rw [if_neg c4]
        refine ⟨fun _ => ?_, fun _ => rfl⟩
        exact ⟨by simpa using c2, fun hI => init_sizes I hI c3, fun hE => init_sizes E hE c4⟩

/-- Claim C19 (channel init size validation), with the slot size bounded below.
The sizes are machine words. With at least one buffer provided,
`xchg_channel_init` succeeds if and only if the slot size `s` is a power of
two and at least 2 and, for each provided buffer of total length `L`, the
data area `M = L - 16` is a power of two with `M mod s = 0`. Nothing is
required of the length given for an absent buffer. -/
theorem C19_init_size_validation (mem : Mem) (ch : xchg_channel) (s I LI E LE : Nat)
    (hsome : I ≠ NULL ∨ E ≠ NULL) (hs : s < 2 ^ 64) (hLI : LI < 2 ^ 64) (hLE : LE < 2 ^ 64) :
    (xchg_channel_init mem ch s I LI E LE).1 = true ↔
      ((∃ k, s = 2 ^ k) ∧ 2 ≤ s) ∧
      (I ≠ NULL → ∃ k, LI = 2 ^ k + 16 ∧ 2 ^ k % s = 0) ∧
      (E ≠ NULL → ∃ k, LE = 2 ^ k + 16 ∧ 2 ^ k % s = 0) := by
  rw [init_success_iff mem ch s I LI E LE hsome, flp2_fixed_iff s hs]
  constructor
  · rintro ⟨h1, h2, h3⟩
    exact ⟨h1, fun hI => (data_area_iff s LI h1.2 hLI).mp (h2 hI),
      fun hE => (data_area_iff s LE h1.2 hLE).mp (h3 hE)⟩
  · rintro ⟨h1, h2, h3⟩
    exact ⟨h1, fun hI => (data_area_iff s LI h1.2 hLI).mpr (h2 hI),
      fun hE => (data_area_iff s LE h1.2 hLE).mpr (h3 hE)⟩

/-- Claim C19, instantiated on the calls of `tests/channel.cpp`: slot size 64 and
two buffers of 4112 bytes are accepted (`4112 = 2^12 + 16`), and with slot
size 64 every total length from 0 to 63 is rejected, for the ingress buffer
as for the egress buffer. -/
theorem C19_init_size_validation_witness :
    ((xchg_channel_init zero_mem zero_channel 64 4096 4112 8208 4112).1 = true ↔
      ((∃ k, 64 = 2 ^ k) ∧ 2 ≤ 64) ∧
      (4096 ≠ NULL → ∃ k, 4112 = 2 ^ k + 16 ∧ 2 ^ k % 64 = 0) ∧
      (8208 ≠ NULL → ∃ k, 4112 = 2 ^ k + 16 ∧ 2 ^ k % 64 = 0)) ∧
    (xchg_channel_init zero_mem zero_channel 64 4096 4112 8208 4112).1 = true ∧
    (∀ L, L < 64 → (xchg_channel_init zero_mem zero_channel 64 4096 L NULL 0).1 = false) ∧
    (∀ L, L < 64 → (xchg_channel_init zero_mem zero_channel 64 NULL 0 4096 L).1 = false) :=
  ⟨C19_init_size_validation zero_mem zero_channel 64 4096 4112 8208 4112
      (Or.inl (by decide)) (by decide) (by decide) (by decide),
    by decide, by decide, by decide⟩

/-- Claim C19 as stated, evaluated on slot size 1 and an egress buffer of 20
bytes at address 4096: `1 = 2^0` is a power of two, and the data area
`20 - 16 = 4 = 2^2` is a power of two with `4 mod 1 = 0`, but
`xchg_channel_init` fails with "message size is invalid". The loop of `flp2`
stops at 2, so `flp2(1) = 2`. -/
theorem C19_slot_size_one_is_rejected :
    (∃ k, 1 = 2 ^ k) ∧ (∃ k, 20 - 16 = 2 ^ k) ∧ (20 - 16) % 1 = 0 ∧
    flp2 1 = 2 ∧
    xchg_channel_init zero_mem zero_channel 1 NULL 0 4096 20 =
      (false, { zero_channel with error := some ERR_MSG_SIZE }) :=
  ⟨⟨0, rfl⟩, ⟨2, rfl⟩, rfl, by decide, by decide⟩

/-- Claim C20 (channel init is atomic on failure). For every channel state and
every combination of arguments, when `xchg_channel_init` returns failure the
channel it leaves differs from the one it was given at most in its error
field: every field of the ingress ring and of the egress ring is what it was
before the call. The function only reads the memory (the two index words of
each buffer, and only on success) and returns none, so no byte of either
buffer is written. -/
theorem C20_init_atomic_on_failure (mem : Mem) (ch : xchg_channel) (s I LI E LE : Nat)
    (h : (xchg_channel_init mem ch s I LI E LE).1 = false) :
    (∃ e, xchg_channel_init mem ch s I LI E LE = (false, { ch with error := e })) ∧
    (xchg_channel_init mem ch s I LI E LE).2.ingress = ch.ingress ∧
    (xchg_channel_init mem ch s I LI E LE).2.egress = ch.egress := by
  have key : ∃ e, xchg_channel_init mem ch s I LI E LE = (false, { ch with error := e }) := by
    simp only [xchg_channel_init] at h ⊢
    by_cases c1 : I = NULL ∧ E = NULL
    · rw [if_pos c1]; exact ⟨ch.error, rfl⟩
    · rw [if_neg c1] at h ⊢
      by_cases c2 : flp2 s ≠ s
      · rw [if_pos c2]; exact ⟨_, rfl⟩
      · rw [if_neg c2] at h ⊢
        by_cases c3 : I ≠ NULL ∧ (flp2 (wsub (wsub LI 8) 8) ≠ wsub (wsub LI 8) 8
            ∨ wsub (wsub LI 8) 8 % s ≠ 0)
        · rw [if_pos c3]; exact ⟨_, rfl⟩
        · rw [if_neg c3] at h ⊢
          by_cases c4 : E ≠ NULL ∧ (flp2 (wsub (wsub LE 8) 8) ≠ wsub (wsub LE 8) 8
              ∨ wsub (wsub LE 8) 8 % s ≠ 0)
          · rw [if_pos c4]; exact ⟨_, rfl⟩
          · rw [if_neg c4] at h
            simp at h
  obtain ⟨e, he⟩ := key
  exact ⟨⟨e, he⟩, by rw [he], by rw [he]⟩

/-- Claim C20, instantiated: a producer endpoint that has already sent one
message is given to `xchg_channel_init` again with a 63-byte egress buffer;
the call fails and both rings are as they were. -/
theorem C20_init_atomic_on_failure_witness :
    (xchg_channel_init zero_mem
      (prepare_send zero_mem (xchg_channel_init zero_mem zero_channel 64 NULL 0 4096 144).2).2.2
      64 NULL 0 4096 63).1 = false ∧
    (xchg_channel_init zero_mem
      (prepare_send zero_mem (xchg_channel_init zero_mem zero_channel 64 NULL 0 4096 144).2).2.2
      64 NULL 0 4096 63).2.egress = ⟨4096, 128, 4104, 64, 4112, 128, 64, 127⟩ :=
  ⟨by decide,
    (C20_init_atomic_on_failure zero_mem
      (prepare_send zero_mem (xchg_channel_init zero_mem zero_channel 64 NULL 0 4096 144).2).2.2
      64 NULL 0 4096 63 (by decide)).2.2⟩

/-! ## What `xchg_channel_init` leaves in the channel -/

theorem init_error_cleared {mem : Mem} {ch A : xchg_channel} {s I LI E LE : Nat}
    (h : xchg_channel_init mem ch s I LI E LE = (true, A)) : A.error = none := by
  simp only [xchg_channel_init] at h
  split_ifs at h
  all_goals simp only [Prod.mk.injEq, Bool.false_eq_true, false_and, true_and] at h
  all_goals subst h
  all_goals rfl

theorem init_absent_egress {mem : Mem} {ch A : xchg_channel} {s I LI LE : Nat}
    (h : xchg_channel_init mem ch s I LI NULL LE = (true, A)) : A.egress = ch.egress := by
  simp only [xchg_channel_init] at h
  split_ifs at h
  all_goals simp only [Prod.mk.injEq, Bool.false_eq_true, false_and, true_and] at h
  all_goals subst h
  all_goals first
    | rfl
    | (exfalso; simp_all)

theorem init_absent_ingress {mem : Mem} {ch A : xchg_channel} {s LI E LE : Nat}
    (h : xchg_channel_init mem ch s NULL LI E LE = (true, A)) : A.ingress = ch.ingress := by
  simp only [xchg_channel_init] at h
  split_ifs at h
  all_goals simp only [Prod.mk.injEq, Bool.false_eq_true, false_and, true_and] at h
  all_goals subst h
  all_goals first
    | rfl
    | (exfalso; simp_all)

theorem data_area_exact {s M L : Nat} (G : Geometry s M) (hM : M = wsub (wsub L 8) 8)
    (hL : L < 2 ^ 64) : 16 ≤ L ∧ M = L - 16 := by
  have h1 := G.hM
  have h2 := G.hs
  have h3 := G.hsM
  unfold wsub at hM
  omega

/-- Claim C21 (channel init attaches to the published state). The sizes are
machine words. After a successful `xchg_channel_init` the channel error is
none and, for each provided buffer at address `buf` of total length `L`, the
ring has `r = buf`, `w = buf + 8`, `cr` equal to the word found at `buf` (the
published read index), `cw` equal to the word found at `buf + 8` (the
published write index), `data = buf + 16`, `sz_data = L - 16`,
`sz_message = s` and `mask = L - 16 - 1`. -/
theorem C21_init_attaches_to_published_state (mem : Mem) (ch A : xchg_channel)
    (s I LI E LE : Nat) (hLI : LI < 2 ^ 64) (hLE : LE < 2 ^ 64)
    (h : xchg_channel_init mem ch s I LI E LE = (true, A)) :
    A.error = none ∧
    (I ≠ NULL → 16 ≤ LI ∧
      A.ingress = ⟨I, load64 mem I, I + 8, load64 mem (I + 8), I + 16, LI - 16, s, LI - 16 - 1⟩) ∧
    (E ≠ NULL → 16 ≤ LE ∧
      A.egress = ⟨E, load64 mem E, E + 8, load64 mem (E + 8), E + 16, LE - 16, s, LE - 16 - 1⟩) := by
  refine ⟨init_error_cleared h, ?_, ?_⟩
  · intro hI
    obtain ⟨G, hA⟩ := init_ingress hI h
    obtain ⟨h16, hM⟩ := data_area_exact G rfl hLI
    refine ⟨h16, ?_⟩
    rw [hA, ring_attach, mask_eq G, hM]
    rfl
  · intro hE
    obtain ⟨G, hA⟩ := init_egress hE h
    obtain ⟨h16, hM⟩ := data_area_exact G rfl hLE
    refine ⟨h16, ?_⟩
    rw [hA, ring_attach, mask_eq G, hM]
    rfl

/-- Claim C21, instantiated on the call of `tests/channel.cpp`: two zeroed
4112-byte buffers with slot size 64 give `sz_data = 4096` and
`cr = cw = *r = *w = 0` on both rings. A consumer attached to a 144-byte ring
into which one message has already been sent starts with `cw = 64`. -/
theorem C21_init_attaches_to_published_state_witness :
    (xchg_channel_init zero_mem zero_channel 64 4096 4112 8208 4112).2.error = none ∧
    (4096 ≠ NULL → 16 ≤ 4112 ∧
      (xchg_channel_init zero_mem zero_channel 64 4096 4112 8208 4112).2.ingress =
        ⟨4096, 0, 4104, 0, 4112, 4096, 64, 4095⟩) ∧
    (8208 ≠ NULL → 16 ≤ 4112 ∧
      (xchg_channel_init zero_mem zero_channel 64 4096 4112 8208 4112).2.egress =
        ⟨8208, 0, 8216, 0, 8224, 4096, 64, 4095⟩) ∧
    load64 zero_mem 4096 = 0 ∧ load64 zero_mem 4104 = 0 ∧
    load64 zero_mem 8208 = 0 ∧ load64 zero_mem 8216 = 0 ∧
    (xchg_channel_init
      (prepare_send zero_mem (xchg_channel_init zero_mem zero_channel 64 NULL 0 4096 144).2).2.1
      zero_channel 64 4096 144 NULL 0).2.ingress = ⟨4096, 0, 4104, 64, 4112, 128, 64, 127⟩ :=
  ⟨(C21_init_attaches_to_published_state zero_mem zero_channel
      (xchg_channel_init zero_mem zero_channel 64 4096 4112 8208 4112).2
      64 4096 4112 8208 4112 (by decide) (by decide) rfl).1,
    (C21_init_attaches_to_published_state zero_mem zero_channel
      (xchg_channel_init zero_mem zero_channel 64 4096 4112 8208 4112).2
      64 4096 4112 8208 4112 (by decide) (by decide) rfl).2.1,
    (C21_init_attaches_to_published_state zero_mem zero_channel
      (xchg_channel_init zero_mem zero_channel 64 4096 4112 8208 4112).2
      64 4096 4112 8208 4112 (by decide) (by decide) rfl).2.2,
    by decide, by decide, by decide, by decide, by decide⟩

/-- Claim C22 (an unconfigured direction is refused), for a channel structure
whose ring of the absent direction had a null `data` pointer before the call,
as a zero-initialised structure has. Let `xchg_channel_init` have succeeded.
If the egress buffer was absent and `egress.data` was null before the call,
then `xchg_channel_prepare` and `xchg_channel_send` fail with "channel has no
egress", whatever the memory and the cursor, and leave the memory, the cursor
and both rings as they were: only the channel error is set. Symmetrically, if
the ingress buffer was absent and `ingress.data` was null before the call,
`xchg_channel_receive` and `xchg_channel_return` fail with "channel has no
ingress". -/
theorem C22_unconfigured_direction_refused (mem : Mem) (ch A : xchg_channel)
    (s I LI E LE : Nat) (h : xchg_channel_init mem ch s I LI E LE = (true, A)) :
    (E = NULL → ch.egress.data = NULL → ∀ (mem1 : Mem) (msg : xchg_message),
      xchg_channel_prepare mem1 A msg = (false, { A with error := some ERR_NO_EGRESS }, msg) ∧
      xchg_channel_send mem1 A msg = (false, mem1, { A with error := some ERR_NO_EGRESS })) ∧
    (I = NULL → ch.ingress.data = NULL → ∀ (mem1 : Mem) (msg : xchg_message),
      xchg_channel_receive mem1 A msg = (false, { A with error := some ERR_NO_INGRESS }, msg) ∧
      xchg_channel_return mem1 A msg = (false, mem1, { A with error := some ERR_NO_INGRESS })) := by
  constructor
  · intro hE hpre mem1 msg
    subst hE
    have hd : A.egress.data = NULL := by rw [init_absent_egress h]; exact hpre
    exact ⟨by simp only [xchg_channel_prepare, if_pos hd],
      by simp only [xchg_channel_send, if_pos hd]⟩
  · intro hI hpre mem1 msg
    subst hI
    have hd : A.ingress.data = NULL := by rw [init_absent_ingress h]; exact hpre
    exact ⟨by simp only [xchg_channel_receive, if_pos hd],
      by simp only [xchg_channel_return, if_pos hd]⟩

/-- Claim C22, instantiated: a zero-initialised channel structure configured
with an ingress buffer only (144 bytes at address 4096, slot size 64). -/
theorem C22_unconfigured_direction_refused_witness :
    xchg_channel_init zero_mem zero_channel 64 4096 144 NULL 0 =
      (true, (xchg_channel_init zero_mem zero_channel 64 4096 144 NULL 0).2) ∧
    xchg_channel_prepare zero_mem (xchg_channel_init zero_mem zero_channel 64 4096 144 NULL 0).2
        unbound =
      (false, { (xchg_channel_init zero_mem zero_channel 64 4096 144 NULL 0).2 with
        error := some ERR_NO_EGRESS }, unbound) ∧
    xchg_channel_send zero_mem (xchg_channel_init zero_mem zero_channel 64 4096 144 NULL 0).2
        unbound =
      (false, zero_mem, { (xchg_channel_init zero_mem zero_channel 64 4096 144 NULL 0).2 with
        error := some ERR_NO_EGRESS }) :=
  ⟨rfl,
    (C22_unconfigured_direction_refused zero_mem zero_channel
      (xchg_channel_init zero_mem zero_channel 64 4096 144 NULL 0).2 64 4096 144 NULL 0 rfl).1
      rfl rfl zero_mem unbound⟩

/-- Claim C22 as stated, evaluated on a channel structure that held a configured
egress before the call. The structure is first configured as a producer over
a zeroed 144-byte buffer at address 4096, then `xchg_channel_init` is called
on it again with an ingress buffer only (144 bytes at address 8192): the call
succeeds and leaves the egress ring as it was, so `xchg_channel_prepare`
succeeds and binds the slot at offset 0, and `xchg_channel_send` publishes it
(`*w = 64`). Likewise a structure that was a consumer over the buffer and is
configured again with an egress buffer only keeps its ingress ring:
`xchg_channel_receive` answers "channel is empty", not "channel has no
ingress". -/
theorem C22_init_keeps_the_ring_of_an_absent_direction :
    (xchg_channel_init zero_mem
      (xchg_channel_init zero_mem zero_channel 64 NULL 0 4096 144).2 64 8192 144 NULL 0).1
      = true ∧
    (xchg_channel_init zero_mem
      (xchg_channel_init zero_mem zero_channel 64 NULL 0 4096 144).2 64 8192 144 NULL 0).2.egress
      = ⟨4096, 0, 4104, 0, 4112, 128, 64, 127⟩ ∧
    (xchg_channel_prepare zero_mem
      (xchg_channel_init zero_mem
        (xchg_channel_init zero_mem zero_channel 64 NULL 0 4096 144).2 64 8192 144 NULL 0).2
      unbound).1 = true ∧
    (xchg_channel_prepare zero_mem
      (xchg_channel_init zero_mem
        (xchg_channel_init zero_mem zero_channel 64 NULL 0 4096 144).2 64 8192 144 NULL 0).2
      unbound).2.2 = slot0 ∧
    (prepare_send zero_mem
      (xchg_channel_init zero_mem
        (xchg_channel_init zero_mem zero_channel 64 NULL 0 4096 144).2 64 8192 144 NULL 0).2).1
      = true ∧
    load64 (prepare_send zero_mem
      (xchg_channel_init zero_mem
        (xchg_channel_init zero_mem zero_channel 64 NULL 0 4096 144).2 64 8192 144 NULL 0).2).2.1
      4104 = 64 ∧
    (xchg_channel_init zero_mem
      (xchg_channel_init zero_mem zero_channel 64 4096 144 NULL 0).2 64 NULL 0 8192 144).1
      = true ∧
    (xchg_channel_receive zero_mem
      (xchg_channel_init zero_mem
        (xchg_channel_init zero_mem zero_channel 64 4096 144 NULL 0).2 64 NULL 0 8192 144).2
      unbound).2.1.error = some ERR_EMPTY := by
  decide

/-! ## Nulls and empty lists -/

theorem null_tag_byte (T : scalar) (list : Bool) :
    tag_to_byte ⟨T.type, 0, list, true⟩ = byte ((if list then 0xC0 else 0x80) ||| T.type) ∧
    tag_of_byte (tag_to_byte ⟨T.type, 0, list, true⟩) = ⟨T.type, 0, list, true⟩ := by
  cases T <;> cases list <;> decide

theorem write_null_ok (T : scalar) (list : Bool) (mem : Mem) (m : xchg_message)
    (hpos : m.position < m.length) (hlen : m.length < 2 ^ 64) :
    ∃ mem1,
      xchg_message_write mem m
          { type := T.type, null := true, list := list, sz_list := 0, data := none, sz_data := 0 } =
        (true, mem1, { m with position := m.position + 1, error := none }) ∧
      mem1 (m.data + m.position) = tag_to_byte ⟨T.type, 0, list, true⟩ ∧
      ∀ a, a ≠ m.data + m.position → mem1 a = mem a := by
  have w1 : wrap (m.position + 1) = m.position + 1 := wrap_of_lt (by omega)
  have hn : ¬ (m.position + 1 > m.length) := by omega
  refine ⟨memcpy (memcpy mem (m.data + m.position) [tag_to_byte ⟨T.type, 0, list, true⟩] 1)
    (m.data + (m.position + 1)) [] 0, ?_, ?_, ?_⟩
  · rw [write_null_eq, w1, if_neg hn, Nat.add_zero, w1]
  · rw [memcpy_out _ _ _ _ _ (by omega), memcpy_in _ _ _ _ _ (by omega) (by omega)]
    simp
  · intro a ha
    rw [memcpy_out _ _ _ _ _ (by omega), memcpy_out _ _ _ _ _ (by omega)]

theorem read_null_tag (T : scalar) (list : Bool) (mem : Mem) (m : xchg_message)
    (htag : tag_of_byte (mem (m.data + m.position)) = ⟨T.type, 0, list, true⟩)
    (hpos : m.position < m.length) (hlen : m.length < 2 ^ 64) :
    xchg_message_read mem m =
      (true, { m with position := m.position + 1, error := none },
        some { type := T.type, null := true, list := list, sz_list := 0, data := none,
               sz_data := 0 }) := by
  have w1 : wrap (m.position + 1) = m.position + 1 := wrap_of_lt (by omega)
  have hn : ¬ (m.length < m.position + 1) := by omega
  cases list
  · simp [xchg_message_read, htag, w1, hn, switch_scalar]
  · simp [xchg_message_read, htag, w1, hn, switch_list]

/-- Claim C23 (null values on the wire). For each of the eleven types `T` and
every cursor with at least one byte remaining (lengths are machine words),
`xchg_message_write_null(T)` succeeds, stores the single byte `0x80 | code(T)`
at the cursor's position, changes no other byte and advances the position by
1; `xchg_message_read_null` on the cursor as it was before the write then
succeeds, returns `T` and advances the position by 1. The same holds for
`xchg_message_write_null_list(T)` and `xchg_message_read_null_list` with the
byte `0xC0 | code(T)`. -/
theorem C23_null_values_on_the_wire (T : scalar) (mem : Mem) (m : xchg_message)
    (hpos : m.position < m.length) (hlen : m.length < 2 ^ 64) (t0 : Nat) :
    (∃ mem1,
      xchg_message_write_null mem m T.type =
        (true, mem1, { m with position := m.position + 1, error := none }) ∧
      mem1 (m.data + m.position) = byte (0x80 ||| T.type) ∧
      (∀ a, a ≠ m.data + m.position → mem1 a = mem a) ∧
      xchg_message_read_null mem1 m (some t0) =
        (true, { m with position := m.position + 1, error := none }, some T.type)) ∧
    (∃ mem1,
      xchg_message_write_null_list mem m T.type =
        (true, mem1, { m with position := m.position + 1, error := none }) ∧
      mem1 (m.data + m.position) = byte (0xC0 ||| T.type) ∧
      (∀ a, a ≠ m.data + m.position → mem1 a = mem a) ∧
      xchg_message_read_null_list mem1 m (some t0) =
        (true, { m with position := m.position + 1, error := none }, some T.type)) := by
  have w1 : wrap (m.position + 1) = m.position + 1 := wrap_of_lt (by omega)
  have hn : ¬ (m.position + 1 > m.length) := by omega
  constructor
  · obtain ⟨mem1, h1, h2, h3⟩ := write_null_ok T false mem m hpos hlen
    have htag : tag_of_byte (mem1 (m.data + m.position)) = ⟨T.type, 0, false, true⟩ := by
      rw [h2]; exact (null_tag_byte T false).2
    refine ⟨mem1, h1, ?_, h3, ?_⟩
    · rw [h2]; exact (null_tag_byte T false).1
    · simp only [xchg_message_read_null, w1, if_neg hn, htag,
        read_null_tag T false mem1 m htag hpos hlen]
      simp
  · obtain ⟨mem1, h1, h2, h3⟩ := write_null_ok T true mem m hpos hlen
    have htag : tag_of_byte (mem1 (m.data + m.position)) = ⟨T.type, 0, true, true⟩ := by
      rw [h2]; exact (null_tag_byte T true).2
    refine ⟨mem1, h1, ?_, h3, ?_⟩
    · rw [h2]; exact (null_tag_byte T true).1
    · simp only [xchg_message_read_null_list, w1, if_neg hn, htag,
        read_null_tag T true mem1 m htag hpos hlen]
      simp

/-- Claim C23, instantiated on the scenario of `tests/message.cpp`: nulls of
`int8`, `int16`, `int32` written into a zeroed 3-byte cursor give the bytes
`82 84 86` (null lists: `C2 C4 C6`); a fourth write fails with the position
still 3 and an error set; reading the three bytes back gives `int8`, `int16`,
`int32` in order, and a fourth `read_null` fails with the position still 3. -/
theorem C23_null_values_on_the_wire_witness :
    (∃ mem1,
      xchg_message_write_null zero_mem ⟨4096, 3, 0, none⟩ scalar.int8.type =
        (true, mem1, ⟨4096, 3, 0 + 1, none⟩) ∧
      mem1 (4096 + 0) = byte (0x80 ||| scalar.int8.type) ∧
      (∀ a, a ≠ 4096 + 0 → mem1 a = zero_mem a) ∧
      xchg_message_read_null mem1 ⟨4096, 3, 0, none⟩ (some 0) =
        (true, ⟨4096, 3, 0 + 1, none⟩, some scalar.int8.type)) ∧
    (cursor_run [.write ⟨xchg_type_int8, true, false, 0, none, 0⟩,
        .write ⟨xchg_type_int16, true, false, 0, none, 0⟩,
        .write ⟨xchg_type_int32, true, false, 0, none, 0⟩] zero_mem ⟨4096, 3, 0, none⟩).2
      = ⟨4096, 3, 3, none⟩ ∧
    load_bytes (cursor_run [.write ⟨xchg_type_int8, true, false, 0, none, 0⟩,
        .write ⟨xchg_type_int16, true, false, 0, none, 0⟩,
        .write ⟨xchg_type_int32, true, false, 0, none, 0⟩] zero_mem ⟨4096, 3, 0, none⟩).1 4096 3
      = [0x82, 0x84, 0x86] ∧
    load_bytes (cursor_run [.write ⟨xchg_type_int8, true, true, 0, none, 0⟩,
        .write ⟨xchg_type_int16, true, true, 0, none, 0⟩,
        .write ⟨xchg_type_int32, true, true, 0, none, 0⟩] zero_mem ⟨4096, 3, 0, none⟩).1 4096 3
      = [0xC2, 0xC4, 0xC6] ∧
    (xchg_message_write_null zero_mem ⟨4096, 3, 3, none⟩ xchg_type_int64).1 = false ∧
    (xchg_message_write_null zero_mem ⟨4096, 3, 3, none⟩ xchg_type_int64).2.2 =
      ⟨4096, 3, 3, some ERR_NO_SPACE⟩ ∧
    xchg_message_read_null (nulls_buffer 4096) ⟨4096, 3, 0, none⟩ (some 0) =
      (true, ⟨4096, 3, 1, none⟩, some xchg_type_int8) ∧
    xchg_message_read_null (nulls_buffer 4096) ⟨4096, 3, 1, none⟩ (some 0) =
      (true, ⟨4096, 3, 2, none⟩, some xchg_type_int16) ∧
    xchg_message_read_null (nulls_buffer 4096) ⟨4096, 3, 2, none⟩ (some 0) =
      (true, ⟨4096, 3, 3, none⟩, some xchg_type_int32) ∧
    (xchg_message_read_null (nulls_buffer 4096) ⟨4096, 3, 3, none⟩ (some 0)).1 = false ∧
    (xchg_message_read_null (nulls_buffer 4096) ⟨4096, 3, 3, none⟩ (some 0)).2.1.position = 3 :=
  ⟨(C23_null_values_on_the_wire .int8 zero_mem ⟨4096, 3, 0, none⟩ (by decide) (by decide) 0).1,
    by decide, by decide, by decide, by decide, by decide, by decide, by decide, by decide,
    by decide, by decide⟩

/-- What the typed list readers return on success: the pointer is absent exactly
when the payload size `count * sizeof(T)`, computed modulo `2^64`, is 0; so an
absent pointer comes with every count 0, and a count 0 comes with an absent
pointer. -/
theorem read_list_pointer_absent_iff (T : scalar) (mem : Mem) (m m1 : xchg_message)
    (l0 p : Option Nat) (n0 n : Nat)
    (h : xchg_message_read_list T mem m (some l0) (some n0) = (true, m1, some p, some n)) :
    (p = none ↔ wrap (n * T.sizeof) = 0) ∧ (n = 0 → p = none) := by
  have key : p = none ↔ wrap (n * T.sizeof) = 0 := by
    simp only [xchg_message_read_list] at h
    split at h
    · simp at h
    · split at h
      · simp at h
      · rename_i hc
        simp only [Bool.or_eq_true, Bool.not_eq_true', bne_iff_ne, ne_eq, not_or,
          Bool.not_eq_false, Bool.not_eq_true, Decidable.not_not] at hc
        obtain ⟨⟨hlist, hnull⟩, htype⟩ := hc
        simp only [xchg_message_read, hlist, hnull, htype, switch_list] at h
        split_ifs at h
        all_goals simp at h
        all_goals obtain ⟨-, hp, hn⟩ := h
        all_goals subst hp hn
        all_goals (try simp_all)
        all_goals omega
  refine ⟨key, fun h0 => key.mpr ?_⟩
  subst h0
  simp [wrap]

/-- The empty-list encoding, the single tag byte `0x40 | code(T)`, reads as an
absent pointer and count 0, and the position advances by 1. -/
theorem read_empty_list (T : scalar) (mem : Mem) (m : xchg_message) (l0 : Option Nat) (n0 : Nat)
    (hbyte : mem (m.data + m.position) = byte (0x40 ||| T.type))
    (hpos : m.position < m.length) (hlen : m.length < 2 ^ 64) :
    xchg_message_read_list T mem m (some l0) (some n0) =
      (true, { m with position := m.position + 1, error := none }, some none, some 0) := by
  have htag : tag_of_byte (mem (m.data + m.position)) = ⟨T.type, 0, true, false⟩ := by
    rw [hbyte]; cases T <;> decide
  have h := read_list_ok T mem m l0 n0 0 0 htag rfl (by simp [lsz_to_nr_bytes]; omega) hlen
  simpa [lsz_to_nr_bytes] using h

/-- Claim C24 (empty list representation), evaluated on the 9-byte buffer
`75 00 00 00 00 00 00 00 80`, a `uint16` list whose length field holds `2^63`:
`xchg_message_read_uint16_list` succeeds and returns a null pointer together
with the count `2^63`, which is not 0. The payload size
`sz_list * sizeof(uint16_t)` wraps around to 0, so the kernel hands out no
pointer. -/
theorem C24_null_pointer_with_nonzero_count :
    xchg_message_read_list .uint16 (wrapping_uint16_list 4096) ⟨4096, 9, 0, none⟩
        (some (some 4096)) (some 0) =
      (true, ⟨4096, 9, 9, none⟩, some none, some (2 ^ 63)) ∧
    2 ^ 63 ≠ 0 ∧ wrap (2 ^ 63 * scalar.uint16.sizeof) = 0 := by
  decide

/-! ## Cursor navigation -/

/-- Claim C25 (peek does not advance). For every memory, cursor and choice of
outputs, `xchg_message_peek` returns the cursor it was given with at most the
error field changed, so `position`, `data` and `length` are unchanged; an
output that was omitted stays omitted, and on failure the supplied outputs
keep their values. The call only reads the memory, so as a step on the
cursor it leaves every byte as it was. -/
theorem C25_peek_does_not_advance (mem : Mem) (m : xchg_message) (out : peek_out) :
    (∃ e, (xchg_message_peek mem m out).2.1 = { m with error := e }) ∧
    ((xchg_message_peek mem m out).2.2.type.isSome = out.type.isSome ∧
      (xchg_message_peek mem m out).2.2.null.isSome = out.null.isSome ∧
      (xchg_message_peek mem m out).2.2.list.isSome = out.list.isSome ∧
      (xchg_message_peek mem m out).2.2.sz_list.isSome = out.sz_list.isSome) ∧
    ((xchg_message_peek mem m out).1 = false → (xchg_message_peek mem m out).2.2 = out) ∧
    (cursor_apply mem m .peek).1 = mem := by
  refine ⟨?_, ?_, ?_, rfl⟩
  · simp only [xchg_message_peek]
    repeat' split
    all_goals exact ⟨_, rfl⟩
  · simp only [xchg_message_peek]
    repeat' split
    all_goals simp
  · simp only [xchg_message_peek]
    repeat' split
    all_goals simp

/-- Claim C25, instantiated on the two cursors of the test "message peek": on the
13-byte buffer `54 03 00 00 00 00 00 00 44 54 01 00 00` peek reports `int16`,
not null, list, count 3; after a 16500-element `uint32` list has been written
into a zeroed 70 KiB cursor and the cursor has been reset, peek reports
`uint32`, not null, list, count 16500; the position is 0 after both. -/
theorem C25_peek_does_not_advance_witness :
    ((xchg_message_peek (peek_test_buffer 4096) ⟨4096, 13, 0, none⟩
        ⟨some 0, some false, some false, some 0⟩).1 = false →
      (xchg_message_peek (peek_test_buffer 4096) ⟨4096, 13, 0, none⟩
        ⟨some 0, some false, some false, some 0⟩).2.2 =
        ⟨some 0, some false, some false, some 0⟩) ∧
    xchg_message_peek (peek_test_buffer 4096) ⟨4096, 13, 0, none⟩
        ⟨some 0, some false, some false, some 0⟩ =
      (true, ⟨4096, 13, 0, none⟩, ⟨some xchg_type_int16, some false, some true, some 3⟩) ∧
    (xchg_message_write_list .uint32 zero_mem ⟨4096, 71680, 0, none⟩
      (some (List.replicate 16500 0)) 16500).1 = true ∧
    xchg_message_peek
        (xchg_message_write_list .uint32 zero_mem ⟨4096, 71680, 0, none⟩
          (some (List.replicate 16500 0)) 16500).2.1
        (xchg_message_reset (xchg_message_write_list .uint32 zero_mem ⟨4096, 71680, 0, none⟩
          (some (List.replicate 16500 0)) 16500).2.2).2
        ⟨some 0, some true, some false, some 0⟩ =
      (true, ⟨4096, 71680, 0, none⟩,
        ⟨some xchg_type_uint32, some false, some true, some 16500⟩) :=
  ⟨(C25_peek_does_not_advance (peek_test_buffer 4096) ⟨4096, 13, 0, none⟩
      ⟨some 0, some false, some false, some 0⟩).2.2.1,
    by decide, by decide, by decide⟩

/-- Claim C26 (seek bounds). For every cursor and every `p`,
`xchg_message_seek(p)` succeeds if and only if `p < length`. On success the
cursor has `position = p` and no error, its other fields unchanged; on
failure only the error changes: it is set to "attempt to seek outside message
bounds", a non-empty text, and the position is what it was. -/
theorem C26_seek_bounds (m : xchg_message) (p : Nat) :
    ((xchg_message_seek m p).1 = true ↔ p < m.length) ∧
    ((xchg_message_seek m p).1 = true →
      (xchg_message_seek m p).2 = { m with position := p, error := none }) ∧
    ((xchg_message_seek m p).1 = false →
      (xchg_message_seek m p).2 = { m with error := some ERR_SEEK }) ∧
    ERR_SEEK ≠ "" := by
  by_cases h : m.length ≤ p
  · have hs : xchg_message_seek m p = (false, { m with error := some ERR_SEEK }) := by
      simp only [xchg_message_seek, if_pos h]
    rw [hs]
    exact ⟨⟨fun c => by simp at c, fun c => by omega⟩, fun c => by simp at c, fun _ => rfl,
      by decide⟩
  · have hs : xchg_message_seek m p = (true, { m with position := p, error := none }) := by
      simp only [xchg_message_seek, if_neg h]
    rw [hs]
    exact ⟨⟨fun _ => by omega, fun _ => rfl⟩, fun _ => rfl, fun c => by simp at c, by decide⟩

/-- Claim C26, instantiated on the test "message navigation", a 12-byte cursor:
`seek(12)` fails, `seek(5)` succeeds and `xchg_message_position` then yields
5, and `seek(SIZE_MAX)` fails. -/
theorem C26_seek_bounds_witness :
    ((xchg_message_seek ⟨4096, 12, 0, none⟩ 5).1 = true ↔
      5 < (⟨4096, 12, 0, none⟩ : xchg_message).length) ∧
    xchg_message_seek ⟨4096, 12, 0, none⟩ 12 = (false, ⟨4096, 12, 0, some ERR_SEEK⟩) ∧
    xchg_message_seek ⟨4096, 12, 0, some ERR_SEEK⟩ 5 = (true, ⟨4096, 12, 5, none⟩) ∧
    xchg_message_position ⟨4096, 12, 5, none⟩ (some 0) = (true, ⟨4096, 12, 5, none⟩, some 5) ∧
    xchg_message_seek ⟨4096, 12, 5, none⟩ (2 ^ 64 - 1) = (false, ⟨4096, 12, 5, some ERR_SEEK⟩) :=
  ⟨(C26_seek_bounds ⟨4096, 12, 0, none⟩ 5).1, by decide, by decide, by decide, by decide⟩

/-- Claim C27 (cursor init). `xchg_message_init(message, data, n)` succeeds if
and only if `message` and `data` are not null and `n > 0`. On success the
cursor has `data = data`, `length = n`, `position = 0` and no error; on
failure, in particular when `n = 0`, the cursor is left as it was. -/
theorem C27_cursor_init (message : Option xchg_message) (data n : Nat) :
    ((xchg_message_init message data n).1 = true ↔
      message.isSome = true ∧ data ≠ NULL ∧ 0 < n) ∧
    ((xchg_message_init message data n).1 = true →
      (xchg_message_init message data n).2 = some ⟨data, n, 0, none⟩) ∧
    ((xchg_message_init message data n).1 = false →
      (xchg_message_init message data n).2 = message) ∧
    (xchg_message_init message data 0).1 = false := by
  have h0 : (xchg_message_init message data 0).1 = false := by
    cases message <;> simp [xchg_message_init]
  cases message with
  | none => simp [xchg_message_init]
  | some msg =>
    by_cases h : data = NULL ∨ n = 0
    · have hs : xchg_message_init (some msg) data n = (false, some msg) := by
        simp only [xchg_message_init, if_pos h]
      rw [hs]
      refine ⟨⟨fun c => by simp at c, ?_⟩, fun c => by simp at c, fun _ => rfl, h0⟩
      rintro ⟨-, h1, h2⟩
      rcases h with h | h
      · exact absurd h h1
      · omega
    · have hs : xchg_message_init (some msg) data n = (true, some ⟨data, n, 0, none⟩) := by
        simp only [xchg_message_init, if_neg h]
      rw [hs]
      refine ⟨⟨fun _ => ⟨rfl, fun c => h (Or.inl c), ?_⟩, fun _ => rfl⟩, fun _ => rfl,
        fun c => by simp at c, h0⟩
      by_contra c
      exact h (Or.inr (by omega))

/-- Claim C27, instantiated on the test "message lifecycle": a 12-byte buffer at
address 4096 binds the cursor with position 0 and no error; length 0 is
refused and leaves the cursor as it was. -/
theorem C27_cursor_init_witness :
    ((xchg_message_init (some unbound) 4096 12).1 = true →
      (xchg_message_init (some unbound) 4096 12).2 = some ⟨4096, 12, 0, none⟩) ∧
    (xchg_message_init (some unbound) 4096 12).1 = true ∧
    xchg_message_init (some ⟨4096, 12, 4, some ERR_EOF⟩) 8192 0 =
      (false, some ⟨4096, 12, 4, some ERR_EOF⟩) :=
  ⟨(C27_cursor_init (some unbound) 4096 12).2.1, by decide, by decide⟩

theorem write_binding (mem : Mem) (m : xchg_message) (value : xchg_value (List Byte)) :
    (xchg_message_write mem m value).2.2.data = m.data ∧
    (xchg_message_write mem m value).2.2.length = m.length := by
  simp only [xchg_message_write]
  repeat' split
  all_goals exact ⟨rfl, rfl⟩

theorem cursor_apply_binding (mem : Mem) (m : xchg_message) (op : CursorOp) :
    (cursor_apply mem m op).2.data = m.data ∧ (cursor_apply mem m op).2.length = m.length := by
  have hr := read_frame mem m
  cases op with
  | read => exact hr
  | peek =>
    simp only [cursor_apply, xchg_message_peek]
    repeat' split
    all_goals exact ⟨rfl, rfl⟩
  | read_scalar T =>
    simp only [cursor_apply, xchg_message_read_scalar]
    repeat' split
    all_goals first
      | exact ⟨rfl, rfl⟩
      | (rename_i heq; rw [heq] at hr; exact hr)
  | read_list T =>
    simp only [cursor_apply, xchg_message_read_list]
    repeat' split
    all_goals first
      | exact ⟨rfl, rfl⟩
      | (rename_i heq; rw [heq] at hr; exact hr)
  | read_null =>
    simp only [cursor_apply, xchg_message_read_null]
    repeat' split
    all_goals first
      | exact ⟨rfl, rfl⟩
      | (rename_i heq; rw [heq] at hr; exact hr)
  | read_null_list =>
    simp only [cursor_apply, xchg_message_read_null_list]
    repeat' split
    all_goals first
      | exact ⟨rfl, rfl⟩
      | (rename_i heq; rw [heq] at hr; exact hr)
  | write value => exact write_binding mem m value
  | seek p =>
    simp only [cursor_apply, xchg_message_seek]
    split <;> exact ⟨rfl, rfl⟩

theorem cursor_run_binding (ops : List CursorOp) : ∀ (mem : Mem) (m : xchg_message),
    (cursor_run ops mem m).2.data = m.data ∧ (cursor_run ops mem m).2.length = m.length := by
  induction ops with
  | nil => intro mem m; exact ⟨rfl, rfl⟩
  | cons op ops ih =>
    intro mem m
    simp only [cursor_run]
    obtain ⟨h1, h2⟩ := ih (cursor_apply mem m op).1 (cursor_apply mem m op).2
    obtain ⟨h3, h4⟩ := cursor_apply_binding mem m op
    exact ⟨h1.trans h3, h2.trans h4⟩

/-- Claim C28 (cursor reset). For every cursor state, `xchg_message_reset`
succeeds and yields `position = 0` and no error with `data` and `length`
unchanged. Consequently a reset, followed by any sequence of reads, peeks,
writes and seeks, followed by a reset, ends with the cursor
`(data, length, 0, none)` of the same buffer. -/
theorem C28_cursor_reset (m : xchg_message) :
    xchg_message_reset m = (true, ⟨m.data, m.length, 0, none⟩) ∧
    ∀ (mem : Mem) (ops : List CursorOp),
      xchg_message_reset (cursor_run ops mem (xchg_message_reset m).2).2 =
        (true, ⟨m.data, m.length, 0, none⟩) := by
  refine ⟨rfl, fun mem ops => ?_⟩
  obtain ⟨h1, h2⟩ := cursor_run_binding ops mem (xchg_message_reset m).2
  simp only [xchg_message_reset] at h1 h2 ⊢
  rw [h1, h2]

/-- Claim C28, instantiated on the test "message lifecycle": a 12-byte cursor at
position 4 with an error set is reset to position 0 with no error. -/
theorem C28_cursor_reset_witness :
    xchg_message_reset ⟨4096, 12, 4, some ERR_EOF⟩ = (true, ⟨4096, 12, 0, none⟩) ∧
    xchg_message_reset (cursor_run [.read, .seek 5, .read_null]
        zero_mem (xchg_message_reset ⟨4096, 12, 4, some ERR_EOF⟩).2).2 =
      (true, ⟨4096, 12, 0, none⟩) :=
  ⟨(C28_cursor_reset ⟨4096, 12, 4, some ERR_EOF⟩).1,
    (C28_cursor_reset ⟨4096, 12, 4, some ERR_EOF⟩).2 zero_mem [.read, .seek 5, .read_null]⟩

/-! ## The wraparound scenario -/

set_option maxRecDepth 4000 in
/-- Claim C29 (wraparound scenario). A producer endpoint (egress) and a consumer
endpoint (ingress) share a zeroed 4112-byte buffer at address 4096 with slot
size 64 (`M = 4096`). In 96 rounds of `prepare`, `write_uint8_list` of the 12
bytes "alex forster", `send`, `receive`, `read_uint8_list`, `return`, every
call succeeds and every list read back is the 12 bytes written with count 12
(the run is not cut short). At the end the producer's egress has `cr = 8192`
and `cw = 6144`, the consumer's ingress has `cr = 6144` and `cw = 6144`, and
the published indices are `*r = 6144` and `*w = 6144`. -/
theorem C29_wraparound_scenario :
    (xchg_channel_init zero_mem zero_channel 64 NULL 0 4096 4112).1 = true ∧
    (xchg_channel_init zero_mem zero_channel 64 4096 4112 NULL 0).1 = true ∧
    (wraparound_rounds 96 zero_mem
      (xchg_channel_init zero_mem zero_channel 64 NULL 0 4096 4112).2
      (xchg_channel_init zero_mem zero_channel 64 4096 4112 NULL 0).2).map
        (fun r => (r.2.1.egress, r.2.2.ingress, load64 r.1 4096, load64 r.1 4104)) =
      some (⟨4096, 8192, 4104, 6144, 4112, 4096, 64, 4095⟩,
        ⟨4096, 6144, 4104, 6144, 4112, 4096, 64, 4095⟩, 6144, 6144) := by
  decide

/-! ## What each channel call may change -/

theorem prepare_frame (mem : Mem) (ch : xchg_channel) (msg0 : xchg_message) :
    (xchg_channel_prepare mem ch msg0).2.1.egress =
      { ch.egress with cr := (xchg_channel_prepare mem ch msg0).2.1.egress.cr } ∧
    (xchg_channel_prepare mem ch msg0).2.1.ingress = ch.ingress := by
  by_cases hd : ch.egress.data = NULL
  · have hs : xchg_channel_prepare mem ch msg0 =
        (false, { ch with error := some ERR_NO_EGRESS }, msg0) := by
      simp only [xchg_channel_prepare, if_pos hd]
    rw [hs]
    exact ⟨rfl, rfl⟩
  · by_cases hf : wsub ch.egress.cr ch.egress.cw < ch.egress.sz_message
    · by_cases hf2 : wsub (wrap (load64 mem ch.egress.r + ch.egress.sz_data)) ch.egress.cw
          < ch.egress.sz_message
      · simp [xchg_channel_prepare, nr_free, hd, hf, hf2]
      · simp [xchg_channel_prepare, nr_free, hd, hf, hf2]
    · simp [xchg_channel_prepare, nr_free, hd, hf]

theorem receive_frame (mem : Mem) (ch : xchg_channel) (msg0 : xchg_message) :
    (xchg_channel_receive mem ch msg0).2.1.ingress =
      { ch.ingress with cw := (xchg_channel_receive mem ch msg0).2.1.ingress.cw } ∧
    (xchg_channel_receive mem ch msg0).2.1.egress = ch.egress := by
  by_cases hd : ch.ingress.data = NULL
  · have hs : xchg_channel_receive mem ch msg0 =
        (false, { ch with error := some ERR_NO_INGRESS }, msg0) := by
      simp only [xchg_channel_receive, if_pos hd]
    rw [hs]
    exact ⟨rfl, rfl⟩
  · by_cases hf : wsub ch.ingress.cw ch.ingress.cr < ch.ingress.sz_message
    · by_cases hf2 : wsub (load64 mem ch.ingress.w) ch.ingress.cr < ch.ingress.sz_message
      · simp [xchg_channel_receive, nr_used, hd, hf, hf2]
      · simp [xchg_channel_receive, nr_used, hd, hf, hf2]
    · simp [xchg_channel_receive, nr_used, hd, hf]

/-- The two outcomes of `xchg_channel_send`. -/
theorem send_cases (mem : Mem) (ch : xchg_channel) (msg : xchg_message) :
    (∃ e, xchg_channel_send mem ch msg = (false, mem, { ch with error := some e })) ∨
    xchg_channel_send mem ch msg =
      (true, store64 mem ch.egress.w (wrap (load64 mem ch.egress.w + ch.egress.sz_message)),
        { ch with
          egress := { ch.egress with cw := wrap (ch.egress.cw + ch.egress.sz_message) }
          error := none }) := by
  simp only [xchg_channel_send]
  split
  · exact Or.inl ⟨_, rfl⟩
  · split
    · exact Or.inl ⟨_, rfl⟩
    · exact Or.inr rfl

/-- The two outcomes of `xchg_channel_return`. -/
theorem return_cases (mem : Mem) (ch : xchg_channel) (msg : xchg_message) :
    (∃ e, xchg_channel_return mem ch msg = (false, mem, { ch with error := some e })) ∨
    xchg_channel_return mem ch msg =
      (true, store64 mem ch.ingress.r (wrap (load64 mem ch.ingress.r + ch.ingress.sz_message)),
        { ch with
          ingress := { ch.ingress with cr := wrap (ch.ingress.cr + ch.ingress.sz_message) }
          error := none }) := by
  simp only [xchg_channel_return]
  split
  · exact Or.inl ⟨_, rfl⟩
  · split
    · exact Or.inl ⟨_, rfl⟩
    · exact Or.inr rfl

theorem offset_inside {s N : Nat} (hN : ∃ b, N = 2 ^ b) (hdiv : s ∣ N) (i : Nat)
    (hi : i % s = 0) : (i &&& (N - 1)) % s = 0 ∧ (i &&& (N - 1)) + s ≤ N := by
  obtain ⟨b, rfl⟩ := hN
  rw [Nat.and_pow_two_sub_one_eq_mod]
  have hpos : 0 < 2 ^ b := Nat.pos_pow_of_pos b (by norm_num)
  have h1 : s ∣ i % 2 ^ b := (Nat.dvd_mod_iff hdiv).mpr (Nat.dvd_of_mod_eq_zero hi)
  refine ⟨Nat.mod_eq_zero_of_dvd h1, ?_⟩
  obtain ⟨q, hq⟩ := hdiv
  obtain ⟨t, ht⟩ := h1
  have hlt : i % 2 ^ b < 2 ^ b := Nat.mod_lt _ hpos
  rw [ht, hq] at hlt
  have htq : t < q := Nat.lt_of_mul_lt_mul_left hlt
  rw [ht, hq]
  calc s * t + s = s * (t + 1) := by ring
    _ ≤ s * q := Nat.mul_le_mul_left s htq

theorem advance_multiple {s N : Nat} (hs : ∃ a, s = 2 ^ a) (hN : ∃ b, N = 2 ^ b) (hdiv : s ∣ N)
    (hN64 : N < 2 ^ 64) (i : Nat) (hi : i % s = 0) : wrap (i + s) % s = 0 := by
  obtain ⟨a, rfl⟩ := hs
  obtain ⟨b, rfl⟩ := hN
  have hb : b ≤ 63 := pow_lt_word hN64
  have hab : a ≤ b := by
    by_contra hc
    have h1 : 2 ^ b < 2 ^ a := Nat.pow_lt_pow_right (by norm_num) (by omega)
    have h2 : 2 ^ a ≤ 2 ^ b := Nat.le_of_dvd (Nat.pos_pow_of_pos b (by norm_num)) hdiv
    omega
  have hdvd : 2 ^ a ∣ 2 ^ 64 := Nat.pow_dvd_pow 2 (by omega)
  unfold wrap
  rw [Nat.mod_mod_of_dvd _ hdvd, Nat.add_mod, hi]
  simp

/-! ## Occupancy and slot geometry -/

/-- From an empty ring, every state reached by the protocol has an occupancy
`*w - *r` of at most the data area. -/
theorem occupancy_from_empty {mem : Mem} {cha chb A C : xchg_channel} {s I LI E LE B L : Nat}
    (hB : B ≠ NULL)
    (hA : xchg_channel_init mem cha s I LI B L = (true, A))
    (hC : xchg_channel_init mem chb s B L E LE = (true, C))
    (hempty : load64 mem B = load64 mem (B + 8))
    {trace : List Action} {S : Endpoints} (hrun : run (fresh mem A C) trace = some S) :
    wsub (load64 S.mem (B + 8)) (load64 S.mem B) ≤ wsub (wsub L 8) 8 := by
  obtain ⟨G, ns, nr, log, hS⟩ := sysInv_reach hB hA hC hempty hrun
  rw [shared_used G hS.shared]
  obtain ⟨-, -, h3, h4⟩ := hS.shared
  omega

/-- Claim C31 (occupancy invariant), evaluated on a ring that is full when the
producer attaches: a 144-byte buffer at address 4096 (`N = 128`) with slot
size 64 whose published indices are `*w = 128` and `*r = 0`, both multiples
of 64 with `*w - *r = N`. `xchg_channel_init` gives the producer `cr = 0` and
`cw = 128`. Its first `prepare` succeeds, binding the slot at offset 0 that
the consumer has not returned, and `send` of that cursor succeeds and leaves
`*w = 192` and `*r = 0`: the occupancy is 192, above `N`. The free space
`cr - cw` is computed as `2^64 - 128`, because `init` sets `cr` to `*r` where
`nr_free` keeps `*r + sz_data`. -/
theorem C31_producer_attached_to_a_full_ring_overfills_it :
    load64 (full_ring 4096) 4096 = 0 ∧ load64 (full_ring 4096) 4104 = 128 ∧
    xchg_channel_init (full_ring 4096) zero_channel 64 NULL 0 4096 144 =
      (true, ⟨zero_channel.ingress, ⟨4096, 0, 4104, 128, 4112, 128, 64, 127⟩, none⟩) ∧
    xchg_channel_prepare (full_ring 4096)
        (xchg_channel_init (full_ring 4096) zero_channel 64 NULL 0 4096 144).2 unbound =
      (true, (xchg_channel_init (full_ring 4096) zero_channel 64 NULL 0 4096 144).2, slot0) ∧
    (nr_free (full_ring 4096)
      (xchg_channel_init (full_ring 4096) zero_channel 64 NULL 0 4096 144).2.egress 64).1
      = 2 ^ 64 - 128 ∧
    (xchg_channel_send (full_ring 4096)
      (xchg_channel_init (full_ring 4096) zero_channel 64 NULL 0 4096 144).2 slot0).1 = true ∧
    load64 (xchg_channel_send (full_ring 4096)
      (xchg_channel_init (full_ring 4096) zero_channel 64 NULL 0 4096 144).2 slot0).2.1 4104
      = 192 ∧
    load64 (xchg_channel_send (full_ring 4096)
      (xchg_channel_init (full_ring 4096) zero_channel 64 NULL 0 4096 144).2 slot0).2.1 4096
      = 0 ∧
    ¬ (wsub 192 0 ≤ 128) := by
  decide

/-- Claim C32 (a slot never straddles the end of the ring). Let `s` and `N` be
powers of two with `s` dividing `N` (`N` a machine word). For every index `i`
that is a multiple of `s`, the offset `o = i & (N - 1)` is a multiple of `s`
with `o + s ≤ N`, and the advanced index `i + s`, taken modulo `2^64`, is
again a multiple of `s`. Hence, on an egress ring with slot size `s` and mask
`N - 1` whose `cw` is a multiple of `s`: `cw` is still a multiple of `s` after
`prepare` and after `send`, successful or not, and a successful `prepare`
binds a cursor of `s` bytes at an offset `o` of the data area with
`o + s ≤ N`. The same holds for `cr`, `receive` and `return` on an ingress
ring. `xchg_channel_init` sets these shadows to the published indices, so a
ring whose published indices start as multiples of `s` starts in such a
state. -/
theorem C32_slot_never_straddles (s N : Nat) (hs : ∃ a, s = 2 ^ a) (hN : ∃ b, N = 2 ^ b)
    (hdiv : s ∣ N) (hN64 : N < 2 ^ 64) :
    (∀ i, i % s = 0 →
      (i &&& (N - 1)) % s = 0 ∧ (i &&& (N - 1)) + s ≤ N ∧ wrap (i + s) % s = 0) ∧
    (∀ (mem : Mem) (ch : xchg_channel) (msg0 : xchg_message),
      ch.egress.sz_message = s → ch.egress.mask = N - 1 → ch.egress.cw % s = 0 →
      (xchg_channel_prepare mem ch msg0).2.1.egress.cw % s = 0 ∧
      (xchg_channel_send mem ch msg0).2.2.egress.cw % s = 0 ∧
      ((xchg_channel_prepare mem ch msg0).1 = true →
        ∃ o, (xchg_channel_prepare mem ch msg0).2.2 = ⟨ch.egress.data + o, s, 0, none⟩ ∧
          o % s = 0 ∧ o + s ≤ N)) ∧
    (∀ (mem : Mem) (ch : xchg_channel) (msg0 : xchg_message),
      ch.ingress.sz_message = s → ch.ingress.mask = N - 1 → ch.ingress.cr % s = 0 →
      (xchg_channel_receive mem ch msg0).2.1.ingress.cr % s = 0 ∧
      (xchg_channel_return mem ch msg0).2.2.ingress.cr % s = 0 ∧
      ((xchg_channel_receive mem ch msg0).1 = true →
        ∃ o, (xchg_channel_receive mem ch msg0).2.2 = ⟨ch.ingress.data + o, s, 0, none⟩ ∧
          o % s = 0 ∧ o + s ≤ N)) ∧
    (∀ (mem : Mem) (ch A : xchg_channel) (I LI E LE : Nat),
      xchg_channel_init mem ch s I LI E LE = (true, A) →
      (E ≠ NULL → A.egress.cw = load64 mem (E + 8) ∧ A.egress.sz_message = s ∧
        A.egress.mask = wsub (wsub LE 8) 8 - 1) ∧
      (I ≠ NULL → A.ingress.cr = load64 mem I ∧ A.ingress.sz_message = s ∧
        A.ingress.mask = wsub (wsub LI 8) 8 - 1)) := by
  have hs0 : s ≠ 0 := by
    obtain ⟨a, rfl⟩ := hs
    exact Nat.pos_iff_ne_zero.mp (Nat.pos_pow_of_pos a (by norm_num))
  refine ⟨?_, ?_, ?_, ?_⟩
  · intro i hi
    obtain ⟨h1, h2⟩ := offset_inside hN hdiv i hi
    exact ⟨h1, h2, advance_multiple hs hN hdiv hN64 i hi⟩
  · intro mem ch msg0 hsz hmask hcw
    refine ⟨?_, ?_, ?_⟩
    · rw [(prepare_frame mem ch msg0).1]
      exact hcw
    · rcases send_cases mem ch msg0 with ⟨e, he⟩ | he
      · rw [he]; exact hcw
      · rw [he, hsz]; exact advance_multiple hs hN hdiv hN64 _ hcw
    · intro hok
      obtain ⟨-, h1, -, -, -⟩ := prepare_binds mem ch msg0 (by rw [hsz]; exact hs0) hok
      obtain ⟨h2, h3⟩ := offset_inside hN hdiv _ hcw
      refine ⟨ch.egress.cw &&& (N - 1), ?_, h2, h3⟩
      rw [h1, hsz, hmask]
  · intro mem ch msg0 hsz hmask hcr
    refine ⟨?_, ?_, ?_⟩
    · rw [(receive_frame mem ch msg0).1]
      exact hcr
    · rcases return_cases mem ch msg0 with ⟨e, he⟩ | he
      · rw [he]; exact hcr
      · rw [he, hsz]; exact advance_multiple hs hN hdiv hN64 _ hcr
    · intro hok
      obtain ⟨-, h1, -, -, -⟩ := receive_binds mem ch msg0 (by rw [hsz]; exact hs0) hok
      obtain ⟨h2, h3⟩ := offset_inside hN hdiv _ hcr
      refine ⟨ch.ingress.cr &&& (N - 1), ?_, h2, h3⟩
      rw [h1, hsz, hmask]
  · intro mem ch A I LI E LE h
    constructor
    · intro hE
      obtain ⟨G, hA⟩ := init_egress hE h
      rw [hA]
      exact ⟨rfl, rfl, mask_eq G⟩
    · intro hI
      obtain ⟨G, hA⟩ := init_ingress hI h
      rw [hA]
      exact ⟨rfl, rfl, mask_eq G⟩

/-- Claim C32, instantiated with `s = 64` and `N = 128`: the index `2^64 - 64`,
the last multiple of 64 before the index wraps, gives offset 64, and the
index after it is 0; the producer over a zeroed 144-byte buffer binds the slot
at offset 0. -/
theorem C32_slot_never_straddles_witness :
    (((2 ^ 64 - 64) &&& (128 - 1)) % 64 = 0 ∧ ((2 ^ 64 - 64) &&& (128 - 1)) + 64 ≤ 128 ∧
      wrap (2 ^ 64 - 64 + 64) % 64 = 0) ∧
    (2 ^ 64 - 64) &&& (128 - 1) = 64 ∧ wrap (2 ^ 64 - 64 + 64) = 0 ∧
    xchg_channel_prepare zero_mem
        (xchg_channel_init zero_mem zero_channel 64 NULL 0 4096 144).2 unbound =
      (true, (xchg_channel_prepare zero_mem
        (xchg_channel_init zero_mem zero_channel 64 NULL 0 4096 144).2 unbound).2.1,
        ⟨4112 + 0, 64, 0, none⟩) :=
  ⟨(C32_slot_never_straddles 64 128 ⟨6, by norm_num⟩ ⟨7, by norm_num⟩ (by decide)
      (by norm_num)).1 (2 ^ 64 - 64) (by decide),
    by decide, by decide, rfl⟩

/-! ## The cursor invariant -/

theorem cursor_kept_refl (m : xchg_message) (h : m.position ≤ m.length) (e : Option String) :
    cursor_kept m { m with error := e } := ⟨h, rfl, rfl⟩

theorem read_kept (mem : Mem) (m : xchg_message) (h : m.position ≤ m.length) :
    cursor_kept m (xchg_message_read mem m).2.1 := by
  simp only [xchg_message_read]
  repeat' split
  all_goals first
    | exact cursor_kept_refl m h _
    | skip
  all_goals refine ⟨?_, rfl, rfl⟩
  all_goals simp only [Bool.and_eq_true, decide_eq_true_eq, not_and, not_lt, gt_iff_lt,
    Bool.not_eq_true, Bool.and_eq_false_imp, Bool.not_eq_true', Bool.and_eq_false_iff] at *
  all_goals first
    | omega
    | tauto

theorem write_kept (mem : Mem) (m : xchg_message) (value : xchg_value (List Byte))
    (h : m.position ≤ m.length) : cursor_kept m (xchg_message_write mem m value).2.2 := by
  simp only [xchg_message_write]
  repeat' split
  all_goals first
    | exact cursor_kept_refl m h _
    | skip
  all_goals refine ⟨?_, rfl, rfl⟩
  all_goals simp only [wrap, gt_iff_lt, not_lt] at *
  all_goals omega

theorem typed_readers_kept (mem : Mem) (m : xchg_message) (h : m.position ≤ m.length) :
    (∀ T value, cursor_kept m (xchg_message_read_scalar T mem m value).2.1) ∧
    (∀ T list sz_list, cursor_kept m (xchg_message_read_list T mem m list sz_list).2.1) ∧
    (∀ type, cursor_kept m (xchg_message_read_null mem m type).2.1) ∧
    (∀ type, cursor_kept m (xchg_message_read_null_list mem m type).2.1) := by
  have hr := read_kept mem m h
  have h0 : cursor_kept m m := ⟨h, rfl, rfl⟩
  refine ⟨?_, ?_, ?_, ?_⟩
  · intro T value
    simp only [xchg_message_read_scalar]
    repeat' split
    all_goals first
      | exact h0
      | exact cursor_kept_refl m h _
      | (rename_i heq; rw [heq] at hr; exact hr)
  · intro T list sz_list
    simp only [xchg_message_read_list]
    repeat' split
    all_goals first
      | exact h0
      | exact cursor_kept_refl m h _
      | (rename_i heq; rw [heq] at hr; exact hr)
  · intro type
    simp only [xchg_message_read_null]
    repeat' split
    all_goals first
      | exact h0
      | exact cursor_kept_refl m h _
      | (rename_i heq; rw [heq] at hr; exact hr)
  · intro type
    simp only [xchg_message_read_null_list]
    repeat' split
    all_goals first
      | exact h0
      | exact cursor_kept_refl m h _
      | (rename_i heq; rw [heq] at hr; exact hr)

/-- Claim C33 (cursor position invariant). For every memory and every cursor
with `position ≤ length`, the cursor left by a message operation still has
`position ≤ length`, and the same `length` and `data`: this holds for reset,
position, seek, peek, the read kernel, every typed reader, the write kernel
with any descriptor and every typed writer, with any arguments and whether
the call succeeds or fails. `xchg_message_init` leaves a cursor with
`position ≤ length` as well (a newly bound one on success, the old one on
failure). -/
theorem C33_cursor_position_invariant (mem : Mem) (m : xchg_message)
    (h : m.position ≤ m.length) :
    cursor_kept m (xchg_message_reset m).2 ∧
    (∀ out, cursor_kept m (xchg_message_position m out).2.1) ∧
    (∀ p, cursor_kept m (xchg_message_seek m p).2) ∧
    (∀ out, cursor_kept m (xchg_message_peek mem m out).2.1) ∧
    cursor_kept m (xchg_message_read mem m).2.1 ∧
    (∀ T value, cursor_kept m (xchg_message_read_scalar T mem m value).2.1) ∧
    (∀ T list sz_list, cursor_kept m (xchg_message_read_list T mem m list sz_list).2.1) ∧
    (∀ type, cursor_kept m (xchg_message_read_null mem m type).2.1) ∧
    (∀ type, cursor_kept m (xchg_message_read_null_list mem m type).2.1) ∧
    (∀ value, cursor_kept m (xchg_message_write mem m value).2.2) ∧
    (∀ T value, cursor_kept m (xchg_message_write_scalar T mem m value).2.2) ∧
    (∀ T list sz_list, cursor_kept m (xchg_message_write_list T mem m list sz_list).2.2) ∧
    (∀ type, cursor_kept m (xchg_message_write_null mem m type).2.2) ∧
    (∀ type, cursor_kept m (xchg_message_write_null_list mem m type).2.2) ∧
    (∀ data n, ∃ m1, (xchg_message_init (some m) data n).2 = some m1 ∧
      m1.position ≤ m1.length) := by
  obtain ⟨t1, t2, t3, t4⟩ := typed_readers_kept mem m h
  refine ⟨⟨Nat.zero_le _, rfl, rfl⟩, ?_, ?_, ?_, read_kept mem m h, t1, t2, t3, t4,
    fun value => write_kept mem m value h, fun T value => write_kept mem m _ h,
    fun T list sz_list => write_kept mem m _ h, fun type => write_kept mem m _ h,
    fun type => write_kept mem m _ h, ?_⟩
  · intro out
    cases out with
    | none => exact ⟨h, rfl, rfl⟩
    | some p => exact ⟨h, rfl, rfl⟩
  · intro p
    simp only [xchg_message_seek]
    split
    · exact cursor_kept_refl m h _
    · exact ⟨by simp only; omega, rfl, rfl⟩
  · intro out
    simp only [xchg_message_peek]
    repeat' split
    all_goals exact cursor_kept_refl m h _
  · intro data n
    simp only [xchg_message_init]
    split
    · exact ⟨m, rfl, h⟩
    · exact ⟨_, rfl, Nat.zero_le _⟩

/-- Claim C33, instantiated on the 9-byte buffer `73 F7 FF FF FF FF FF FF FF`
whose list payload size makes the position sum wrap around: after the read
kernel the position is within the length. -/
theorem C33_cursor_position_invariant_witness :
    (⟨4096, 9, 0, none⟩ : xchg_message).position ≤ (⟨4096, 9, 0, none⟩ : xchg_message).length ∧
    cursor_kept ⟨4096, 9, 0, none⟩
      (xchg_message_read (oversized_uint8_list 4096) ⟨4096, 9, 0, none⟩).2.1 :=
  ⟨by decide,
    (C33_cursor_position_invariant (oversized_uint8_list 4096) ⟨4096, 9, 0, none⟩
      (by decide)).2.2.2.2.1⟩

/-! ## Shadows, errors and frames of the channel calls -/

/-- Claim C34 (the owner's shadow tracks the published index). After a
successful `xchg_channel_init` the egress `cw` equals the published write
index `*w` and the ingress `cr` equals the published read index `*r`. If
`cw = *w` holds on a channel, it holds again after `xchg_channel_prepare` and
after `xchg_channel_send`, successful or not; if `cr = *r` holds, it holds
again after `xchg_channel_receive` and after `xchg_channel_return`. The peer's
commit does not disturb it: on a ring laid out as `xchg_channel_init` lays it
out (`w = r + 8`), `return` leaves `*w` and `send` leaves `*r` as they
were. -/
theorem C34_owner_shadow_tracks_published_index (mem : Mem) (ch : xchg_channel)
    (msg : xchg_message) :
    (∀ (ch0 : xchg_channel) (s I LI E LE : Nat),
      xchg_channel_init mem ch0 s I LI E LE = (true, ch) →
      (E ≠ NULL → ch.egress.cw = load64 mem ch.egress.w) ∧
      (I ≠ NULL → ch.ingress.cr = load64 mem ch.ingress.r)) ∧
    (ch.egress.cw = load64 mem ch.egress.w →
      (xchg_channel_prepare mem ch msg).2.1.egress.cw =
        load64 mem (xchg_channel_prepare mem ch msg).2.1.egress.w ∧
      (xchg_channel_send mem ch msg).2.2.egress.cw =
        load64 (xchg_channel_send mem ch msg).2.1 (xchg_channel_send mem ch msg).2.2.egress.w) ∧
    (ch.ingress.cr = load64 mem ch.ingress.r →
      (xchg_channel_receive mem ch msg).2.1.ingress.cr =
        load64 mem (xchg_channel_receive mem ch msg).2.1.ingress.r ∧
      (xchg_channel_return mem ch msg).2.2.ingress.cr =
        load64 (xchg_channel_return mem ch msg).2.1
          (xchg_channel_return mem ch msg).2.2.ingress.r) ∧
    (ch.ingress.w = ch.ingress.r + 8 →
      load64 (xchg_channel_return mem ch msg).2.1 ch.ingress.w = load64 mem ch.ingress.w) ∧
    (ch.egress.w = ch.egress.r + 8 →
      load64 (xchg_channel_send mem ch msg).2.1 ch.egress.r = load64 mem ch.egress.r) := by
  refine ⟨?_, ?_, ?_, ?_, ?_⟩
  · intro ch0 s I LI E LE h
    constructor
    · intro hE
      obtain ⟨-, hA⟩ := init_egress hE h
      rw [hA]; rfl
    · intro hI
      obtain ⟨-, hA⟩ := init_ingress hI h
      rw [hA]; rfl
  · intro hcw
    constructor
    · rw [(prepare_frame mem ch msg).1]
      exact hcw
    · rcases send_cases mem ch msg with ⟨e, he⟩ | he
      · rw [he]; exact hcw
      · rw [he]
        simp only [load64_store64_same]
        rw [wrap_of_lt (wrap_lt _), hcw]
  · intro hcr
    constructor
    · rw [(receive_frame mem ch msg).1]
      exact hcr
    · rcases return_cases mem ch msg with ⟨e, he⟩ | he
      · rw [he]; exact hcr
      · rw [he]
        simp only [load64_store64_same]
        rw [wrap_of_lt (wrap_lt _), hcr]
  · intro hw
    rcases return_cases mem ch msg with ⟨e, he⟩ | he
    · rw [he]
    · rw [he]
      exact load64_store64_other _ _ _ _ (by omega)
  · intro hw
    rcases send_cases mem ch msg with ⟨e, he⟩ | he
    · rw [he]
    · rw [he]
      exact load64_store64_other _ _ _ _ (by omega)

/-- Claim C34, instantiated on the producer of `tests/channel.cpp` (a zeroed
144-byte buffer at address 4096, slot size 64): `cw = *w = 0` after init, and
`cw = *w = 64` after the first `prepare` and `send`. -/
theorem C34_owner_shadow_tracks_published_index_witness :
    (xchg_channel_init zero_mem zero_channel 64 NULL 0 4096 144).2.egress.cw =
      load64 zero_mem (xchg_channel_init zero_mem zero_channel 64 NULL 0 4096 144).2.egress.w ∧
    (xchg_channel_send zero_mem
      (xchg_channel_prepare zero_mem
        (xchg_channel_init zero_mem zero_channel 64 NULL 0 4096 144).2 unbound).2.1
      slot0).2.2.egress.cw =
      load64 (xchg_channel_send zero_mem
        (xchg_channel_prepare zero_mem
          (xchg_channel_init zero_mem zero_channel 64 NULL 0 4096 144).2 unbound).2.1
        slot0).2.1 4104 ∧
    (xchg_channel_send zero_mem
      (xchg_channel_prepare zero_mem
        (xchg_channel_init zero_mem zero_channel 64 NULL 0 4096 144).2 unbound).2.1
      slot0).2.2.egress.cw = 64 :=
  ⟨((C34_owner_shadow_tracks_published_index zero_mem
      (xchg_channel_init zero_mem zero_channel 64 NULL 0 4096 144).2 unbound).1
      zero_channel 64 NULL 0 4096 144 rfl).1 (by decide),
    ((C34_owner_shadow_tracks_published_index zero_mem
      (xchg_channel_prepare zero_mem
        (xchg_channel_init zero_mem zero_channel 64 NULL 0 4096 144).2 unbound).2.1
      slot0).2.1 (by decide)).2,
    by decide⟩

/-- With at least one buffer provided, a failing `xchg_channel_init` sets one of
its three error texts. -/
theorem init_failure_reports (mem : Mem) (ch : xchg_channel) (s I LI E LE : Nat)
    (hsome : I ≠ NULL ∨ E ≠ NULL) (h : (xchg_channel_init mem ch s I LI E LE).1 = false) :
    ∃ e, xchg_channel_strerror (xchg_channel_init mem ch s I LI E LE).2 = some e ∧ e ≠ "" ∧
      (e = ERR_MSG_SIZE ∨ e = ERR_INGRESS_SIZE ∨ e = ERR_EGRESS_SIZE) := by
  have h0 : ¬ (I = NULL ∧ E = NULL) := by
    rintro ⟨h1, h2⟩
    rcases hsome with c | c
    · exact c h1
    · exact c h2
  simp only [xchg_channel_init, if_neg h0] at h ⊢
  by_cases c2 : flp2 s ≠ s
  · rw [if_pos c2]
    exact ⟨ERR_MSG_SIZE, rfl, by decide, Or.inl rfl⟩
  · rw [if_neg c2] at h ⊢
    by_cases c3 : I ≠ NULL ∧ (flp2 (wsub (wsub LI 8) 8) ≠ wsub (wsub LI 8) 8
        ∨ wsub (wsub LI 8) 8 % s ≠ 0)
    · rw [if_pos c3]
      exact ⟨ERR_INGRESS_SIZE, rfl, by decide, Or.inr (Or.inl rfl)⟩
    · rw [if_neg c3] at h ⊢
      by_cases c4 : E ≠ NULL ∧ (flp2 (wsub (wsub LE 8) 8) ≠ wsub (wsub LE 8) 8
          ∨ wsub (wsub LE 8) 8 % s ≠ 0)
      · rw [if_pos c4]
        exact ⟨ERR_EGRESS_SIZE, rfl, by decide, Or.inr (Or.inr rfl)⟩
      · rw [if_neg c4] at h
        simp at h

/-- Claim C35 as stated (every failing channel init reports an error),
evaluated on the call with both buffers absent. For every memory, channel,
slot size and lengths, `xchg_channel_init(channel, s, NULL, Li, NULL, Le)`
returns failure and the channel exactly as it was, its error field included:
the call sets no error. On a zero-initialised channel `xchg_channel_strerror`
afterwards returns a null pointer, not an error string. The test for two
absent buffers sits in the guard that also refuses a null channel, and that
guard returns without recording anything. A wrong slot size, by contrast,
does set its text. -/
theorem C35_init_without_buffers_sets_no_error :
    (∀ (mem : Mem) (ch : xchg_channel) (s LI LE : Nat),
      xchg_channel_init mem ch s NULL LI NULL LE = (false, ch)) ∧
    (xchg_channel_init zero_mem zero_channel 64 NULL 0 NULL 0).1 = false ∧
    xchg_channel_strerror (xchg_channel_init zero_mem zero_channel 64 NULL 0 NULL 0).2 = none ∧
    xchg_channel_strerror (xchg_channel_init zero_mem zero_channel 63 NULL 0 4096 144).2 =
      some ERR_MSG_SIZE := by
  refine ⟨fun mem ch s LI LE => ?_, by decide, by decide, by decide⟩
  simp [xchg_channel_init]

/-- Claim C35 (every failing channel init reports an error), for calls with at
least one buffer provided. Whatever the memory, the channel and its previous
error, when `xchg_channel_init` is given an ingress or an egress buffer and
returns failure, `xchg_channel_strerror` afterwards returns a non-empty text,
and that text is one of the three the call can set: "message size is
invalid", "ingress size is invalid" or "egress size is invalid". When both
buffers are absent the call returns failure and the channel exactly as it
was, so the error is whatever it was before. -/
theorem C35_failing_init_with_a_buffer_reports_an_error (mem : Mem) (ch : xchg_channel)
    (s I LI E LE : Nat) :
    (I ≠ NULL ∨ E ≠ NULL → (xchg_channel_init mem ch s I LI E LE).1 = false →
      ∃ e, xchg_channel_strerror (xchg_channel_init mem ch s I LI E LE).2 = some e ∧ e ≠ "" ∧
        (e = ERR_MSG_SIZE ∨ e = ERR_INGRESS_SIZE ∨ e = ERR_EGRESS_SIZE)) ∧
    (I = NULL → E = NULL → xchg_channel_init mem ch s I LI E LE = (false, ch)) := by
  refine ⟨fun hsome h => init_failure_reports mem ch s I LI E LE hsome h, ?_⟩
  intro hI hE
  simp [xchg_channel_init, hI, hE]

/-- Claim C35, instantiated on the calls of the test "channel create": with slot
size 64, an ingress buffer of 63 bytes is refused with "ingress size is
invalid", an egress buffer of 63 bytes with "egress size is invalid", on a
channel that already carries the error of the previous failing call. -/
theorem C35_failing_init_with_a_buffer_reports_an_error_witness :
    (∃ e, xchg_channel_strerror
        (xchg_channel_init zero_mem zero_channel 64 4096 63 NULL 0).2 = some e ∧ e ≠ "" ∧
      (e = ERR_MSG_SIZE ∨ e = ERR_INGRESS_SIZE ∨ e = ERR_EGRESS_SIZE)) ∧
    xchg_channel_strerror (xchg_channel_init zero_mem zero_channel 64 4096 63 NULL 0).2 =
      some ERR_INGRESS_SIZE ∧
    xchg_channel_strerror
      (xchg_channel_init zero_mem
        (xchg_channel_init zero_mem zero_channel 64 4096 63 NULL 0).2 64 NULL 0 8208 63).2 =
      some ERR_EGRESS_SIZE :=
  ⟨(C35_failing_init_with_a_buffer_reports_an_error zero_mem zero_channel 64 4096 63 NULL 0).1
      (Or.inl (by decide)) (by decide),
    by decide, by decide⟩

/-! ## Progress of the readers, and peek against the read kernel -/

/-- Claim C36 (a successful read makes progress), evaluated on the 9-byte buffer
`73 F7 FF FF FF FF FF FF FF`, a `uint8` list whose length field holds
`2^64 - 9`. On the cursor at position 0 the read kernel returns success and
leaves the position at 0, and so does `xchg_message_read_uint8_list`: the sum
`9 + (2^64 - 9)` of the bounds check and of the position update wraps around
to 0. One iteration of the loop of the fuzz harness (peek, then the matching
typed reader) therefore ends on the cursor it started from, and the loop is
still running after any number of iterations. -/
theorem C36_successful_read_without_progress :
    (xchg_message_read (oversized_uint8_list 4096) ⟨4096, 9, 0, none⟩).1 = true ∧
    (xchg_message_read (oversized_uint8_list 4096) ⟨4096, 9, 0, none⟩).2.1 =
      ⟨4096, 9, 0, none⟩ ∧
    (xchg_message_read_list .uint8 (oversized_uint8_list 4096) ⟨4096, 9, 0, none⟩
      (some none) (some 0)).1 = true ∧
    fuzz_step (oversized_uint8_list 4096) ⟨4096, 9, 0, none⟩ = some ⟨4096, 9, 0, none⟩ ∧
    ∀ n, fuzz_loop n (oversized_uint8_list 4096) ⟨4096, 9, 0, none⟩ = none := by
  have hstep : fuzz_step (oversized_uint8_list 4096) ⟨4096, 9, 0, none⟩ =
      some ⟨4096, 9, 0, none⟩ := by decide
  refine ⟨by decide, by decide, by decide, hstep, fun n => ?_⟩
  induction n with
  | zero => rfl
  | succ k ih => simp only [fuzz_loop, hstep, ih]

theorem payload_pos {y sz L : Nat} (hgt : L < wrap (wrap y + sz)) (hx : wrap y ≤ L) : 0 < sz := by
  rcases Nat.eq_zero_or_pos sz with h0 | h0
  · exfalso
    subst h0
    simp only [wrap, Nat.add_zero] at *
    omega
  · exact h0

theorem peek_fail_read_fail (mem : Mem) (m : xchg_message) (out : peek_out)
    (h : (xchg_message_peek mem m out).1 = false) :
    ∃ e, xchg_message_peek mem m out = (false, { m with error := some e }, out) ∧
      xchg_message_read mem m = (false, { m with error := some e }, none) := by
  simp only [xchg_message_peek, xchg_message_read] at h ⊢
  generalize tag_of_byte (mem (m.data + m.position)) = t at h ⊢
  obtain ⟨ty, lsz, list, null⟩ := t
  by_cases c1 : wrap (m.position + 1) > m.length
  · exact ⟨ERR_EOF, by simp [c1], by simp [c1]⟩
  have c1' : wrap (m.position + 1) ≤ m.length := by omega
  cases null <;> cases list <;> by_cases hl : lsz > 0 <;> simp only [c1, hl, if_false,
    Bool.not_true, Bool.not_false, Bool.false_and, Bool.true_and, Bool.and_true, Bool.and_false,
    decide_True, decide_False, Bool.false_eq_true, if_true] at h ⊢
  all_goals (repeat' split at h)
  all_goals (first | (simp at h; done) | skip)
  all_goals first
    | (refine ⟨ERR_TYPE, ?_, ?_⟩ <;> simp_all <;> done)
    | (refine ⟨ERR_TRUNC, ?_, ?_⟩ <;> simp_all <;> done)
    | skip
  all_goals rename_i sz heq hgt
  all_goals simp only [decide_eq_true_eq, gt_iff_lt, not_lt] at *
  all_goals have hsz : 0 < sz := payload_pos hgt (by assumption)
  all_goals refine ⟨ERR_TRUNC, ?_, ?_⟩ <;> simp_all

theorem peek_ok_errors (mem : Mem) (m : xchg_message) (out : peek_out)
    (h : (xchg_message_peek mem m out).1 = true) :
    (xchg_message_peek mem m out).2.1 = { m with error := none } ∧
    (xchg_message_read mem m).2.1.error = none := by
  simp only [xchg_message_peek, xchg_message_read] at h ⊢
  generalize tag_of_byte (mem (m.data + m.position)) = t at h ⊢
  obtain ⟨ty, lsz, list, null⟩ := t
  by_cases c1 : wrap (m.position + 1) > m.length
  · simp [c1] at h
  have c1' : wrap (m.position + 1) ≤ m.length := by omega
  cases null <;> cases list <;> by_cases hl : lsz > 0 <;> simp only [c1, hl, if_false,
    Bool.not_true, Bool.not_false, Bool.false_and, Bool.true_and, Bool.and_true, Bool.and_false,
    decide_True, decide_False, Bool.false_eq_true, if_true] at h ⊢
  all_goals (repeat' split at h)
  all_goals (first | (simp at h; done) | skip)
  all_goals (try split_ifs)
  all_goals first
    | (refine ⟨?_, ?_⟩ <;> simp_all <;> done)
    | (exfalso; simp_all; omega)

/-- Claim C37 (peek and the read kernel agree). For every memory, cursor and
choice of peek outputs, `xchg_message_peek` succeeds exactly when
`xchg_message_read` succeeds on the same cursor, and both leave the same
error in the cursor: none on success, the same text on failure. When they
succeed, the type, null flag, list flag and list count that peek stores in
its supplied outputs are those of the value the kernel returns. When they
fail, peek leaves its outputs as they were, the kernel returns no value and
leaves the position as it was. Peek never moves the position. -/
theorem C37_peek_and_read_agree (mem : Mem) (m : xchg_message) (out : peek_out) :
    (xchg_message_peek mem m out).1 = (xchg_message_read mem m).1 ∧
    (xchg_message_peek mem m out).2.1.error = (xchg_message_read mem m).2.1.error ∧
    ((xchg_message_peek mem m out).1 = true →
      ∃ v, (xchg_message_read mem m).2.2 = some v ∧
        (xchg_message_peek mem m out).2.2 =
          { sz_list := out.sz_list.map (fun _ => v.sz_list)
            type := out.type.map (fun _ => v.type)
            null := out.null.map (fun _ => v.null)
            list := out.list.map (fun _ => v.list) }) ∧
    ((xchg_message_peek mem m out).1 = false →
      (xchg_message_peek mem m out).2.2 = out ∧ (xchg_message_read mem m).2.2 = none ∧
      (xchg_message_read mem m).2.1.position = m.position) ∧
    (xchg_message_peek mem m out).2.1.position = m.position := by
  cases hp : (xchg_message_peek mem m out).1 with
  | true =>
    obtain ⟨v, m1, hr, -, -, -, hout, -, -⟩ := peek_ok_read_ok mem m out hp
    obtain ⟨hc, he⟩ := peek_ok_errors mem m out hp
    rw [hr] at he ⊢
    rw [hc]
    refine ⟨rfl, he.symm, fun _ => ⟨v, rfl, hout⟩, fun c => by simp at c, rfl⟩
  | false =>
    obtain ⟨e, h1, h2⟩ := peek_fail_read_fail mem m out hp
    rw [h1, h2]
    exact ⟨rfl, rfl, fun c => by simp at c, fun _ => ⟨rfl, rfl, rfl⟩, rfl⟩

/-- Claim C37, instantiated on the 13-byte buffer of the peek test and on a
zeroed buffer (type code 0): both calls succeed on the first and report an
`int16` list of 3 elements, both fail on the second with the same error. -/
theorem C37_peek_and_read_agree_witness :
    ((xchg_message_peek (peek_test_buffer 4096) ⟨4096, 13, 0, none⟩
        ⟨some 0, some false, some false, some 0⟩).1 = true →
      ∃ v, (xchg_message_read (peek_test_buffer 4096) ⟨4096, 13, 0, none⟩).2.2 = some v ∧
        (xchg_message_peek (peek_test_buffer 4096) ⟨4096, 13, 0, none⟩
          ⟨some 0, some false, some false, some 0⟩).2.2 =
          { sz_list := (some 0).map (fun _ => v.sz_list)
            type := (some 0).map (fun _ => v.type)
            null := (some false).map (fun _ => v.null)
            list := (some false).map (fun _ => v.list) }) ∧
    (xchg_message_peek (peek_test_buffer 4096) ⟨4096, 13, 0, none⟩
      ⟨some 0, some false, some false, some 0⟩).1 = true ∧
    (xchg_message_read (peek_test_buffer 4096) ⟨4096, 13, 0, none⟩).1 = true ∧
    (xchg_message_read (peek_test_buffer 4096) ⟨4096, 13, 0, none⟩).2.1 =
      ⟨4096, 13, 8, none⟩ ∧
    (xchg_message_peek zero_mem ⟨4096, 4, 0, none⟩ ⟨none, none, none, none⟩).2.1 =
      ⟨4096, 4, 0, some ERR_TYPE⟩ ∧
    (xchg_message_read zero_mem ⟨4096, 4, 0, none⟩).2.1 = ⟨4096, 4, 0, some ERR_TYPE⟩ :=
  ⟨(C37_peek_and_read_agree (peek_test_buffer 4096) ⟨4096, 13, 0, none⟩
      ⟨some 0, some false, some false, some 0⟩).2.2.1,
    by decide, by decide, by decide, by decide, by decide⟩

/-! ## The list writer's space check -/

/-- Claim C38 (the list writer's space check is sound for every count),
evaluated on `write_uint32_list(list, 2^62 + 2)` with the two elements 7 and 9
behind `list`, on a 64-byte cursor over zeroed memory. The write returns
success, emits the ten bytes `57 02 07 00 00 00 09 00 00 00` and leaves the
position at 10, although `1 + 1 + (2^62 + 2) * 4` exceeds the 64 bytes that
are left; the length field holds 2, and `read_uint32_list` on these bytes
returns the count 2, not `2^62 + 2`. The payload size
`sz_list * sizeof(uint32_t)` wrapped around to 8. -/
theorem C38_oversized_count_accepted :
    (xchg_message_write_list .uint32 zero_mem ⟨4096, 64, 0, none⟩ (some [7, 9])
      (2 ^ 62 + 2)).1 = true ∧
    load_bytes (xchg_message_write_list .uint32 zero_mem ⟨4096, 64, 0, none⟩ (some [7, 9])
      (2 ^ 62 + 2)).2.1 4096 10 = [0x57, 0x02, 7, 0, 0, 0, 9, 0, 0, 0] ∧
    (xchg_message_write_list .uint32 zero_mem ⟨4096, 64, 0, none⟩ (some [7, 9])
      (2 ^ 62 + 2)).2.2 = ⟨4096, 64, 10, none⟩ ∧
    ¬ (1 + 1 + (2 ^ 62 + 2) * scalar.uint32.sizeof ≤ 64 - 0) ∧
    xchg_message_read_list .uint32
        (xchg_message_write_list .uint32 zero_mem ⟨4096, 64, 0, none⟩ (some [7, 9])
          (2 ^ 62 + 2)).2.1
        ⟨4096, 64, 0, none⟩ (some none) (some 0) =
      (true, ⟨4096, 64, 10, none⟩, some (some 4098), some 2) ∧
    2 ≠ 2 ^ 62 + 2 := by
  decide

theorem prepare_ok_free (mem : Mem) (ch : xchg_channel) (msg0 : xchg_message)
    (h : (xchg_channel_prepare mem ch msg0).1 = true) :
    ch.egress.sz_message ≤
      wsub (xchg_channel_prepare mem ch msg0).2.1.egress.cr ch.egress.cw := by
  by_cases hd : ch.egress.data = NULL
  · simp [xchg_channel_prepare, hd] at h
  · by_cases hf : wsub ch.egress.cr ch.egress.cw < ch.egress.sz_message
    · by_cases hf2 : wsub (wrap (load64 mem ch.egress.r + ch.egress.sz_data)) ch.egress.cw
          < ch.egress.sz_message
      · simp [xchg_channel_prepare, nr_free, hd, hf, hf2] at h
      · simp only [xchg_channel_prepare, nr_free, if_neg hd, if_pos hf, if_neg hf2]
        omega
    · simp only [xchg_channel_prepare, nr_free, if_neg hd, if_neg hf]
      omega

theorem receive_ok_used (mem : Mem) (ch : xchg_channel) (msg0 : xchg_message)
    (h : (xchg_channel_receive mem ch msg0).1 = true) :
    ch.ingress.sz_message ≤
      wsub (xchg_channel_receive mem ch msg0).2.1.ingress.cw ch.ingress.cr := by
  by_cases hd : ch.ingress.data = NULL
  · simp [xchg_channel_receive, hd] at h
  · by_cases hf : wsub ch.ingress.cw ch.ingress.cr < ch.ingress.sz_message
    · by_cases hf2 : wsub (load64 mem ch.ingress.w) ch.ingress.cr < ch.ingress.sz_message
      · simp [xchg_channel_receive, nr_used, hd, hf, hf2] at h
      · simp only [xchg_channel_receive, nr_used, if_neg hd, if_pos hf, if_neg hf2]
        omega
    · simp only [xchg_channel_receive, nr_used, if_neg hd, if_neg hf]
      omega

theorem prepare_again (mem mem1 : Mem) (ch ch1 : xchg_channel) (msg0 msg msg1 : xchg_message)
    (hs : ch.egress.sz_message ≠ 0)
    (h : xchg_channel_prepare mem ch msg0 = (true, ch1, msg)) :
    xchg_channel_prepare mem1 ch1 msg1 = (true, ch1, msg) := by
  have hok : (xchg_channel_prepare mem ch msg0).1 = true := by rw [h]
  obtain ⟨hd, hmsg, herr, -, hegr⟩ := prepare_binds mem ch msg0 hs hok
  have hfree := prepare_ok_free mem ch msg0 hok
  rw [h] at hmsg herr hegr hfree
  simp only at hmsg herr hegr hfree
  obtain ⟨ing1, ⟨r1, cr1, w1, cw1, d1, szd1, szm1, mask1⟩, err1⟩ := ch1
  simp only [xchg_ring.mk.injEq, true_and] at herr hegr hfree
  obtain ⟨e1, e2, e3, e4, e5, e6, e7⟩ := hegr
  subst herr hmsg e1 e2 e3 e4 e5 e6 e7
  have hd0 : ch.egress.data ≠ 0 := hd
  have hnf : ¬ (wsub cr1 ch.egress.cw < ch.egress.sz_message) := by omega
  simp [xchg_channel_prepare, nr_free, xchg_message_init, hd, hd0, hnf, hs, NULL]

theorem receive_again (mem mem1 : Mem) (ch ch1 : xchg_channel) (msg0 msg msg1 : xchg_message)
    (hs : ch.ingress.sz_message ≠ 0)
    (h : xchg_channel_receive mem ch msg0 = (true, ch1, msg)) :
    xchg_channel_receive mem1 ch1 msg1 = (true, ch1, msg) := by
  have hok : (xchg_channel_receive mem ch msg0).1 = true := by rw [h]
  obtain ⟨hd, hmsg, herr, -, hing⟩ := receive_binds mem ch msg0 hs hok
  have hused := receive_ok_used mem ch msg0 hok
  rw [h] at hmsg herr hing hused
  simp only at hmsg herr hing hused
  obtain ⟨⟨r1, cr1, w1, cw1, d1, szd1, szm1, mask1⟩, egr1, err1⟩ := ch1
  simp only [xchg_ring.mk.injEq, true_and] at herr hing hused
  obtain ⟨e1, e2, e3, e4, e5, e6, e7⟩ := hing
  subst herr hmsg e1 e2 e3 e4 e5 e6 e7
  have hd0 : ch.ingress.data ≠ 0 := hd
  have hnf : ¬ (wsub cw1 ch.ingress.cr < ch.ingress.sz_message) := by omega
  simp [xchg_channel_receive, nr_used, xchg_message_init, hd, hd0, hnf, hs, NULL]

/-- Claim C39 (prepare and receive publish nothing). `xchg_channel_prepare`,
successful or not, changes no field of the egress ring other than the `cr`
shadow, and nothing of the ingress ring; `xchg_channel_receive` changes no
field of the ingress ring other than the `cw` shadow, and nothing of the
egress ring. Both take the memory as an input only: as a step of an endpoint
they leave every byte, the published indices among them, as it was.
Consequently, on a ring with a nonzero slot size, after a successful
`prepare` a further `prepare`, whatever the memory holds by then, succeeds,
binds the identical cursor and leaves the channel as it is; likewise for two
consecutive calls of `receive`. -/
theorem C39_prepare_and_receive_publish_nothing (mem : Mem) (ch : xchg_channel)
    (msg0 : xchg_message) :
    ((xchg_channel_prepare mem ch msg0).2.1.egress =
        { ch.egress with cr := (xchg_channel_prepare mem ch msg0).2.1.egress.cr } ∧
      (xchg_channel_prepare mem ch msg0).2.1.ingress = ch.ingress) ∧
    ((xchg_channel_receive mem ch msg0).2.1.ingress =
        { ch.ingress with cw := (xchg_channel_receive mem ch msg0).2.1.ingress.cw } ∧
      (xchg_channel_receive mem ch msg0).2.1.egress = ch.egress) ∧
    (∀ S S1 : Endpoints, step S .prepare = some S1 ∨ step S .receive = some S1 →
      S1.mem = S.mem) ∧
    (ch.egress.sz_message ≠ 0 → ∀ (ch1 : xchg_channel) (msg : xchg_message),
      xchg_channel_prepare mem ch msg0 = (true, ch1, msg) →
      ∀ (mem1 : Mem) (msg1 : xchg_message),
        xchg_channel_prepare mem1 ch1 msg1 = (true, ch1, msg)) ∧
    (ch.ingress.sz_message ≠ 0 → ∀ (ch1 : xchg_channel) (msg : xchg_message),
      xchg_channel_receive mem ch msg0 = (true, ch1, msg) →
      ∀ (mem1 : Mem) (msg1 : xchg_message),
        xchg_channel_receive mem1 ch1 msg1 = (true, ch1, msg)) := by
  refine ⟨prepare_frame mem ch msg0, receive_frame mem ch msg0, ?_, ?_, ?_⟩
  · intro S S1 hstep
    rcases hstep with hstep | hstep
    all_goals simp only [step] at hstep
    all_goals split at hstep
    all_goals first
      | exact absurd hstep (by simp)
      | (split at hstep <;>
          (simp only [Option.some.injEq] at hstep
           subst hstep
           rfl))
  · intro hs ch1 msg h mem1 msg1
    exact prepare_again mem mem1 ch ch1 msg0 msg msg1 hs h
  · intro hs ch1 msg h mem1 msg1
    exact receive_again mem mem1 ch ch1 msg0 msg msg1 hs h

/-- Claim C39, instantiated on the producer over a zeroed 144-byte buffer at
address 4096 with slot size 64: two consecutive `prepare` calls bind the slot
at offset 0 both times. -/
theorem C39_prepare_and_receive_publish_nothing_witness :
    xchg_channel_prepare zero_mem
        (xchg_channel_init zero_mem zero_channel 64 NULL 0 4096 144).2 unbound =
      (true, (xchg_channel_prepare zero_mem
        (xchg_channel_init zero_mem zero_channel 64 NULL 0 4096 144).2 unbound).2.1, slot0) ∧
    xchg_channel_prepare zero_mem
        (xchg_channel_prepare zero_mem
          (xchg_channel_init zero_mem zero_channel 64 NULL 0 4096 144).2 unbound).2.1 unbound =
      (true, (xchg_channel_prepare zero_mem
        (xchg_channel_init zero_mem zero_channel 64 NULL 0 4096 144).2 unbound).2.1, slot0) :=
  ⟨rfl,
    (C39_prepare_and_receive_publish_nothing zero_mem
      (xchg_channel_init zero_mem zero_channel 64 NULL 0 4096 144).2 unbound).2.2.2.1
      (by decide) _ slot0 rfl zero_mem unbound⟩

/-- Claim C40 (the two directions are independent). Take a channel whose two
rings are laid out as `xchg_channel_init` lays them out (`w = r + 8` on each)
over distinct buffers, so that the index words of the two buffers do not
overlap. Then `xchg_channel_prepare` and `xchg_channel_send` leave every field
of the ingress ring and both published indices of the ingress buffer
unchanged, and `xchg_channel_receive` and `xchg_channel_return` leave every
field of the egress ring and both published indices of the egress buffer
unchanged (`prepare` and `receive` write no memory at all). -/
theorem C40_directions_are_independent (mem : Mem) (ch : xchg_channel) (msg : xchg_message)
    (hEw : ch.egress.w = ch.egress.r + 8) (hIw : ch.ingress.w = ch.ingress.r + 8)
    (hdisj : ch.ingress.r + 16 ≤ ch.egress.r ∨ ch.egress.r + 16 ≤ ch.ingress.r) :
    (xchg_channel_prepare mem ch msg).2.1.ingress = ch.ingress ∧
    ((xchg_channel_send mem ch msg).2.2.ingress = ch.ingress ∧
      load64 (xchg_channel_send mem ch msg).2.1 ch.ingress.r = load64 mem ch.ingress.r ∧
      load64 (xchg_channel_send mem ch msg).2.1 ch.ingress.w = load64 mem ch.ingress.w) ∧
    (xchg_channel_receive mem ch msg).2.1.egress = ch.egress ∧
    ((xchg_channel_return mem ch msg).2.2.egress = ch.egress ∧
      load64 (xchg_channel_return mem ch msg).2.1 ch.egress.r = load64 mem ch.egress.r ∧
      load64 (xchg_channel_return mem ch msg).2.1 ch.egress.w = load64 mem ch.egress.w) := by
  refine ⟨(prepare_frame mem ch msg).2, ?_, (receive_frame mem ch msg).2, ?_⟩
  · rcases send_cases mem ch msg with ⟨e, he⟩ | he
    · rw [he]; exact ⟨rfl, rfl, rfl⟩
    · rw [he]
      exact ⟨rfl, load64_store64_other _ _ _ _ (by omega),
        load64_store64_other _ _ _ _ (by omega)⟩
  · rcases return_cases mem ch msg with ⟨e, he⟩ | he
    · rw [he]; exact ⟨rfl, rfl, rfl⟩
    · rw [he]
      exact ⟨rfl, load64_store64_other _ _ _ _ (by omega),
        load64_store64_other _ _ _ _ (by omega)⟩

/-- Claim C40, instantiated on the channel of the test "channel create": two
zeroed 4112-byte buffers at addresses 4096 (ingress) and 8208 (egress) with
slot size 64. After `prepare` and `send` on the egress the ingress ring is as
it was and the ingress buffer still has `*r = *w = 0`. -/
theorem C40_directions_are_independent_witness :
    ((xchg_channel_send zero_mem
        (xchg_channel_prepare zero_mem
          (xchg_channel_init zero_mem zero_channel 64 4096 4112 8208 4112).2 unbound).2.1
        ⟨8224, 64, 0, none⟩).2.2.ingress =
        (xchg_channel_prepare zero_mem
          (xchg_channel_init zero_mem zero_channel 64 4096 4112 8208 4112).2 unbound).2.1.ingress ∧
      load64 (xchg_channel_send zero_mem
        (xchg_channel_prepare zero_mem
          (xchg_channel_init zero_mem zero_channel 64 4096 4112 8208 4112).2 unbound).2.1
        ⟨8224, 64, 0, none⟩).2.1 4096 = load64 zero_mem 4096 ∧
      load64 (xchg_channel_send zero_mem
        (xchg_channel_prepare zero_mem
          (xchg_channel_init zero_mem zero_channel 64 4096 4112 8208 4112).2 unbound).2.1
        ⟨8224, 64, 0, none⟩).2.1 4104 = load64 zero_mem 4104) ∧
    (xchg_channel_send zero_mem
      (xchg_channel_prepare zero_mem
        (xchg_channel_init zero_mem zero_channel 64 4096 4112 8208 4112).2 unbound).2.1
      ⟨8224, 64, 0, none⟩).1 = true ∧
    load64 (xchg_channel_send zero_mem
      (xchg_channel_prepare zero_mem
        (xchg_channel_init zero_mem zero_channel 64 4096 4112 8208 4112).2 unbound).2.1
      ⟨8224, 64, 0, none⟩).2.1 8216 = 64 :=
  ⟨(C40_directions_are_independent zero_mem
      (xchg_channel_prepare zero_mem
        (xchg_channel_init zero_mem zero_channel 64 4096 4112 8208 4112).2 unbound).2.1
      ⟨8224, 64, 0, none⟩ (by decide) (by decide) (by decide)).2.1,
    by decide, by decide⟩

end Xchg
